import Mathlib

/-!
# NTCP session core of i2pd: handshake handlers and record layer

A shallow embedding of `NTCPSession.cpp`.  Byte buffers are lists of natural
numbers (a byte is a number below 256), the session object is a record that is
passed explicitly, and every asynchronous completion handler of the source is a
function from the session before the completion to the session after it.

The primitives of the crypto library (SHA-256, the AES block transform,
Diffie-Hellman agreement, DSA) and the services of the router context are
collected in `Env`; the code of the session is translated against them.

The session request of `NTCP2.cpp` (`KeyDerivationFunction`,
`SendSessionRequest`) is embedded the same way against the primitives in
`NTCP2Env`.
-/

namespace NTCP

/-- A byte buffer. -/
abbrev Bytes := List Nat

/-! ## Buffers -/

/-- The `n` bytes of `buf` that start at `pos`.  Positions past the end of the
list (memory behind the array) read as `0`, so the result always has `n` bytes. -/
def slice (buf : Bytes) (pos n : Nat) : Bytes :=
  ((buf.drop pos) ++ List.replicate n 0).take n

/-- The effect of `memcpy (buf + pos, data, data.length)`. -/
def writeAt (buf : Bytes) (pos : Nat) (data : Bytes) : Bytes :=
  buf.take pos ++ data ++ buf.drop (pos + data.length)

/-- The two bytes in memory of the `uint16_t` value `htobe16 (v)`. -/
def htobe16 (v : Nat) : Bytes :=
  [(v / 256) % 256, v % 256]

/-- The four bytes in memory of the `uint32_t` value `htobe32 (v)`. -/
def htobe32 (v : Nat) : Bytes :=
  [(v / 16777216) % 256, (v / 65536) % 256, (v / 256) % 256, v % 256]

/-- The value `be16toh (*(uint16_t *)b)` of the first two bytes of `b`. -/
def be16toh (b : Bytes) : Nat :=
  (b.getD 0 0 % 256) * 256 + b.getD 1 0 % 256

/-- Bytewise exclusive or. -/
def xorBytes (a b : Bytes) : Bytes :=
  List.zipWith (fun x y => x ^^^ y) a b

/-! ## Adler-32 (`CryptoPP::Adler32`, digest size 4) -/

/-- One `Update` step of Adler-32 on the pair `(s1, s2)`. -/
def adlerStep (st : Nat × Nat) (b : Nat) : Nat × Nat :=
  ((st.1 + b) % 65521, (st.2 + (st.1 + b) % 65521) % 65521)

/-- The digest written by `m_Adler.CalculateDigest (out, data, len)`:
`s2` then `s1`, each most significant byte first. -/
def adler32 (data : Bytes) : Bytes :=
  let st := data.foldl adlerStep (1, 0)
  [(st.2 / 256) % 256, st.2 % 256, (st.1 / 256) % 256, st.1 % 256]

/-! ## Environment -/

/-- Modelled from the spec: the struct `I2NPMessage` is declared in
`I2NPProtocol.h`, which is not among the sources.  An I2NP message is a fixed
buffer `buf`, the end position `len` of the data in it and the position `offset`
of its first byte, the three fields `DecryptNextBlock` sets. -/
structure I2NPMessage where
  buf : Bytes
  len : Nat
  offset : Nat
deriving DecidableEq, Repr

/-- Modelled from the spec: `GetLength ()` of `I2NPProtocol.h`, the number of
bytes from `offset` up to `len` (a received message of `dataSize` bytes has
`offset = 2` and `len = dataSize + 2`). -/
def I2NPMessage.GetLength (m : I2NPMessage) : Nat :=
  m.len - m.offset

/-- The primitives and collaborators the session code calls. -/
structure Env where
  /-- `CryptoPP::SHA256().CalculateDigest`. -/
  SHA256 : Bytes → Bytes
  /-- AES encryption of one 16-byte block under a key. -/
  aesEncryptBlock : Bytes → Bytes → Bytes
  /-- AES decryption of one 16-byte block under a key. -/
  aesDecryptBlock : Bytes → Bytes → Bytes
  /-- `dh.Agree (secretKey, privateKey, pubKey)`: the agreed value, or `none`
  when agreement fails. -/
  dhAgree : Bytes → Bytes → Option Bytes
  /-- `verifier.VerifyMessage (msg, sig)` for the DSA key built from a signing key. -/
  dsaVerify : Bytes → Bytes → Bytes → Bool
  /-- `i2p::context.Sign (buf, len, signature)`: the 40-byte signature. -/
  Sign : Bytes → Bytes
  /-- `i2p::context.GetRouterIdentity ()`, the bytes of the local identity. -/
  routerIdentity : Bytes
  /-- The member `publicKey` of a `RouterIdentity`, given the bytes of the identity. -/
  identityPublicKey : Bytes → Bytes
  /-- The member `signingKey` of a `RouterIdentity`, given the bytes of the identity. -/
  identitySigningKey : Bytes → Bytes
  /-- `i2p::context.GetRouterInfo ().GetIdentHash ()`. -/
  identHash : Bytes
  /-- `i2p::context.GetPrivateKey ()`. -/
  privateKey : Bytes
  /-- The message returned by `i2p::NewI2NPMessage ()`. -/
  NewI2NPMessage : I2NPMessage
  /-- The message returned by `CreateDatabaseStoreMsg ()`. -/
  CreateDatabaseStoreMsg : I2NPMessage
  /-- The content of the local array `uint8_t aesKey[32]` before it is written. -/
  aesKeyStack : Bytes
  /-- The value of `sizeof (i2p::data::RouterIdentity)`. -/
  identitySize : Nat

/-! ## AES-CBC contexts -/

/-- A CBC context after `SetKeyWithIV`: the key and the chaining register. -/
structure CBC where
  key : Bytes
  iv : Bytes
deriving DecidableEq, Repr

/-- CBC encryption of `k` blocks of `data` with chaining register `reg`; what
follows the `k` blocks is left as it is.  Returns the output and the register. -/
def cbcEncryptBlocks (E : Bytes → Bytes → Bytes) (key : Bytes) :
    Nat → Bytes → Bytes → Bytes × Bytes
  | 0, reg, data => (data, reg)
  | k + 1, reg, data =>
    let c := E key (xorBytes (data.take 16) reg)
    let r := cbcEncryptBlocks E key k c (data.drop 16)
    (c ++ r.1, r.2)

/-- CBC decryption of `k` blocks of `data` with chaining register `reg`. -/
def cbcDecryptBlocks (D : Bytes → Bytes → Bytes) (key : Bytes) :
    Nat → Bytes → Bytes → Bytes × Bytes
  | 0, reg, data => (data, reg)
  | k + 1, reg, data =>
    let p := xorBytes (D key (data.take 16)) reg
    let r := cbcDecryptBlocks D key k (data.take 16) (data.drop 16)
    (p ++ r.1, r.2)

/-- The 16 bytes the AES encryption of one block writes. -/
def aesEncrypt16 (env : Env) (key block : Bytes) : Bytes :=
  slice (env.aesEncryptBlock key block) 0 16

/-- The 16 bytes the AES decryption of one block writes. -/
def aesDecrypt16 (env : Env) (key block : Bytes) : Bytes :=
  slice (env.aesDecryptBlock key block) 0 16

/-- The call `m_Encryption.ProcessData (out, data, data.length)`. -/
def CBC.Encrypt (env : Env) (c : CBC) (data : Bytes) : Bytes × CBC :=
  let r := cbcEncryptBlocks (aesEncrypt16 env) c.key (data.length / 16) c.iv data
  (r.1, { c with iv := r.2 })

/-- The call `m_Decryption.ProcessData (out, data, data.length)`. -/
def CBC.Decrypt (env : Env) (c : CBC) (data : Bytes) : Bytes × CBC :=
  let r := cbcDecryptBlocks (aesDecrypt16 env) c.key (data.length / 16) c.iv data
  (r.1, { c with iv := r.2 })

/-! ## Records of the handshake -/

/-- Modelled from the spec: the record `NTCPPhase1` of `NTCPSession.h` (not among
the sources), `pubKey[256] || HXxorHI[32]`. -/
structure NTCPPhase1 where
  pubKey : Bytes
  HXxorHI : Bytes
deriving DecidableEq, Repr

/-- Modelled from the spec: the record `NTCPPhase2` of `NTCPSession.h`,
`pubKey[256] || encrypted`, where `encrypted` is the 48-byte block
`hxy[32] || timestamp[4] || filler[12]`. -/
structure NTCPPhase2 where
  pubKey : Bytes
  encrypted : Bytes
deriving DecidableEq, Repr

/-- The field `encrypted.hxy` of a Phase2 record. -/
def NTCPPhase2.hxy (p : NTCPPhase2) : Bytes := slice p.encrypted 0 32

/-- The field `encrypted.timestamp` of a Phase2 record, as it lies in memory. -/
def NTCPPhase2.timestamp (p : NTCPPhase2) : Bytes := slice p.encrypted 32 4

/-- Modelled from the spec: `sizeof (NTCPPhase3)` for the layout
`size[2] || ident || timestamp[4] || signature[40] || padding`, a whole number
of AES blocks. -/
def phase3Size (env : Env) : Nat :=
  (2 + env.identitySize + 4 + 40) + (16 - (2 + env.identitySize + 4 + 40) % 16) % 16

/-- Modelled from the spec: the field `ident` of a Phase3 record. -/
def phase3Ident (env : Env) (p : Bytes) : Bytes := slice p 2 env.identitySize

/-- Modelled from the spec: the field `timestamp` of a Phase3 record. -/
def phase3Timestamp (env : Env) (p : Bytes) : Bytes := slice p (2 + env.identitySize) 4

/-- Modelled from the spec: the field `signature` of a Phase3 record. -/
def phase3Signature (env : Env) (p : Bytes) : Bytes := slice p (2 + env.identitySize + 4) 40

/-- Modelled from the spec: `sizeof (NTCPPhase4)` for `signature[40] || padding`. -/
def phase4Size : Nat := 48

/-- Modelled from the spec: the field `signature` of a Phase4 record. -/
def phase4Signature (p : Bytes) : Bytes := slice p 0 40

/-- The 256 bytes of the member `publicKey` of a router identity. -/
def publicKey (env : Env) (identity : Bytes) : Bytes := slice (env.identityPublicKey identity) 0 256

/-- The 128 bytes of the member `signingKey` of a router identity. -/
def signingKey (env : Env) (identity : Bytes) : Bytes :=
  slice (env.identitySigningKey identity) 0 128

/-- The 32 bytes written by `CryptoPP::SHA256().CalculateDigest (out, data, len)`. -/
def sha256 (env : Env) (data : Bytes) : Bytes := slice (env.SHA256 data) 0 32

/-- The struct `SignedData`: `x[256] || y[256] || ident[32] || tsA[4] || tsB[4]`. -/
def SignedData (x y ident tsA tsB : Bytes) : Bytes :=
  slice x 0 256 ++ slice y 0 256 ++ slice ident 0 32 ++ slice tsA 0 4 ++ slice tsB 0 4

/-- What the session keeps of `i2p::data::RouterInfo`: the router identity and
its hash. -/
structure RouterInfo where
  identity : Bytes
  identHash : Bytes
deriving DecidableEq, Repr

/-- Modelled from the spec: `RouterInfo::SetRouterIdentity` (not among the
sources); the identity hash is the SHA-256 of the full identity. -/
def RouterInfo.SetRouterIdentity (env : Env) (_r : RouterInfo) (ident : Bytes) : RouterInfo :=
  { identity := ident, identHash := sha256 env ident }

/-! ## The session -/

/-- A completion handler bound to an asynchronous socket operation, with the
arguments bound to it. -/
inductive Handler where
  | HandleConnect
  | HandlePhase1Sent
  | HandlePhase1Received
  | HandlePhase2Sent (tsB : Bytes)
  | HandlePhase2Received
  | HandlePhase3Sent (tsA : Bytes)
  | HandlePhase3Received (tsB : Bytes)
  | HandlePhase4Sent
  | HandlePhase4Received (tsA : Bytes)
  | HandleReceived
  | HandleSent (msg : Option I2NPMessage)
deriving DecidableEq, Repr

/-- The members of `NTCPSession`, the socket, and what the session did to its
collaborators. -/
structure NTCPSession where
  /-- The socket is open (`m_Socket.close ()` was not called). -/
  socketOpen : Bool
  /-- The buffers handed to `async_write` on the open socket, in order. -/
  written : List Bytes
  /-- The handlers of the asynchronous operations still outstanding, in order. -/
  pending : List Handler
  m_IsEstablished : Bool
  m_Phase1 : NTCPPhase1
  m_Phase2 : NTCPPhase2
  m_Phase3 : Bytes
  m_Phase4 : Bytes
  m_Decryption : CBC
  m_Encryption : CBC
  m_RemoteRouterInfo : RouterInfo
  m_ReceiveBuffer : Bytes
  m_TimeSyncBuffer : Bytes
  m_ReceiveBufferOffset : Nat
  m_NextMessage : Option I2NPMessage
  m_NextMessageOffset : Nat
  m_DelayedMessage : Option I2NPMessage
  /-- The messages passed to `i2p::HandleI2NPMessage`, in order. -/
  handled : List I2NPMessage
  /-- The messages passed to `i2p::DeleteI2NPMessage` or `delete`, in order. -/
  deleted : List I2NPMessage
  /-- The session is in the registry `i2p::transports`. -/
  registered : Bool
  /-- The session object was destroyed (`delete this`). -/
  destroyed : Bool
deriving DecidableEq, Repr

/-- The constructor: `mem` is the memory the object is built in. -/
def NTCPSession.new (mem : NTCPSession) (in_RemoteRouterInfo : Option RouterInfo) : NTCPSession :=
  { mem with
    socketOpen := true, written := [], pending := [], handled := [], deleted := [],
    registered := false, destroyed := false,
    m_IsEstablished := false, m_ReceiveBufferOffset := 0,
    m_NextMessage := none, m_DelayedMessage := none,
    m_RemoteRouterInfo :=
      match in_RemoteRouterInfo with
      | some r => r
      | none => mem.m_RemoteRouterInfo }

/-- The call `boost::asio::async_write (m_Socket, buffer, transfer_all, handler)`:
a closed socket takes no bytes, the handler is outstanding either way. -/
def asyncWrite (s : NTCPSession) (data : Bytes) (h : Handler) : NTCPSession :=
  { s with
    written := if s.socketOpen then s.written ++ [data] else s.written,
    pending := s.pending ++ [h] }

/-- The calls `async_read`, `async_read_some` and `async_connect`. -/
def asyncRead (s : NTCPSession) (h : Handler) : NTCPSession :=
  { s with pending := s.pending ++ [h] }

/-- `NTCPSession::Terminate`. -/
def Terminate (s : NTCPSession) : NTCPSession :=
  { s with
    m_IsEstablished := false,
    socketOpen := false,
    deleted :=
      match s.m_DelayedMessage with
      | some m => s.deleted ++ [m]
      | none => s.deleted,
    registered := false,
    destroyed := true }

/-- `NTCPSession::CreateAESKey (pubKey, aesKey)`: the session and the content of
the caller's array `aesKey` afterwards. -/
def CreateAESKey (env : Env) (s : NTCPSession) (pubKey aesKey : Bytes) : NTCPSession × Bytes :=
  match env.dhAgree env.privateKey pubKey with
  | none => (Terminate s, aesKey)
  | some secretKey =>
    if secretKey.getD 0 0 &&& 128 ≠ 0 then
      (s, writeAt (writeAt aesKey 0 [0]) 1 (slice secretKey 0 31))
    else
      (s, writeAt aesKey 0 (slice secretKey 0 32))

/-! ## Record layer: sending -/

/-- The value of `len` in `Send`. -/
def sendLen (msg : Option I2NPMessage) : Nat :=
  match msg with
  | some m => m.GetLength
  | none => 4

/-- The value of `padding` in `Send` for a given `len`. -/
def sendPadding (len : Nat) : Nat :=
  if (len + 6) % 16 > 0 then 16 - (len + 6) % 16 else 0

/-- The `n` bytes of memory that start at `msg->GetBuffer () - 2`.  For an offset
below 2 the pointer lies in front of `buf`; those bytes read as `0`. -/
def messageMemory (m : I2NPMessage) (n : Nat) : Bytes :=
  slice ([0, 0] ++ m.buf) m.offset n

/-- The `len + padding + 6` bytes at `sendBuffer` once the size field (or the
zero size and the timestamp) is written in front; the bytes that follow are left
as they are. -/
def sendPrepared (now : Nat) (s : NTCPSession) (msg : Option I2NPMessage) : Bytes :=
  let len := sendLen msg
  let padding := sendPadding len
  match msg with
  | some m => writeAt (messageMemory m (len + padding + 6)) 0 (htobe16 len)
  | none =>
    writeAt (writeAt (slice s.m_TimeSyncBuffer 0 (len + padding + 6)) 0 (htobe16 0)) 2
      (htobe32 now)

/-- The `len + padding + 6` bytes at `sendBuffer` right before they are
encrypted: the Adler-32 digest of the first `len + 2 + padding` bytes is written
behind them. -/
def sendBuffer (now : Nat) (s : NTCPSession) (msg : Option I2NPMessage) : Bytes :=
  let len := sendLen msg
  let padding := sendPadding len
  let b := sendPrepared now s msg
  writeAt b (len + 2 + padding) (adler32 (b.take (len + 2 + padding)))

/-- `NTCPSession::Send (msg)`, with `now` the value of `time (0)`.  A message with
an offset below 2 is deleted and the function goes on.  The `int` variables
hold lengths of data inside one message buffer and do not wrap. -/
def Send (env : Env) (now : Nat) (s : NTCPSession) (msg : Option I2NPMessage) : NTCPSession :=
  let s1 :=
    match msg with
    | some m => if m.offset < 2 then { s with deleted := s.deleted ++ [m] } else s
    | none => s
  let r := s1.m_Encryption.Encrypt env (sendBuffer now s1 msg)
  let s2 :=
    { s1 with
      m_Encryption := r.2,
      m_TimeSyncBuffer :=
        match msg with
        | some _ => s1.m_TimeSyncBuffer
        | none => writeAt s1.m_TimeSyncBuffer 0 r.1 }
  asyncWrite s2 r.1 (Handler.HandleSent msg)

/-- `NTCPSession::HandleSent (ecode, bytes_transferred, msg)`. -/
def HandleSent (s : NTCPSession) (ecode : Bool) (msg : Option I2NPMessage) : NTCPSession :=
  let s1 :=
    match msg with
    | some m => { s with deleted := s.deleted ++ [m] }
    | none => s
  if ecode then Terminate s1 else s1

/-- `NTCPSession::SendTimeSyncMessage`. -/
def SendTimeSyncMessage (env : Env) (now : Nat) (s : NTCPSession) : NTCPSession :=
  Send env now s none

/-- `NTCPSession::SendI2NPMessage (msg)`. -/
def SendI2NPMessage (env : Env) (now : Nat) (s : NTCPSession) (msg : Option I2NPMessage) :
    NTCPSession :=
  match msg with
  | some m =>
    if s.m_IsEstablished then Send env now s (some m)
    else { s with m_DelayedMessage := some m }
  | none => s

/-- `NTCPSession::Connected`. -/
def Connected (env : Env) (now : Nat) (s : NTCPSession) : NTCPSession :=
  let s1 := { s with m_IsEstablished := true, registered := true }
  let s2 := SendTimeSyncMessage env now s1
  let s3 := SendI2NPMessage env now s2 (some env.CreateDatabaseStoreMsg)
  match s3.m_DelayedMessage with
  | some delayedMessage =>
    SendI2NPMessage env now { s3 with m_DelayedMessage := none } (some delayedMessage)
  | none => s3

/-! ## Record layer: receiving -/

/-- `NTCPSession::Receive`. -/
def Receive (s : NTCPSession) : NTCPSession :=
  asyncRead s Handler.HandleReceived

/-- The end of `DecryptNextBlock`: a complete message goes to the I2NP handler. -/
def completeMessage (s : NTCPSession) : NTCPSession :=
  match s.m_NextMessage with
  | some m =>
    if s.m_NextMessageOffset ≥ m.len + 4 then
      { s with handled := s.handled ++ [m], m_NextMessage := none }
    else s
  | none => s

/-- `NTCPSession::DecryptNextBlock (encrypted)`, `encrypted` pointing to 16 bytes. -/
def DecryptNextBlock (env : Env) (s : NTCPSession) (encrypted : Bytes) : NTCPSession :=
  match s.m_NextMessage with
  | none =>
    let m := env.NewI2NPMessage
    let r := s.m_Decryption.Decrypt env (slice encrypted 0 16)
    let m1 := { m with buf := writeAt m.buf 0 r.1 }
    let dataSize := be16toh m1.buf
    if dataSize ≠ 0 then
      completeMessage
        { s with
          m_Decryption := r.2,
          m_NextMessage := some { m1 with offset := 2, len := dataSize + 2 },
          m_NextMessageOffset := 16 }
    else
      { s with
        m_Decryption := r.2,
        m_NextMessageOffset := 0,
        deleted := s.deleted ++ [m1],
        m_NextMessage := none }
  | some m =>
    let r := s.m_Decryption.Decrypt env (slice encrypted 0 16)
    completeMessage
      { s with
        m_Decryption := r.2,
        m_NextMessage := some { m with buf := writeAt m.buf s.m_NextMessageOffset r.1 },
        m_NextMessageOffset := s.m_NextMessageOffset + 16 }

/-- The loop `while (m_ReceiveBufferOffset >= 16)` of `HandleReceived`, started
with `nextBlock` at position `nextBlock` of the receive buffer; returns the
session and the final position.  Every pass takes 16 from the offset, so a
counter that starts at the offset never runs out first. -/
def decryptBlocks (env : Env) : Nat → NTCPSession → Nat → NTCPSession × Nat
  | 0, s, nextBlock => (s, nextBlock)
  | n + 1, s, nextBlock =>
    if s.m_ReceiveBufferOffset ≥ 16 then
      let s1 := DecryptNextBlock env s (slice s.m_ReceiveBuffer nextBlock 16)
      decryptBlocks env n
        { s1 with m_ReceiveBufferOffset := s1.m_ReceiveBufferOffset - 16 } (nextBlock + 16)
    else (s, nextBlock)

/-- `NTCPSession::HandleReceived (ecode, bytes_transferred)`; the bytes read are
already in the receive buffer. -/
def HandleReceived (env : Env) (s : NTCPSession) (ecode : Bool) (bytes_transferred : Nat) :
    NTCPSession :=
  if ecode then Terminate s
  else
    let s1 := { s with m_ReceiveBufferOffset := s.m_ReceiveBufferOffset + bytes_transferred }
    let s2 :=
      if s1.m_ReceiveBufferOffset ≥ 16 then
        let r := decryptBlocks env s1.m_ReceiveBufferOffset s1 0
        if r.1.m_ReceiveBufferOffset > 0 then
          { r.1 with
            m_ReceiveBuffer :=
              writeAt r.1.m_ReceiveBuffer 0
                (slice r.1.m_ReceiveBuffer r.2 r.1.m_ReceiveBufferOffset) }
        else r.1
      else s1
    Receive s2

/-! ## Handshake -/

/-- `NTCPSession::ClientLogin`: build and send Phase1. -/
def ClientLogin (env : Env) (s : NTCPSession) : NTCPSession :=
  let x := publicKey env env.routerIdentity
  let digest := sha256 env x
  let ident := s.m_RemoteRouterInfo.identHash
  let p : NTCPPhase1 :=
    { pubKey := x,
      HXxorHI := (List.range 32).map (fun i => digest.getD i 0 ^^^ ident.getD i 0) }
  asyncWrite { s with m_Phase1 := p } (p.pubKey ++ p.HXxorHI) Handler.HandlePhase1Sent

/-- `NTCPSession::ServerLogin`: wait for Phase1. -/
def ServerLogin (s : NTCPSession) : NTCPSession :=
  asyncRead s Handler.HandlePhase1Received

/-- `NTCPSession::HandlePhase1Sent`. -/
def HandlePhase1Sent (s : NTCPSession) (ecode : Bool) : NTCPSession :=
  if ecode then Terminate s else asyncRead s Handler.HandlePhase2Received

/-- The loop of `HandlePhase1Received` over the 32 bytes of the identity hash:
`true` when no byte differs. -/
def identMatches (HXxorHI ident digest : Bytes) : Bool :=
  (List.range 32).all (fun i => (HXxorHI.getD i 0 ^^^ ident.getD i 0) == digest.getD i 0)

/-- `NTCPSession::SendPhase2`, with `now` the value of `time (0)`. -/
def SendPhase2 (env : Env) (now : Nat) (s : NTCPSession) : NTCPSession :=
  let y := publicKey env env.routerIdentity
  let xy := slice s.m_Phase1.pubKey 0 256 ++ y
  let tsB := htobe32 now
  let plain := writeAt (writeAt (slice s.m_Phase2.encrypted 0 48) 0 (sha256 env xy)) 32 tsB
  let k := CreateAESKey env s s.m_Phase1.pubKey env.aesKeyStack
  let enc : CBC := { key := slice k.2 0 32, iv := slice y 240 16 }
  let dec : CBC := { key := slice k.2 0 32, iv := slice s.m_Phase1.HXxorHI 16 16 }
  let r := enc.Encrypt env plain
  let p : NTCPPhase2 := { pubKey := y, encrypted := r.1 }
  asyncWrite { k.1 with m_Phase2 := p, m_Encryption := r.2, m_Decryption := dec }
    (p.pubKey ++ p.encrypted) (Handler.HandlePhase2Sent tsB)

/-- `NTCPSession::HandlePhase1Received`; the record read is in `m_Phase1`. -/
def HandlePhase1Received (env : Env) (now : Nat) (s : NTCPSession) (ecode : Bool) : NTCPSession :=
  if ecode then Terminate s
  else
    let digest := sha256 env (slice s.m_Phase1.pubKey 0 256)
    if identMatches s.m_Phase1.HXxorHI env.identHash digest then SendPhase2 env now s
    else Terminate s

/-- `NTCPSession::HandlePhase2Sent`. -/
def HandlePhase2Sent (s : NTCPSession) (ecode : Bool) (tsB : Bytes) : NTCPSession :=
  if ecode then Terminate s else asyncRead s (Handler.HandlePhase3Received tsB)

/-- `NTCPSession::SendPhase3`, with `now` the value of `time (0)`. -/
def SendPhase3 (env : Env) (now : Nat) (s : NTCPSession) : NTCPSession :=
  let tsA := htobe32 now
  let sd :=
    SignedData s.m_Phase1.pubKey s.m_Phase2.pubKey s.m_RemoteRouterInfo.identHash tsA
      s.m_Phase2.timestamp
  let p0 := slice s.m_Phase3 0 (phase3Size env)
  let p1 := writeAt p0 0 (htobe16 env.identitySize)
  let p2 := writeAt p1 2 (slice env.routerIdentity 0 env.identitySize)
  let p3 := writeAt p2 (2 + env.identitySize) tsA
  let p4 := writeAt p3 (2 + env.identitySize + 4) (slice (env.Sign sd) 0 40)
  let r := s.m_Encryption.Encrypt env p4
  asyncWrite { s with m_Phase3 := r.1, m_Encryption := r.2 } r.1 (Handler.HandlePhase3Sent tsA)

/-- The first part of `HandlePhase2Received`: the AES key is made from the
received public key, both contexts are keyed and the 48 encrypted bytes of
`m_Phase2` are decrypted in place. -/
def decryptPhase2 (env : Env) (s : NTCPSession) : NTCPSession :=
  let k := CreateAESKey env s s.m_Phase2.pubKey env.aesKeyStack
  let dec : CBC := { key := slice k.2 0 32, iv := slice s.m_Phase2.pubKey 240 16 }
  let enc : CBC := { key := slice k.2 0 32, iv := slice s.m_Phase1.HXxorHI 16 16 }
  let r := dec.Decrypt env (slice s.m_Phase2.encrypted 0 48)
  { k.1 with
    m_Decryption := r.2,
    m_Encryption := enc,
    m_Phase2 := { pubKey := s.m_Phase2.pubKey, encrypted := r.1 } }

/-- `NTCPSession::HandlePhase2Received`; the record read is in `m_Phase2`. -/
def HandlePhase2Received (env : Env) (now : Nat) (s : NTCPSession) (ecode : Bool) : NTCPSession :=
  if ecode then Terminate s
  else
    let s1 := decryptPhase2 env s
    let xy := publicKey env env.routerIdentity ++ slice s1.m_Phase2.pubKey 0 256
    let hxy := sha256 env xy
    if hxy ≠ s1.m_Phase2.hxy then Terminate s1 else SendPhase3 env now s1

/-- `NTCPSession::HandlePhase3Sent`. -/
def HandlePhase3Sent (s : NTCPSession) (ecode : Bool) (tsA : Bytes) : NTCPSession :=
  if ecode then Terminate s else asyncRead s (Handler.HandlePhase4Received tsA)

/-- `NTCPSession::SendPhase4 (tsB)`. -/
def SendPhase4 (env : Env) (s : NTCPSession) (tsB : Bytes) : NTCPSession :=
  let sd :=
    SignedData s.m_Phase1.pubKey s.m_Phase2.pubKey s.m_RemoteRouterInfo.identHash
      (phase3Timestamp env s.m_Phase3) tsB
  let p := writeAt (slice s.m_Phase4 0 phase4Size) 0 (slice (env.Sign sd) 0 40)
  let r := s.m_Encryption.Encrypt env p
  asyncWrite { s with m_Phase4 := r.1, m_Encryption := r.2 } r.1 Handler.HandlePhase4Sent

/-- `NTCPSession::HandlePhase3Received`; the record read is in `m_Phase3`. -/
def HandlePhase3Received (env : Env) (s : NTCPSession) (ecode : Bool) (tsB : Bytes) :
    NTCPSession :=
  if ecode then Terminate s
  else
    let r := s.m_Decryption.Decrypt env (slice s.m_Phase3 0 (phase3Size env))
    let s1 :=
      { s with
        m_Decryption := r.2,
        m_Phase3 := r.1,
        m_RemoteRouterInfo := s.m_RemoteRouterInfo.SetRouterIdentity env (phase3Ident env r.1) }
    let sd :=
      SignedData s1.m_Phase1.pubKey s1.m_Phase2.pubKey env.identHash
        (phase3Timestamp env s1.m_Phase3) tsB
    if !env.dsaVerify (signingKey env s1.m_RemoteRouterInfo.identity) sd
        (phase3Signature env s1.m_Phase3) then
      Terminate s1
    else SendPhase4 env s1 tsB

/-- `NTCPSession::HandlePhase4Sent`. -/
def HandlePhase4Sent (env : Env) (now : Nat) (s : NTCPSession) (ecode : Bool) : NTCPSession :=
  if ecode then Terminate s
  else
    let s1 := Connected env now s
    Receive { s1 with m_ReceiveBufferOffset := 0, m_NextMessage := none }

/-- `NTCPSession::HandlePhase4Received`; the record read is in `m_Phase4`. -/
def HandlePhase4Received (env : Env) (now : Nat) (s : NTCPSession) (ecode : Bool) (tsA : Bytes) :
    NTCPSession :=
  if ecode then Terminate s
  else
    let r := s.m_Decryption.Decrypt env (slice s.m_Phase4 0 phase4Size)
    let s1 := { s with m_Decryption := r.2, m_Phase4 := r.1 }
    let sd :=
      SignedData s1.m_Phase1.pubKey s1.m_Phase2.pubKey env.identHash tsA s1.m_Phase2.timestamp
    if !env.dsaVerify (signingKey env s1.m_RemoteRouterInfo.identity) sd
        (phase4Signature s1.m_Phase4) then
      Terminate s1
    else
      let s2 := Connected env now s1
      Receive { s2 with m_ReceiveBufferOffset := 0, m_NextMessage := none }

/-- `NTCPClient::Connect`. -/
def Connect (s : NTCPSession) : NTCPSession :=
  asyncRead s Handler.HandleConnect

/-- `NTCPClient::HandleConnect`. -/
def HandleConnect (env : Env) (s : NTCPSession) (ecode : Bool) : NTCPSession :=
  if ecode then Terminate s else ClientLogin env s

/-! ## Runs -/

/-- What happens to a session: an outstanding operation completes, with its
error code, the bytes it read (none for a write) and the time, or a caller
submits a message. -/
inductive Event where
  | complete (h : Handler) (ecode : Bool) (data : Bytes) (now : Nat)
  | submit (msg : Option I2NPMessage) (now : Nat)
deriving DecidableEq, Repr

/-- A completed read has put its bytes into the buffer given to it. -/
def received (env : Env) (s : NTCPSession) (h : Handler) (data : Bytes) : NTCPSession :=
  match h with
  | Handler.HandlePhase1Received =>
    { s with m_Phase1 := { pubKey := slice data 0 256, HXxorHI := slice data 256 32 } }
  | Handler.HandlePhase2Received =>
    { s with m_Phase2 := { pubKey := slice data 0 256, encrypted := slice data 256 48 } }
  | Handler.HandlePhase3Received _ => { s with m_Phase3 := slice data 0 (phase3Size env) }
  | Handler.HandlePhase4Received _ => { s with m_Phase4 := slice data 0 phase4Size }
  | Handler.HandleReceived =>
    { s with m_ReceiveBuffer := writeAt s.m_ReceiveBuffer s.m_ReceiveBufferOffset data }
  | _ => s

/-- The call of a completion handler. -/
def invoke (env : Env) (now : Nat) (s : NTCPSession) (h : Handler) (ecode : Bool)
    (bytes_transferred : Nat) : NTCPSession :=
  match h with
  | Handler.HandleConnect => HandleConnect env s ecode
  | Handler.HandlePhase1Sent => HandlePhase1Sent s ecode
  | Handler.HandlePhase1Received => HandlePhase1Received env now s ecode
  | Handler.HandlePhase2Sent tsB => HandlePhase2Sent s ecode tsB
  | Handler.HandlePhase2Received => HandlePhase2Received env now s ecode
  | Handler.HandlePhase3Sent tsA => HandlePhase3Sent s ecode tsA
  | Handler.HandlePhase3Received tsB => HandlePhase3Received env s ecode tsB
  | Handler.HandlePhase4Sent => HandlePhase4Sent env now s ecode
  | Handler.HandlePhase4Received tsA => HandlePhase4Received env now s ecode tsA
  | Handler.HandleReceived => HandleReceived env s ecode bytes_transferred
  | Handler.HandleSent msg => HandleSent s ecode msg

/-- One event.  A destroyed session takes no event, and only an outstanding
operation completes. -/
def step (env : Env) (s : NTCPSession) (ev : Event) : NTCPSession :=
  if s.destroyed then s
  else
    match ev with
    | Event.complete h ecode data now =>
      if h ∈ s.pending then
        invoke env now (received env { s with pending := s.pending.erase h } h data) h ecode
          data.length
      else s
    | Event.submit msg now => SendI2NPMessage env now s msg

/-- A run: the events one after the other. -/
def run (env : Env) (s : NTCPSession) (evs : List Event) : NTCPSession :=
  evs.foldl (step env) s

/-! ## Notions the properties are stated with -/

/-- AES decryption undoes AES encryption of a 16-byte block under the same key,
and the encryption of a block is a block. -/
def Env.aesInverts (env : Env) : Prop :=
  ∀ key b : Bytes, b.length = 16 →
    (env.aesEncryptBlock key b).length = 16 ∧
      env.aesDecryptBlock key (env.aesEncryptBlock key b) = b

/-- The DSA verification `HandlePhase4Received` makes on a session whose
`m_Phase4` holds the record read: the signature is taken from the decrypted
record, the signed data are `x`, `y`, the local identity hash, the bound `tsA`
and the timestamp of Phase2, the key is the signing key of the remote router. -/
def phase4SignatureValid (env : Env) (s : NTCPSession) (tsA : Bytes) : Bool :=
  env.dsaVerify (signingKey env s.m_RemoteRouterInfo.identity)
    (SignedData s.m_Phase1.pubKey s.m_Phase2.pubKey env.identHash tsA s.m_Phase2.timestamp)
    (phase4Signature (s.m_Decryption.Decrypt env (slice s.m_Phase4 0 phase4Size)).1)

/-- The DSA verification `HandlePhase3Received` makes on a session whose
`m_Phase3` holds the record read: identity, timestamp and signature are taken
from the decrypted record, the signed data are `x`, `y`, the local identity
hash, the timestamp of Phase3 and the bound `tsB`. -/
def phase3SignatureValid (env : Env) (s : NTCPSession) (tsB : Bytes) : Bool :=
  env.dsaVerify
    (signingKey env
      (phase3Ident env (s.m_Decryption.Decrypt env (slice s.m_Phase3 0 (phase3Size env))).1))
    (SignedData s.m_Phase1.pubKey s.m_Phase2.pubKey env.identHash
      (phase3Timestamp env (s.m_Decryption.Decrypt env (slice s.m_Phase3 0 (phase3Size env))).1)
      tsB)
    (phase3Signature env (s.m_Decryption.Decrypt env (slice s.m_Phase3 0 (phase3Size env))).1)

/-- The handlers an initiator has outstanding before it is established. -/
def initiatorHandler : Handler → Bool
  | Handler.HandleConnect => true
  | Handler.HandlePhase1Sent => true
  | Handler.HandlePhase2Received => true
  | Handler.HandlePhase3Sent _ => true
  | Handler.HandlePhase4Received _ => true
  | _ => false

/-- The handlers a responder has outstanding before it has verified Phase3. -/
def responderHandler : Handler → Bool
  | Handler.HandlePhase1Received => true
  | Handler.HandlePhase2Sent _ => true
  | Handler.HandlePhase3Received _ => true
  | _ => false

/-- The handlers a responder has outstanding before it is established. -/
def responderHandlerLate : Handler → Bool
  | Handler.HandlePhase4Sent => true
  | h => responderHandler h

/-- Not established, and every outstanding handler is of the given kind. -/
def handshaking (P : Handler → Bool) (s : NTCPSession) : Prop :=
  s.m_IsEstablished = false ∧ ∀ h, h ∈ s.pending → P h = true

/-- The first `k` blocks of 16 bytes of a byte stream. -/
def blocksOf : Nat → Bytes → List Bytes
  | 0, _ => []
  | k + 1, data => data.take 16 :: blocksOf k (data.drop 16)

/-- `DecryptNextBlock` called on each block of a list, in order. -/
def decryptAll (env : Env) (s : NTCPSession) (blocks : List Bytes) : NTCPSession :=
  blocks.foldl (DecryptNextBlock env) s

/-- The check of a decrypted frame: the Adler-32 digest of all bytes but the
last four, compared with the last four. -/
def adlerVerify (frame : Bytes) : Bool :=
  adler32 (frame.take (frame.length - 4)) == frame.drop (frame.length - 4)

/-! ## A small environment and sessions to evaluate the code on -/

/-- An environment with toy primitives: the hash is a byte sum, the block
transform is an exclusive or with the first key byte, agreement always
succeeds, and a signature is valid when it repeats a byte made of the key and
the length of the message. -/
def exampleEnv : Env where
  SHA256 := fun d => List.replicate 32 (d.foldl (fun a b => a + b) 0 % 256)
  aesEncryptBlock := fun k b => b.map (fun x => x ^^^ k.getD 0 0)
  aesDecryptBlock := fun k b => b.map (fun x => x ^^^ k.getD 0 0)
  dhAgree := fun priv pub => some (List.replicate 256 ((priv.getD 0 0 + pub.getD 0 0) % 256))
  dsaVerify := fun key msg sig => sig == List.replicate 40 ((key.getD 0 0 + msg.length) % 256)
  Sign := fun msg => List.replicate 40 ((7 + msg.length) % 256)
  routerIdentity := List.replicate 387 7
  identityPublicKey := fun identity => slice identity 0 256
  identitySigningKey := fun identity => slice identity 256 128
  identHash := List.replicate 32 9
  privateKey := List.replicate 256 3
  NewI2NPMessage := { buf := List.replicate 64 0, len := 0, offset := 0 }
  CreateDatabaseStoreMsg := { buf := List.replicate 64 1, len := 12, offset := 2 }
  aesKeyStack := List.replicate 32 0
  identitySize := 387

/-- The same environment with an agreement that always fails. -/
def exampleEnvNoAgreement : Env :=
  { exampleEnv with dhAgree := fun _ _ => none }

/-- A session on an open socket, not established, with keyed CBC contexts. -/
def exampleSession : NTCPSession where
  socketOpen := true
  written := []
  pending := []
  m_IsEstablished := false
  m_Phase1 := { pubKey := [], HXxorHI := [] }
  m_Phase2 := { pubKey := [], encrypted := [] }
  m_Phase3 := []
  m_Phase4 := []
  m_Decryption := { key := List.replicate 32 5, iv := List.replicate 16 1 }
  m_Encryption := { key := List.replicate 32 5, iv := List.replicate 16 1 }
  m_RemoteRouterInfo := { identity := List.replicate 387 7, identHash := List.replicate 32 9 }
  m_ReceiveBuffer := List.replicate 128 0
  m_TimeSyncBuffer := List.replicate 16 0
  m_ReceiveBufferOffset := 0
  m_NextMessage := none
  m_NextMessageOffset := 0
  m_DelayedMessage := none
  handled := []
  deleted := []
  registered := false
  destroyed := false

/-- A message of 14 bytes, the bytes 102 to 115, at offset 2. -/
def exampleMessage : I2NPMessage :=
  { buf := (List.range 40).map (fun i => i + 100), len := 16, offset := 2 }

/-- A message of 10 bytes whose offset is 0. -/
def malformedMessage : I2NPMessage :=
  { buf := (List.range 40).map (fun i => i + 100), len := 10, offset := 0 }

/-- An initiator right after `ClientLogin`. -/
def exampleClientStart : NTCPSession :=
  ClientLogin exampleEnv (NTCPSession.new exampleSession (some exampleSession.m_RemoteRouterInfo))

/-- A responder right after `ServerLogin`. -/
def exampleServerStart : NTCPSession :=
  ServerLogin (NTCPSession.new exampleSession none)

/-- The responder after it has read the Phase1 record the initiator wrote. -/
def exampleServer1 : NTCPSession :=
  step exampleEnv exampleServerStart
    (Event.complete Handler.HandlePhase1Received false (exampleClientStart.written.getD 0 []) 10)

/-- The initiator after it has read the Phase2 record the responder wrote. -/
def exampleClient2 : NTCPSession :=
  run exampleEnv exampleClientStart
    [Event.complete Handler.HandlePhase1Sent false [] 10,
     Event.complete Handler.HandlePhase2Received false (exampleServer1.written.getD 0 []) 11]

/-- The responder after it has read the Phase3 record the initiator wrote. -/
def exampleServer3 : NTCPSession :=
  run exampleEnv exampleServer1
    [Event.complete (Handler.HandlePhase2Sent (htobe32 10)) false [] 11,
     Event.complete (Handler.HandlePhase3Received (htobe32 10)) false
       (exampleClient2.written.getD 1 []) 12]

/-- The events of the initiator in a handshake of the two example sessions. -/
def exampleClientEvents : List Event :=
  [Event.complete Handler.HandlePhase1Sent false [] 10,
   Event.complete Handler.HandlePhase2Received false (exampleServer1.written.getD 0 []) 11,
   Event.complete (Handler.HandlePhase3Sent (htobe32 11)) false [] 12,
   Event.complete (Handler.HandlePhase4Received (htobe32 11)) false
     (exampleServer3.written.getD 1 []) 13]

/-- The events of the responder in a handshake of the two example sessions. -/
def exampleServerEvents : List Event :=
  [Event.complete Handler.HandlePhase1Received false (exampleClientStart.written.getD 0 []) 10,
   Event.complete (Handler.HandlePhase2Sent (htobe32 10)) false [] 11,
   Event.complete (Handler.HandlePhase3Received (htobe32 10)) false
     (exampleClient2.written.getD 1 []) 12,
   Event.complete Handler.HandlePhase4Sent false [] 13]

/-- A block that the inbound context of `exampleSession` decrypts to zeros
followed by twelves. -/
def exampleKeepAliveBlock : Bytes :=
  [4, 4, 8, 8, 8, 8, 8, 8, 8, 8, 8, 8, 8, 8, 8, 8]

/-- The frame `Send` builds for `exampleMessage`, with its last byte, the last
byte of the Adler-32 digest, replaced by 0. -/
def exampleBadFrame : Bytes :=
  writeAt (sendBuffer 0 exampleSession (some exampleMessage)) 31 [0]

/-- Five blocks for the inbound context of `exampleSession`; the first decrypts
to a header whose size field is 100. -/
def exampleOversizedBlocks : List Bytes :=
  [[4, 96, 8, 8, 8, 8, 8, 8, 8, 8, 8, 8, 8, 8, 8, 8],
   List.replicate 16 1, List.replicate 16 2, List.replicate 16 3, List.replicate 16 4]

/-- The example responder with the Phase1 record of the example initiator in
`m_Phase1`, before `HandlePhase1Received` runs. -/
def exampleServerPhase1 : NTCPSession :=
  received exampleEnv exampleServerStart Handler.HandlePhase1Received
    (exampleClientStart.written.getD 0 [])

/-- The example initiator with the Phase2 record of the example responder in
`m_Phase2`, before `HandlePhase2Received` runs. -/
def exampleClientPhase2 : NTCPSession :=
  received exampleEnv
    (step exampleEnv exampleClientStart (Event.complete Handler.HandlePhase1Sent false [] 10))
    Handler.HandlePhase2Received (exampleServer1.written.getD 0 [])

/-! ## NTCP2: key derivation and session request (`NTCP2.cpp`) -/

/-- The primitives `NTCP2.cpp` calls. -/
structure NTCP2Env where
  /-- `SHA256 (in, len, out)`. -/
  SHA256 : Bytes → Bytes
  /-- `HMAC (EVP_sha256 (), key, 32, data, len, out, &len)`, key first. -/
  HMAC : Bytes → Bytes → Bytes
  /-- `GetEd25519 ()->Mul (p, e, out, ctx)`, the point first, then the scalar. -/
  Mul : Bytes → Bytes → Bytes
  /-- `Ed25519::ExpandPrivateKey (key, expandedKey)`. -/
  ExpandPrivateKey : Bytes → Bytes
  /-- `GeneratePublicKey` followed by `EncodePublicKey`, from the expanded key. -/
  GeneratePublicKey : Bytes → Bytes
  /-- AES encryption of one 16-byte block under a key, for `CBCEncryption`. -/
  aesEncryptBlock : Bytes → Bytes → Bytes
  /-- `Poly1305HMAC (out, key, buf, sz)`: the tag, key first. -/
  Poly1305HMAC : Bytes → Bytes → Bytes
  /-- `chacha20 (buf, sz, nonce, key)`: the encrypted bytes, from key, nonce and data. -/
  chacha20 : Bytes → Nat → Bytes → Bytes

/-- The members of `NTCP2Session` the session request uses, and the socket. -/
structure NTCP2Session where
  m_RemoteStaticKey : Bytes
  m_RemoteIV : Bytes
  m_ExpandedPrivateKey : Bytes
  m_SessionRequestBuffer : Option Bytes
  /-- `GetRemoteIdentity ()->GetIdentHash ()`. -/
  remoteIdentHash : Bytes
  /-- The buffers handed to `async_write`, in order. -/
  written : List Bytes
deriving DecidableEq, Repr

/-- The array `protocolName`, 32 characters. -/
def protocolName : Bytes :=
  (String.toList "Noise_XK_25519_ChaChaPoly_SHA256").map Char.toNat

/-- The 32 bytes `SHA256 (in, len, out)` writes. -/
def sha256Digest (env : NTCP2Env) (data : Bytes) : Bytes := slice (env.SHA256 data) 0 32

/-- The 32 bytes `HMAC (EVP_sha256 (), key, 32, data, len, out, &len)` writes. -/
def hmacSha256 (env : NTCP2Env) (key data : Bytes) : Bytes :=
  slice (env.HMAC (slice key 0 32) data) 0 32

/-- What `KeyDerivationFunction` leaves: its return value, the array `derived`
and its local array `h`. -/
structure KeyDerivation where
  result : Bool
  derived : Bytes
  h : Bytes
deriving DecidableEq, Repr

/-- `NTCP2Session::KeyDerivationFunction (rs, pub, derived)`.  The local arrays
`h[64]` and `ck[33]` start as zeros; every byte of them is written before it is
read. -/
def KeyDerivationFunction (env : NTCP2Env) (s : NTCP2Session) (rs pub : Bytes) : KeyDerivation :=
  let ck0 := writeAt (List.replicate 33 0) 0 (slice protocolName 0 32)
  let h0 := writeAt (List.replicate 64 0) 0 (sha256Digest env (slice protocolName 0 32))
  let h1 := writeAt h0 32 (slice rs 0 32)
  let h2 := writeAt h1 0 (sha256Digest env (slice h1 0 64))
  let h3 := writeAt h2 32 (slice pub 0 32)
  let h4 := writeAt h3 0 (sha256Digest env (slice h3 0 64))
  let inputKeyMaterial := slice (env.Mul rs s.m_ExpandedPrivateKey) 0 32
  let tempKey := hmacSha256 env ck0 (slice inputKeyMaterial 0 32)
  let inputKeyMaterial1 := writeAt inputKeyMaterial 0 [1]
  let ck1 := writeAt ck0 0 (hmacSha256 env tempKey (slice inputKeyMaterial1 0 1))
  let ck2 := writeAt ck1 32 [2]
  { result := true, derived := hmacSha256 env tempKey (slice ck2 0 33), h := h4 }

/-- `NTCP2Session::CreateEphemeralKey (pub)`, with `key` the 32 bytes of
`RAND_bytes`: the session and the 32 bytes written to `pub`. -/
def CreateEphemeralKey (env : NTCP2Env) (s : NTCP2Session) (key : Bytes) : NTCP2Session × Bytes :=
  let expanded := env.ExpandPrivateKey (slice key 0 32)
  ({ s with m_ExpandedPrivateKey := expanded }, slice (env.GeneratePublicKey expanded) 0 32)

/-- Modelled from the spec: `CBCEncryption::Encrypt (numBlocks, in, out)` after
`SetKey` and `SetIV` (the class is in `Crypto.h`, not among the sources), AES
in CBC mode over `numBlocks` blocks of 16 bytes. -/
def cbcEncryption (env : NTCP2Env) (key iv : Bytes) (numBlocks : Nat) (data : Bytes) : Bytes :=
  (cbcEncryptBlocks (fun k b => slice (env.aesEncryptBlock k b) 0 16) key numBlocks iv data).1

/-- The value of `paddingLength` in `SendSessionRequest` for a value of `rand ()`. -/
def sessionRequestPaddingLength (rand : Nat) : Nat := rand % (287 - 64)

/-- The array `options` of `SendSessionRequest` after it is filled and before it
is signed: 16 option bytes; the 16 bytes behind them are not written yet and
are taken as zeros. -/
def sessionRequestOptions (rand now : Nat) : Bytes :=
  let o0 := writeAt (List.replicate 32 0) 0 (List.replicate 16 0)
  let o1 := writeAt o0 0 (htobe16 2)
  let o2 := writeAt o1 2 (htobe16 (sessionRequestPaddingLength rand))
  let o3 := writeAt o2 4 (htobe16 0)
  writeAt o3 8 (htobe32 now)

/-- `NTCP2Session::SendSessionRequest`, with `key` and `padding` the bytes of the
two calls of `RAND_bytes`, `rand` the value of `rand ()` and `now` the value of
`GetSecondsSinceEpoch ()`. -/
def SendSessionRequest (env : NTCP2Env) (s : NTCP2Session) (key : Bytes) (rand now : Nat)
    (padding : Bytes) : NTCP2Session :=
  let e := CreateEphemeralKey env s key
  let x := cbcEncryption env s.remoteIdentHash s.m_RemoteIV 2 e.2
  let k := (KeyDerivationFunction env e.1 e.1.m_RemoteStaticKey x).derived
  let options := sessionRequestOptions rand now
  let paddingLength := sessionRequestPaddingLength rand
  let signed := writeAt options 16 (slice (env.Poly1305HMAC k (slice options 0 16)) 0 16)
  let encrypted := writeAt signed 0 (slice (env.chacha20 k 0 (slice signed 0 16)) 0 16)
  let b0 := List.replicate (paddingLength + 64) 0
  let b1 := writeAt b0 0 (slice x 0 32)
  let b2 := writeAt b1 32 (slice encrypted 0 32)
  let b3 := writeAt b2 64 (slice padding 0 paddingLength)
  { e.1 with m_SessionRequestBuffer := some b3, written := e.1.written ++ [b3] }

/-- `NTCP2Session::HandleSessionRequestSent`. -/
def HandleSessionRequestSent (s : NTCP2Session) (_ecode : Bool) : NTCP2Session :=
  { s with m_SessionRequestBuffer := none }

/-- `NTCP2Session::ClientLogin`. -/
def NTCP2Session.ClientLogin (env : NTCP2Env) (s : NTCP2Session) (key : Bytes) (rand now : Nat)
    (padding : Bytes) : NTCP2Session :=
  SendSessionRequest env s key rand now padding

/-- Toy primitives for NTCP2: digests and tags repeat a byte made of their
inputs, the ciphers are exclusive ors with a key byte. -/
def exampleNTCP2Env : NTCP2Env where
  SHA256 := fun d => List.replicate 32 (d.foldl (fun a b => a + b) 0 % 256)
  HMAC := fun k d => List.replicate 32 ((k.foldl (fun a b => a + b) 1 + 3 * d.foldl (fun a b => a + b) 0) % 256)
  Mul := fun p e => List.replicate 32 ((p.getD 0 0 + e.getD 0 0) % 256)
  ExpandPrivateKey := fun key => key ++ key
  GeneratePublicKey := fun e => (e.take 32).map (fun x => (x + 1) % 256)
  aesEncryptBlock := fun k b => b.map (fun x => x ^^^ k.getD 0 0)
  Poly1305HMAC := fun k d => List.replicate 16 ((k.getD 0 0 + d.foldl (fun a b => a + b) 0) % 256)
  chacha20 := fun k nonce d => d.map (fun x => x ^^^ ((k.getD 0 0 + nonce) % 256))

/-- An NTCP2 session that knows the static key and the IV of its remote router. -/
def exampleNTCP2Session : NTCP2Session where
  m_RemoteStaticKey := List.replicate 32 11
  m_RemoteIV := List.replicate 16 2
  m_ExpandedPrivateKey := List.replicate 64 0
  m_SessionRequestBuffer := none
  remoteIdentHash := List.replicate 32 9
  written := []

/-! ## Streams of frames and reads -/

/-- `Send` called for each message of a list, in order, each with its time. -/
def sendAll (env : Env) (s : NTCPSession) (msgs : List (Nat × Option I2NPMessage)) : NTCPSession :=
  msgs.foldl (fun t p => Send env p.1 t p.2) s

/-- Reads of the record layer that complete without error, one for each chunk
of bytes, in order. -/
def readEvents (now : Nat) (chunks : List Bytes) : List Event :=
  chunks.map (fun c => Event.complete Handler.HandleReceived false c now)

/-- Every read returns at most what `Receive` asks for, the room of a receive
buffer of `capacity` bytes behind the offset; the offset is `offset` at the
first read. -/
def readsFit (capacity : Nat) : Nat → List Bytes → Bool
  | _, [] => true
  | offset, c :: cs =>
    decide (offset + c.length ≤ capacity) && readsFit capacity ((offset + c.length) % 16) cs

/-- The session with another content of the receive buffer, another receive
offset and other outstanding handlers; all that `DecryptNextBlock` works on is
kept. -/
def NTCPSession.withReceive (s : NTCPSession) (buffer : Bytes) (offset : Nat)
    (pending : List Handler) : NTCPSession :=
  { s with m_ReceiveBuffer := buffer, m_ReceiveBufferOffset := offset, pending := pending }

/-- A receiver with the contexts of `exampleSession` that waits for a read. -/
def exampleReceiver : NTCPSession :=
  Receive exampleSession

/-- A message, a keep-alive and the message again, with their times. -/
def exampleStreamMessages : List (Nat × Option I2NPMessage) :=
  [(0, some exampleMessage), (5, none), (7, some exampleMessage)]

/-- The 80 bytes `exampleSession` writes for `exampleStreamMessages`. -/
def exampleStream : Bytes :=
  ((sendAll exampleEnv exampleSession exampleStreamMessages).written.drop
    exampleSession.written.length).flatten

/-! ## A handshake between two sessions -/

/-- The parties of a handshake and the times at which they act: the
environment of the initiator and of the responder, the memory their sessions
are built in, the router info the initiator has of the responder, the value of
`time (0)` in the responder's `SendPhase2` and in the initiator's `SendPhase3`,
and the times at which the initiator and the responder are connected. -/
structure Handshake where
  cenv : Env
  senv : Env
  memC : NTCPSession
  memS : NTCPSession
  remote : RouterInfo
  nowB : Nat
  nowA : Nat
  nowC : Nat
  nowS : Nat

/-- The initiator after `ClientLogin`. -/
def Handshake.client0 (h : Handshake) : NTCPSession :=
  ClientLogin h.cenv (NTCPSession.new h.memC (some h.remote))

/-- The responder after `ServerLogin`. -/
def Handshake.server0 (h : Handshake) : NTCPSession :=
  ServerLogin (NTCPSession.new h.memS none)

/-- The responder after its read of Phase1 completed with what the initiator
wrote. -/
def Handshake.server1 (h : Handshake) : NTCPSession :=
  step h.senv h.server0
    (Event.complete Handler.HandlePhase1Received false (h.client0.written.getD 0 []) h.nowB)

/-- The initiator after its write of Phase1 completed. -/
def Handshake.client1 (h : Handshake) : NTCPSession :=
  step h.cenv h.client0 (Event.complete Handler.HandlePhase1Sent false [] h.nowA)

/-- The initiator after its read of Phase2 completed with what the responder
wrote. -/
def Handshake.client2 (h : Handshake) : NTCPSession :=
  step h.cenv h.client1
    (Event.complete Handler.HandlePhase2Received false (h.server1.written.getD 0 []) h.nowA)

/-- The responder after its write of Phase2 completed. -/
def Handshake.server2 (h : Handshake) : NTCPSession :=
  step h.senv h.server1
    (Event.complete (Handler.HandlePhase2Sent (htobe32 h.nowB)) false [] h.nowB)

/-- The responder after its read of Phase3 completed with what the initiator
wrote. -/
def Handshake.server3 (h : Handshake) : NTCPSession :=
  step h.senv h.server2
    (Event.complete (Handler.HandlePhase3Received (htobe32 h.nowB)) false
      (h.client2.written.getD 1 []) h.nowB)

/-- The initiator after its write of Phase3 completed. -/
def Handshake.client3 (h : Handshake) : NTCPSession :=
  step h.cenv h.client2
    (Event.complete (Handler.HandlePhase3Sent (htobe32 h.nowA)) false [] h.nowA)

/-- The initiator after its read of Phase4 completed with what the responder
wrote. -/
def Handshake.client4 (h : Handshake) : NTCPSession :=
  step h.cenv h.client3
    (Event.complete (Handler.HandlePhase4Received (htobe32 h.nowA)) false
      (h.server3.written.getD 1 []) h.nowC)

/-- The responder after its write of Phase4 completed. -/
def Handshake.server4 (h : Handshake) : NTCPSession :=
  step h.senv h.server3 (Event.complete Handler.HandlePhase4Sent false [] h.nowS)

/-- The example environment with an identity hash that is the digest of the
identity. -/
def exampleHonestEnv : Env :=
  { exampleEnv with
    identHash := sha256 exampleEnv (slice exampleEnv.routerIdentity 0 exampleEnv.identitySize) }

/-- A handshake of two example sessions. -/
def exampleHandshake : Handshake where
  cenv := exampleHonestEnv
  senv := exampleHonestEnv
  memC := exampleSession
  memS := exampleSession
  remote := { identity := exampleHonestEnv.routerIdentity, identHash := exampleHonestEnv.identHash }
  nowB := 10
  nowA := 11
  nowC := 13
  nowS := 13

/-! ## Buffers and CBC: basic facts -/

theorem slice_length (buf : Bytes) (pos n : Nat) : (slice buf pos n).length = n := by
  simp [slice]

theorem slice_getElem (buf : Bytes) (pos n i : Nat) (h : i < (slice buf pos n).length) :
    (slice buf pos n)[i] = buf.getD (pos + i) 0 := by
  have hn : i < n := by simpa [slice_length] using h
  simp only [slice, List.getElem_take]
  by_cases hi : pos + i < buf.length
  · rw [List.getElem_append_left (by simp; omega)]
    simp [List.getD_eq_getElem?_getD, List.getElem?_eq_getElem hi]
  · rw [List.getElem_append_right (by simp; omega)]
    simp [List.getD_eq_getElem?_getD, List.getElem?_eq_none (Nat.le_of_not_lt hi)]

theorem slice_eq_map (buf : Bytes) (pos n : Nat) :
    slice buf pos n = (List.range n).map (fun i => buf.getD (pos + i) 0) := by
  apply List.ext_getElem
  · simp [slice_length]
  · intro i h1 h2
    rw [slice_getElem]
    simp

theorem slice_full (buf : Bytes) (n : Nat) (h : buf.length = n) : slice buf 0 n = buf := by
  subst h
  simp [slice]

theorem slice_take_drop (buf : Bytes) (pos n : Nat) (h : pos + n ≤ buf.length) :
    slice buf pos n = (buf.drop pos).take n := by
  simp only [slice]
  rw [List.take_append_of_le_length (by simp; omega)]

theorem writeAt_length (buf : Bytes) (pos : Nat) (data : Bytes)
    (h : pos + data.length ≤ buf.length) : (writeAt buf pos data).length = buf.length := by
  simp [writeAt]
  omega

theorem writeAt_getD (buf : Bytes) (pos : Nat) (data : Bytes) (i : Nat)
    (h : pos + data.length ≤ buf.length) :
    (writeAt buf pos data).getD i 0 =
      if i < pos then buf.getD i 0
      else if i < pos + data.length then data.getD (i - pos) 0 else buf.getD i 0 := by
  simp only [writeAt, List.getD_eq_getElem?_getD, List.append_assoc]
  have hl : (buf.take pos).length = pos := by simp; omega
  by_cases h1 : i < pos
  · simp only [h1, if_true]
    rw [List.getElem?_append_left (by omega)]
    simp [List.getElem?_take, h1]
  · simp only [h1, if_false]
    rw [List.getElem?_append_right (by omega), hl]
    by_cases h2 : i < pos + data.length
    · simp only [h2, if_true]
      rw [List.getElem?_append_left (by omega)]
    · simp only [h2, if_false]
      rw [List.getElem?_append_right (by omega)]
      simp only [List.getElem?_drop]
      congr 2
      omega

theorem writeAt_append (buf : Bytes) (pos : Nat) (a b : Bytes)
    (h : pos + a.length + b.length ≤ buf.length) :
    writeAt (writeAt buf pos a) (pos + a.length) b = writeAt buf pos (a ++ b) := by
  have hl : (buf.take pos ++ a).length = pos + a.length := by simp; omega
  have h1 : (buf.take pos ++ a ++ buf.drop (pos + a.length)).take (pos + a.length) =
      buf.take pos ++ a := by
    rw [← hl]; exact List.take_left' rfl
  have h2 : (buf.take pos ++ a ++ buf.drop (pos + a.length)).drop (pos + a.length + b.length) =
      buf.drop (pos + a.length + b.length) := by
    rw [List.drop_append_eq_append_drop, hl]
    rw [List.drop_eq_nil_of_le (by omega)]
    simp only [List.nil_append, List.drop_drop]
    congr 1
    omega
  unfold writeAt
  rw [h1, h2]
  simp [Nat.add_assoc]

theorem xorBytes_cancel (p reg : Bytes) (h : p.length ≤ reg.length) :
    xorBytes (xorBytes p reg) reg = p := by
  induction p generalizing reg with
  | nil => simp [xorBytes]
  | cons a p ih =>
    cases reg with
    | nil => simp at h
    | cons b reg =>
      simp only [xorBytes, List.zipWith_cons_cons, List.cons.injEq]
      refine ⟨Nat.xor_cancel_right _ _, ?_⟩
      exact ih reg (by simpa using h)

theorem xorBytes_length (p reg : Bytes) : (xorBytes p reg).length = min p.length reg.length := by
  simp [xorBytes]

theorem Decrypt_block (env : Env) (c : CBC) (b : Bytes) (h : b.length = 16) :
    c.Decrypt env b = (xorBytes (aesDecrypt16 env c.key b) c.iv, { c with iv := b }) := by
  have h1 : b.take 16 = b := by exact List.take_of_length_le (by omega)
  have h2 : b.drop 16 = [] := by exact List.drop_eq_nil_of_le (by omega)
  simp [CBC.Decrypt, cbcDecryptBlocks, h, h1, h2]

theorem aes16_inverse (env : Env) (haes : env.aesInverts) (key b : Bytes) (h : b.length = 16) :
    aesDecrypt16 env key (aesEncrypt16 env key b) = b := by
  obtain ⟨h1, h2⟩ := haes key b h
  unfold aesDecrypt16 aesEncrypt16
  rw [slice_full _ _ h1, h2, slice_full _ _ h]

theorem cbc_block_inverse (env : Env) (haes : env.aesInverts) (key p reg : Bytes)
    (hp : p.length = 16) (hr : reg.length = 16) :
    xorBytes (aesDecrypt16 env key (aesEncrypt16 env key (xorBytes p reg))) reg = p := by
  rw [aes16_inverse env haes _ _ (by simp [xorBytes_length, hp, hr])]
  exact xorBytes_cancel p reg (by omega)

theorem slice_block (b : Bytes) (h : b.length = 16) : slice b 0 16 = b := slice_full b 16 h

theorem cbcEncryptBlocks_succ (E : Bytes → Bytes → Bytes) (key : Bytes) (k : Nat)
    (reg data : Bytes) :
    (cbcEncryptBlocks E key (k + 1) reg data).1 =
      E key (xorBytes (data.take 16) reg) ++
        (cbcEncryptBlocks E key k (E key (xorBytes (data.take 16) reg)) (data.drop 16)).1 := rfl

theorem blocksOf_append (k : Nat) (c rest : Bytes) (h : c.length = 16) :
    blocksOf (k + 1) (c ++ rest) = c :: blocksOf k rest := by
  simp only [blocksOf]
  rw [List.take_left' h, List.drop_left' h]

theorem decryptAll_cons (env : Env) (r : NTCPSession) (b : Bytes) (bs : List Bytes) :
    decryptAll env r (b :: bs) = decryptAll env (DecryptNextBlock env r b) bs := rfl

/-- A message in progress: the blocks of the rest of a CBC-encrypted frame,
fed one by one, are written behind each other and the message is handed on
at the last one. -/
theorem decryptAll_continue (env : Env) (haes : env.aesInverts) (key : Bytes) :
    ∀ (k : Nat) (reg plain : Bytes) (r : NTCPSession) (m : I2NPMessage),
      plain.length = 16 * (k + 1) → reg.length = 16 →
      r.m_NextMessage = some m → r.m_Decryption = { key := key, iv := reg } →
      r.m_NextMessageOffset + 16 * (k + 1) ≤ m.buf.length →
      m.len + 4 ≤ r.m_NextMessageOffset + 16 * (k + 1) →
      r.m_NextMessageOffset + 16 * k < m.len + 4 →
      (∀ j, j < k + 1 →
        (decryptAll env r
          ((blocksOf (k + 1) (cbcEncryptBlocks (aesEncrypt16 env) key (k + 1) reg plain).1).take
            j)).handled = r.handled) ∧
      (decryptAll env r
          (blocksOf (k + 1) (cbcEncryptBlocks (aesEncrypt16 env) key (k + 1) reg plain).1)).handled =
        r.handled ++ [{ m with buf := writeAt m.buf r.m_NextMessageOffset plain }] ∧
      (decryptAll env r
          (blocksOf (k + 1)
            (cbcEncryptBlocks (aesEncrypt16 env) key (k + 1) reg plain).1)).m_NextMessage = none := by
  intro k
  induction k with
  | zero =>
    intro reg plain r m hpl hreg hm hdec hfit hdone hnot
    have hc : (aesEncrypt16 env key (xorBytes (plain.take 16) reg)).length = 16 :=
      slice_length _ _ _
    have hp16 : plain.take 16 = plain := by
      exact List.take_of_length_le (by omega)
    have hd16 : plain.drop 16 = [] := by
      apply List.drop_eq_nil_of_le; omega
    have hstep : DecryptNextBlock env r (aesEncrypt16 env key (xorBytes plain reg)) =
        { r with
          m_Decryption := { key := key, iv := aesEncrypt16 env key (xorBytes plain reg) },
          m_NextMessage := none,
          m_NextMessageOffset := r.m_NextMessageOffset + 16,
          handled := r.handled ++ [{ m with buf := writeAt m.buf r.m_NextMessageOffset plain }] } := by
      rw [hp16] at hc
      unfold DecryptNextBlock
      simp only [hm, slice_block _ hc, Decrypt_block env _ _ hc, hdec]
      rw [cbc_block_inverse env haes key plain reg (by omega) hreg]
      unfold completeMessage
      simp only []
      rw [if_pos (by simp; omega)]
    have hblocks : blocksOf 1 (cbcEncryptBlocks (aesEncrypt16 env) key 1 reg plain).1 =
        [aesEncrypt16 env key (xorBytes plain reg)] := by
      rw [cbcEncryptBlocks_succ, blocksOf_append _ _ _ hc, hp16]
      rfl
    simp only [Nat.zero_add, hblocks]
    refine ⟨?_, ?_, ?_⟩
    · intro j hj
      have : j = 0 := by omega
      subst this
      rfl
    · simp only [decryptAll, List.foldl_cons, List.foldl_nil, hstep]
    · simp only [decryptAll, List.foldl_cons, List.foldl_nil, hstep]
  | succ k ih =>
    intro reg plain r m hpl hreg hm hdec hfit hdone hnot
    have hc : (aesEncrypt16 env key (xorBytes (plain.take 16) reg)).length = 16 :=
      slice_length _ _ _
    have hp16 : (plain.take 16).length = 16 := by simp; omega
    have hstep : DecryptNextBlock env r (aesEncrypt16 env key (xorBytes (plain.take 16) reg)) =
        { r with
          m_Decryption :=
            { key := key, iv := aesEncrypt16 env key (xorBytes (plain.take 16) reg) },
          m_NextMessage :=
            some { m with buf := writeAt m.buf r.m_NextMessageOffset (plain.take 16) },
          m_NextMessageOffset := r.m_NextMessageOffset + 16 } := by
      unfold DecryptNextBlock
      simp only [hm, slice_block _ hc, Decrypt_block env _ _ hc, hdec]
      rw [cbc_block_inverse env haes key (plain.take 16) reg hp16 hreg]
      unfold completeMessage
      simp only []
      rw [if_neg (by simp; omega)]
    rw [cbcEncryptBlocks_succ, blocksOf_append _ _ _ hc]
    have hw : (writeAt m.buf r.m_NextMessageOffset (plain.take 16)).length = m.buf.length :=
      writeAt_length _ _ _ (by rw [hp16]; omega)
    obtain ⟨ih1, ih2, ih3⟩ :=
      ih (aesEncrypt16 env key (xorBytes (plain.take 16) reg)) (plain.drop 16)
        (DecryptNextBlock env r (aesEncrypt16 env key (xorBytes (plain.take 16) reg)))
        { m with buf := writeAt m.buf r.m_NextMessageOffset (plain.take 16) }
        (by simp; omega) hc (by rw [hstep]) (by rw [hstep])
        (by rw [hstep]; simp only [hw]; omega) (by rw [hstep]; simp only []; omega)
        (by rw [hstep]; simp only []; omega)
    refine ⟨?_, ?_, ?_⟩
    · intro j hj
      cases j with
      | zero => rfl
      | succ j =>
        rw [List.take_succ_cons, decryptAll_cons, ih1 j (by omega), hstep]
    · rw [decryptAll_cons, ih2, hstep]
      simp only []
      have := writeAt_append m.buf r.m_NextMessageOffset (plain.take 16) (plain.drop 16)
        (by simp; omega)
      rw [hp16, List.take_append_drop] at this
      rw [this]
    · rw [decryptAll_cons, ih3]

theorem ext_getD (a b : Bytes) (hl : a.length = b.length)
    (h : ∀ i, i < a.length → a.getD i 0 = b.getD i 0) : a = b := by
  apply List.ext_getElem hl
  intro i h1 h2
  have := h i h1
  rwa [List.getD_eq_getElem _ _ h1, List.getD_eq_getElem _ _ h2] at this

theorem slice_getD (buf : Bytes) (pos n i : Nat) :
    (slice buf pos n).getD i 0 = if i < n then buf.getD (pos + i) 0 else 0 := by
  by_cases h : i < n
  · rw [if_pos h, List.getD_eq_getElem _ _ (by simpa [slice_length] using h), slice_getElem]
  · rw [if_neg h, List.getD_eq_default _ _ (by simp [slice_length]; omega)]

theorem slice_take (buf : Bytes) (pos n k : Nat) (h : k ≤ n) :
    (slice buf pos n).take k = slice buf pos k := by
  apply ext_getD
  · simp [slice_length, h]
  · intro i hi
    have hi2 : i < k := by simpa [slice_length, h] using hi
    rw [List.getD_eq_getElem?_getD, List.getElem?_take, if_pos hi2,
      ← List.getD_eq_getElem?_getD, slice_getD, slice_getD, if_pos (by omega), if_pos hi2]

theorem slice_drop (buf : Bytes) (pos n k : Nat) :
    (slice buf pos n).drop k = slice buf (pos + k) (n - k) := by
  apply ext_getD
  · simp [slice_length]
  · intro i hi
    have hi2 : i < n - k := by simpa [slice_length] using hi
    rw [List.getD_eq_getElem?_getD, List.getElem?_drop,
      ← List.getD_eq_getElem?_getD, slice_getD, slice_getD, if_pos (by omega), if_pos hi2,
      Nat.add_assoc]

theorem slice_add (buf : Bytes) (pos a b : Nat) :
    slice buf pos (a + b) = slice buf pos a ++ slice buf (pos + a) b := by
  have h1 := slice_take buf pos (a + b) a (by omega)
  have h2 := slice_drop buf pos (a + b) a
  rw [Nat.add_sub_cancel_left] at h2
  rw [← h1, ← h2, List.take_append_drop]

theorem messageMemory_drop (m : I2NPMessage) (n : Nat) :
    (messageMemory m n).drop 2 = slice m.buf m.offset (n - 2) := by
  unfold messageMemory
  rw [slice_drop]
  apply ext_getD
  · simp [slice_length]
  · intro i _
    rw [slice_getD, slice_getD]
    have : m.offset + 2 + i = (m.offset + i) + 2 := by omega
    rw [this]
    simp [List.getD_eq_getElem?_getD]

theorem writeAt_zero (buf data : Bytes) : writeAt buf 0 data = data ++ buf.drop data.length := by
  simp [writeAt]

theorem writeAt_end (buf data : Bytes) (pos : Nat) (h : pos + data.length = buf.length) :
    writeAt buf pos data = buf.take pos ++ data := by
  simp [writeAt, List.drop_eq_nil_of_le (Nat.le_of_eq h.symm)]

theorem sendPrepared_message (now : Nat) (s : NTCPSession) (m : I2NPMessage) :
    sendPrepared now s (some m) =
      htobe16 m.GetLength ++ slice m.buf m.offset (m.GetLength + sendPadding m.GetLength + 4) := by
  simp only [sendPrepared, sendLen, writeAt_zero]
  have : (htobe16 m.GetLength).length = 2 := rfl
  rw [this, messageMemory_drop]
  congr 2

theorem sendBuffer_message (now : Nat) (s : NTCPSession) (m : I2NPMessage) :
    sendBuffer now s (some m) =
      htobe16 m.GetLength ++ slice m.buf m.offset (m.GetLength + sendPadding m.GetLength) ++
        adler32
          (htobe16 m.GetLength ++ slice m.buf m.offset (m.GetLength + sendPadding m.GetLength)) := by
  have hlen : (htobe16 m.GetLength).length = 2 := rfl
  have htake : (sendPrepared now s (some m)).take (m.GetLength + 2 + sendPadding m.GetLength) =
      htobe16 m.GetLength ++ slice m.buf m.offset (m.GetLength + sendPadding m.GetLength) := by
    rw [sendPrepared_message, List.take_append_eq_append_take, hlen,
      List.take_of_length_le (by rw [hlen]; omega), slice_take _ _ _ _ (by omega)]
    congr 2
    omega
  unfold sendBuffer
  simp only [sendLen]
  rw [writeAt_end, htake]
  rw [sendPrepared_message]
  simp [slice_length, hlen, adler32]
  omega

/-! ## Frames built by `Send` -/

theorem aesEncrypt16_length (env : Env) (key b : Bytes) : (aesEncrypt16 env key b).length = 16 :=
  slice_length _ _ _

theorem aesDecrypt16_length (env : Env) (key b : Bytes) : (aesDecrypt16 env key b).length = 16 :=
  slice_length _ _ _

theorem cbcEncryptBlocks_length (E : Bytes → Bytes → Bytes) (key : Bytes)
    (hE : ∀ k b, (E k b).length = 16) :
    ∀ (k : Nat) (reg data : Bytes), 16 * k ≤ data.length →
      (cbcEncryptBlocks E key k reg data).1.length = data.length := by
  intro k
  induction k with
  | zero => intro reg data _; simp [cbcEncryptBlocks]
  | succ k ih =>
    intro reg data h
    simp only [cbcEncryptBlocks, List.length_append, hE]
    rw [ih _ _ (by simp; omega)]
    simp; omega

theorem Encrypt_length (env : Env) (c : CBC) (data : Bytes) :
    (c.Encrypt env data).1.length = data.length := by
  simp only [CBC.Encrypt]
  exact cbcEncryptBlocks_length _ _ (aesEncrypt16_length env) _ _ _ (Nat.mul_div_le _ _)

theorem sendPadding_eq (n : Nat) : sendPadding n = (16 - (n + 6) % 16) % 16 := by
  unfold sendPadding
  split <;> omega

theorem sendPrepared_length (now : Nat) (s : NTCPSession) (msg : Option I2NPMessage) :
    (sendPrepared now s msg).length = sendLen msg + 2 + sendPadding (sendLen msg) + 4 := by
  unfold sendPrepared
  cases msg with
  | none =>
    simp only [sendLen]
    have hp : sendPadding 4 = 6 := by decide
    rw [hp]
    rw [writeAt_length, writeAt_length, slice_length]
    all_goals simp [writeAt_length, slice_length, htobe16, htobe32]
  | some m =>
    simp only [sendLen]
    rw [writeAt_length]
    · simp [messageMemory, slice_length]; omega
    · simp [messageMemory, slice_length, htobe16]

theorem adler32_length (data : Bytes) : (adler32 data).length = 4 := by
  simp [adler32]

theorem sendBuffer_length (now : Nat) (s : NTCPSession) (msg : Option I2NPMessage) :
    (sendBuffer now s msg).length = sendLen msg + 2 + sendPadding (sendLen msg) + 4 := by
  unfold sendBuffer
  have h := sendPrepared_length now s msg
  simp only []
  rw [writeAt_length] <;> simp [adler32_length, h]

theorem Send_written (env : Env) (now : Nat) (s : NTCPSession) (msg : Option I2NPMessage)
    (hopen : s.socketOpen = true) :
    (Send env now s msg).written =
      s.written ++ [(s.m_Encryption.Encrypt env (sendBuffer now s msg)).1] := by
  cases msg with
  | none => simp [Send, asyncWrite, hopen]
  | some m =>
    by_cases h : m.offset < 2 <;> simp [Send, asyncWrite, hopen, h, sendBuffer, sendPrepared]

theorem frame_multiple (n : Nat) : (n + 2 + sendPadding n + 4) % 16 = 0 := by
  unfold sendPadding
  split <;> omega

/-- C2: for an inner message of length `n`, `Send` computes the padding
`(16 - ((n + 6) mod 16)) mod 16`, the bytes it encrypts and the frame it writes
to the socket have exactly `n + 2 + padding + 4` bytes, a multiple of 16; a
message of 14 bytes gives padding 12 and a frame of 32 bytes, a message of 10
bytes gives padding 0 and a frame of 16 bytes. -/
theorem send_frame_length (env : Env) (now : Nat) (s : NTCPSession) (m : I2NPMessage)
    (hopen : s.socketOpen = true) (hwf : m.offset ≤ m.len) :
    m.GetLength + m.offset = m.len ∧
    sendPadding m.GetLength = (16 - (m.GetLength + 6) % 16) % 16 ∧
    (sendBuffer now s (some m)).length = m.GetLength + 2 + sendPadding m.GetLength + 4 ∧
    (∃ frame, (Send env now s (some m)).written = s.written ++ [frame] ∧
      frame = (s.m_Encryption.Encrypt env (sendBuffer now s (some m))).1 ∧
      frame.length = m.GetLength + 2 + sendPadding m.GetLength + 4) ∧
    (m.GetLength + 2 + sendPadding m.GetLength + 4) % 16 = 0 ∧
    (m.GetLength = 14 →
      sendPadding m.GetLength = 12 ∧ m.GetLength + 2 + sendPadding m.GetLength + 4 = 32) ∧
    (m.GetLength = 10 →
      sendPadding m.GetLength = 0 ∧ m.GetLength + 2 + sendPadding m.GetLength + 4 = 16) := by
  refine ⟨by unfold I2NPMessage.GetLength; omega, sendPadding_eq _, ?_, ?_, frame_multiple _,
    ?_, ?_⟩
  · simpa [sendLen] using sendBuffer_length now s (some m)
  · refine ⟨_, Send_written env now s (some m) hopen, rfl, ?_⟩
    rw [Encrypt_length]
    simpa [sendLen] using sendBuffer_length now s (some m)
  · intro h; rw [h]; decide
  · intro h; rw [h]; decide

theorem take_writeAt_self (buf : Bytes) (pos : Nat) (data : Bytes) (h : pos ≤ buf.length) :
    (writeAt buf pos data).take pos = buf.take pos := by
  simp [writeAt, List.take_append_eq_append_take, List.take_take, h]

theorem drop_writeAt_self (buf : Bytes) (pos : Nat) (data : Bytes)
    (h : pos + data.length = buf.length) :
    (writeAt buf pos data).drop pos = data := by
  have h1 : (buf.take pos).length = pos := by simp; omega
  have h2 : buf.drop (pos + data.length) = [] := by
    apply List.drop_eq_nil_of_le; omega
  simp only [writeAt, h2, List.append_nil]
  rw [List.drop_append_of_le_length (by omega)]
  rw [List.drop_eq_nil_of_le (by omega)]
  simp

/-- C10: in the buffer `Send` encrypts, for an inner message as for a
keep-alive, the last four bytes are the Adler-32 digest of the
`len + 2 + padding` bytes in front of them, so the check `adlerVerify`, which
recomputes the digest over all bytes but the last four, accepts the frame. -/
theorem send_frame_checksum (now : Nat) (s : NTCPSession) (msg : Option I2NPMessage) :
    (sendBuffer now s msg).drop (sendLen msg + 2 + sendPadding (sendLen msg)) =
      adler32 ((sendBuffer now s msg).take (sendLen msg + 2 + sendPadding (sendLen msg))) ∧
    (sendBuffer now s msg).length - 4 = sendLen msg + 2 + sendPadding (sendLen msg) ∧
    (∀ env : Env, s.socketOpen = true →
      (Send env now s msg).written =
        s.written ++ [(s.m_Encryption.Encrypt env (sendBuffer now s msg)).1]) ∧
    adlerVerify (sendBuffer now s msg) = true := by
  have hl := sendBuffer_length now s msg
  have key : (sendBuffer now s msg).drop (sendLen msg + 2 + sendPadding (sendLen msg)) =
      adler32 ((sendBuffer now s msg).take (sendLen msg + 2 + sendPadding (sendLen msg))) := by
    unfold sendBuffer
    have hp := sendPrepared_length now s msg
    simp only []
    rw [drop_writeAt_self _ _ _ (by simp [adler32_length, hp]),
      take_writeAt_self _ _ _ (by omega)]
  refine ⟨key, by omega, fun env hopen => Send_written env now s msg hopen, ?_⟩
  unfold adlerVerify
  have : (sendBuffer now s msg).length - 4 = sendLen msg + 2 + sendPadding (sendLen msg) := by omega
  rw [this, key]
  simp

/-! ## Round trip of a frame -/

theorem be16toh_htobe16 (n : Nat) (rest : Bytes) (h : n ≤ 65535) :
    be16toh (htobe16 n ++ rest) = n := by
  simp [be16toh, htobe16]
  omega

/-- The header block of a frame: a message of `n` bytes is started. -/
theorem decryptNextBlock_header (env : Env) (haes : env.aesInverts) (r : NTCPSession)
    (key reg plain : Bytes) (n : Nat) (hn1 : 1 ≤ n) (hn2 : n ≤ 65535)
    (hp : plain.length = 16) (hreg : reg.length = 16)
    (hsize : plain.take 2 = htobe16 n)
    (hnone : r.m_NextMessage = none) (hdec : r.m_Decryption = { key := key, iv := reg }) :
    DecryptNextBlock env r (aesEncrypt16 env key (xorBytes plain reg)) =
      completeMessage
        { r with
          m_Decryption := { key := key, iv := aesEncrypt16 env key (xorBytes plain reg) },
          m_NextMessage :=
            some { buf := writeAt env.NewI2NPMessage.buf 0 plain, len := n + 2, offset := 2 },
          m_NextMessageOffset := 16 } := by
  have hc : (aesEncrypt16 env key (xorBytes plain reg)).length = 16 := slice_length _ _ _
  have hsz : be16toh (writeAt env.NewI2NPMessage.buf 0 plain) = n := by
    have h2 : plain = htobe16 n ++ plain.drop 2 := by
      conv_lhs => rw [← List.take_append_drop 2 plain, hsize]
    rw [writeAt_zero, h2, List.append_assoc]
    exact be16toh_htobe16 n _ hn2
  unfold DecryptNextBlock
  simp only [hnone, slice_block _ hc, Decrypt_block env _ _ hc, hdec]
  rw [cbc_block_inverse env haes key plain reg hp hreg]
  simp only [hsz]
  rw [if_pos (by omega)]

/-- A whole CBC-encrypted frame fed block by block to a receiver with no message
in progress and the sender's key and chaining register. -/
theorem decryptAll_frame (env : Env) (haes : env.aesInverts) (r : NTCPSession)
    (key reg plain : Bytes) (n k : Nat) (hn1 : 1 ≤ n) (hn2 : n ≤ 65535)
    (hp : plain.length = 16 * (k + 1)) (hreg : reg.length = 16)
    (hsize : plain.take 2 = htobe16 n)
    (hlo : n + 6 ≤ 16 * (k + 1)) (hhi : 16 * k < n + 6)
    (hnone : r.m_NextMessage = none) (hdec : r.m_Decryption = { key := key, iv := reg })
    (hcap : 16 * (k + 1) ≤ env.NewI2NPMessage.buf.length) :
    (∀ j, j < k + 1 →
      (decryptAll env r
        ((blocksOf (k + 1) (cbcEncryptBlocks (aesEncrypt16 env) key (k + 1) reg plain).1).take
          j)).handled = r.handled) ∧
    (decryptAll env r
        (blocksOf (k + 1) (cbcEncryptBlocks (aesEncrypt16 env) key (k + 1) reg plain).1)).handled =
      r.handled ++
        [{ buf := writeAt env.NewI2NPMessage.buf 0 plain, len := n + 2, offset := 2 }] ∧
    (decryptAll env r
        (blocksOf (k + 1)
          (cbcEncryptBlocks (aesEncrypt16 env) key (k + 1) reg plain).1)).m_NextMessage = none := by
  have hc : (aesEncrypt16 env key (xorBytes (plain.take 16) reg)).length = 16 :=
    slice_length _ _ _
  have hp16 : (plain.take 16).length = 16 := by simp; omega
  have hsize16 : (plain.take 16).take 2 = htobe16 n := by
    rw [List.take_take]; exact hsize
  have hhead := decryptNextBlock_header env haes r key reg (plain.take 16) n hn1 hn2 hp16 hreg
    hsize16 hnone hdec
  rw [cbcEncryptBlocks_succ, blocksOf_append _ _ _ hc]
  cases k with
  | zero =>
    have hfull : plain.take 16 = plain := List.take_of_length_le (by omega)
    have hstep : DecryptNextBlock env r (aesEncrypt16 env key (xorBytes (plain.take 16) reg)) =
        { r with
          m_Decryption :=
            { key := key, iv := aesEncrypt16 env key (xorBytes (plain.take 16) reg) },
          m_NextMessage := none,
          m_NextMessageOffset := 16,
          handled := r.handled ++
            [{ buf := writeAt env.NewI2NPMessage.buf 0 plain, len := n + 2, offset := 2 }] } := by
      rw [hhead]
      unfold completeMessage
      simp only []
      rw [if_pos (by simp; omega), hfull]
    refine ⟨?_, ?_, ?_⟩
    · intro j hj
      have : j = 0 := by omega
      subst this
      rfl
    · simp only [blocksOf, decryptAll, List.foldl_cons, List.foldl_nil, hstep]
    · simp only [blocksOf, decryptAll, List.foldl_cons, List.foldl_nil, hstep]
  | succ k =>
    have hstep : DecryptNextBlock env r (aesEncrypt16 env key (xorBytes (plain.take 16) reg)) =
        { r with
          m_Decryption :=
            { key := key, iv := aesEncrypt16 env key (xorBytes (plain.take 16) reg) },
          m_NextMessage :=
            some { buf := writeAt env.NewI2NPMessage.buf 0 (plain.take 16), len := n + 2,
                   offset := 2 },
          m_NextMessageOffset := 16 } := by
      rw [hhead]
      unfold completeMessage
      simp only []
      rw [if_neg (by simp; omega)]
    have hw : (writeAt env.NewI2NPMessage.buf 0 (plain.take 16)).length =
        env.NewI2NPMessage.buf.length := writeAt_length _ _ _ (by rw [hp16]; omega)
    obtain ⟨c1, c2, c3⟩ :=
      decryptAll_continue env haes key k (aesEncrypt16 env key (xorBytes (plain.take 16) reg))
        (plain.drop 16)
        (DecryptNextBlock env r (aesEncrypt16 env key (xorBytes (plain.take 16) reg)))
        { buf := writeAt env.NewI2NPMessage.buf 0 (plain.take 16), len := n + 2, offset := 2 }
        (by simp; omega) hc (by rw [hstep]) (by rw [hstep])
        (by rw [hstep]; simp only [hw]; omega) (by rw [hstep]; simp only []; omega)
        (by rw [hstep]; simp only []; omega)
    refine ⟨?_, ?_, ?_⟩
    · intro j hj
      cases j with
      | zero => rfl
      | succ j => rw [List.take_succ_cons, decryptAll_cons, c1 j (by omega), hstep]
    · rw [decryptAll_cons, c2, hstep]
      simp only []
      have := writeAt_append env.NewI2NPMessage.buf 0 (plain.take 16) (plain.drop 16)
        (by simp; omega)
      rw [hp16, List.take_append_drop] at this
      rw [← this]
    · rw [decryptAll_cons, c3]

theorem slice_append_left (a b : Bytes) (pos n : Nat) (h : pos + n ≤ a.length) :
    slice (a ++ b) pos n = slice a pos n := by
  apply ext_getD
  · simp [slice_length]
  · intro i hi
    have hi2 : i < n := by simpa [slice_length] using hi
    rw [slice_getD, slice_getD, if_pos hi2, if_pos hi2, List.getD_append _ _ _ _ (by omega)]

theorem slice_append_right (a b : Bytes) (pos n : Nat) :
    slice (a ++ b) (a.length + pos) n = slice b pos n := by
  apply ext_getD
  · simp [slice_length]
  · intro i hi
    have hi2 : i < n := by simpa [slice_length] using hi
    rw [slice_getD, slice_getD, if_pos hi2, if_pos hi2,
      List.getD_append_right _ _ _ _ (by omega)]
    congr 1
    omega

theorem sendPadding_lt (n : Nat) : sendPadding n < 16 := by
  unfold sendPadding
  split <;> omega

/-- The payload of a frame written at the start of a buffer is found at
positions 2 to `2 + n`. -/
theorem payload_of_frame (buf head body tail : Bytes) (n : Nat) (hh : head.length = 2)
    (hb : n ≤ body.length) :
    slice (writeAt buf 0 (head ++ body ++ tail)) 2 n = body.take n := by
  rw [writeAt_zero]
  generalize buf.drop (head ++ body ++ tail).length = rest
  rw [List.append_assoc, List.append_assoc]
  have := slice_append_right head (body ++ (tail ++ rest)) 0 n
  rw [Nat.add_zero, hh] at this
  rw [this, slice_append_left _ _ _ _ (by omega), slice_take_drop _ _ _ (by omega)]
  simp

/-- C1: a message of `n` bytes, `1 ≤ n ≤ 65535`, is sent with `Send` on an open
socket; the buffer encrypted is `be16(n) || payload || padding || adler32`.  The
receiver has no message in progress, its inbound CBC context equals the
sender's outbound one and AES decryption undoes AES encryption, and the frame
fits the buffer of a new message.  When the blocks of the frame written are fed
in order to `DecryptNextBlock`, no message is handed on before the last block,
exactly one is handed on at the last block, it has offset 2, `len = n + 2` and
the payload at positions 2 to `2 + n`, and no message is in progress after. -/
theorem send_receive_round_trip (env : Env) (now : Nat) (s r : NTCPSession) (m : I2NPMessage)
    (haes : env.aesInverts) (hopen : s.socketOpen = true)
    (hn1 : 1 ≤ m.GetLength) (hn2 : m.GetLength ≤ 65535)
    (hfit : m.GetLength + 2 + sendPadding m.GetLength + 4 ≤ env.NewI2NPMessage.buf.length)
    (hnone : r.m_NextMessage = none)
    (hctx : r.m_Decryption = s.m_Encryption) (hiv : s.m_Encryption.iv.length = 16) :
    sendBuffer now s (some m) =
      htobe16 m.GetLength ++ slice m.buf m.offset m.GetLength ++
        slice m.buf (m.offset + m.GetLength) (sendPadding m.GetLength) ++
        adler32 (htobe16 m.GetLength ++ slice m.buf m.offset m.GetLength ++
          slice m.buf (m.offset + m.GetLength) (sendPadding m.GetLength)) ∧
    ∃ frame : Bytes,
      (Send env now s (some m)).written = s.written ++ [frame] ∧
      frame = (s.m_Encryption.Encrypt env (sendBuffer now s (some m))).1 ∧
      (∀ j, j < frame.length / 16 →
        (decryptAll env r ((blocksOf (frame.length / 16) frame).take j)).handled = r.handled) ∧
      ∃ msg : I2NPMessage,
        (decryptAll env r (blocksOf (frame.length / 16) frame)).handled = r.handled ++ [msg] ∧
        msg.offset = 2 ∧ msg.len = m.GetLength + 2 ∧
        slice msg.buf 2 m.GetLength = slice m.buf m.offset m.GetLength ∧
        (decryptAll env r (blocksOf (frame.length / 16) frame)).m_NextMessage = none := by
  have hshape := sendBuffer_message now s m
  have hlen : (sendBuffer now s (some m)).length =
      m.GetLength + 2 + sendPadding m.GetLength + 4 := by
    simpa [sendLen] using sendBuffer_length now s (some m)
  have hmul := frame_multiple m.GetLength
  have hpad := sendPadding_lt m.GetLength
  obtain ⟨k, hk⟩ : ∃ k, m.GetLength + 2 + sendPadding m.GetLength + 4 = 16 * (k + 1) :=
    ⟨(m.GetLength + 2 + sendPadding m.GetLength + 4) / 16 - 1, by omega⟩
  have hflen : ((s.m_Encryption.Encrypt env (sendBuffer now s (some m))).1).length =
      16 * (k + 1) := by rw [Encrypt_length, hlen, hk]
  have hdiv : 16 * (k + 1) / 16 = k + 1 := by omega
  have hsize : (sendBuffer now s (some m)).take 2 = htobe16 m.GetLength := by
    rw [hshape, List.append_assoc]
    exact List.take_left' rfl
  have hframe : (s.m_Encryption.Encrypt env (sendBuffer now s (some m))).1 =
      (cbcEncryptBlocks (aesEncrypt16 env) s.m_Encryption.key (k + 1) s.m_Encryption.iv
        (sendBuffer now s (some m))).1 := by
    simp only [CBC.Encrypt, hlen, hk, hdiv]
  obtain ⟨f1, f2, f3⟩ := decryptAll_frame env haes r s.m_Encryption.key s.m_Encryption.iv
    (sendBuffer now s (some m)) m.GetLength k hn1 hn2 (by rw [hlen, hk]) hiv hsize (by omega)
    (by omega) hnone (by rw [hctx]) (by omega)
  refine ⟨?_, _, Send_written env now s (some m) hopen, rfl, ?_, ?_⟩
  · rw [hshape, slice_add, List.append_assoc, List.append_assoc, List.append_assoc]
    simp only [List.append_assoc]
  · rw [hflen, hdiv, hframe]
    exact f1
  · rw [hflen, hdiv, hframe]
    refine ⟨_, f2, rfl, rfl, ?_, f3⟩
    simp only []
    rw [hshape, payload_of_frame _ (htobe16 m.GetLength) _ _ _ rfl (by simp [slice_length]),
      slice_take _ _ _ _ (by omega)]

/-! ## Key normalisation, keep-alive and deferred messages -/

/-- C9: when the agreement succeeds with a shared secret of at least 32
bytes, `CreateAESKey` does not terminate the session and leaves exactly 32
bytes in `aesKey`: a zero byte followed by the first 31 bytes of the secret
when bit 7 of its first byte is set, and the first 32 bytes of the secret
when that bit is clear. -/
theorem createAESKey_normalization (env : Env) (s : NTCPSession) (pubKey aesKey secret : Bytes)
    (hagree : env.dhAgree env.privateKey pubKey = some secret)
    (hsecret : 32 ≤ secret.length) (hbuf : aesKey.length = 32) :
    (CreateAESKey env s pubKey aesKey).1 = s ∧
    (CreateAESKey env s pubKey aesKey).2.length = 32 ∧
    (secret.getD 0 0 &&& 128 ≠ 0 →
      (CreateAESKey env s pubKey aesKey).2 = 0 :: secret.take 31) ∧
    (secret.getD 0 0 &&& 128 = 0 →
      (CreateAESKey env s pubKey aesKey).2 = secret.take 32) := by
  have h31 : slice secret 0 31 = secret.take 31 := by
    rw [slice_take_drop _ _ _ (by omega)]; rfl
  have h32 : slice secret 0 32 = secret.take 32 := by
    rw [slice_take_drop _ _ _ (by omega)]; rfl
  have hz : writeAt (writeAt aesKey 0 [0]) 1 (secret.take 31) = 0 :: secret.take 31 := by
    have := writeAt_append aesKey 0 [0] (secret.take 31) (by simp; omega)
    simp only [Nat.zero_add, List.length_singleton] at this
    rw [this, writeAt_zero, List.drop_eq_nil_of_le (by simp; omega)]
    simp
  have hn : writeAt aesKey 0 (secret.take 32) = secret.take 32 := by
    rw [writeAt_zero, List.drop_eq_nil_of_le (by simp; omega)]
    simp
  unfold CreateAESKey
  rw [hagree]
  by_cases hb : secret.getD 0 0 &&& 128 ≠ 0
  · simp only []
    rw [if_pos hb, h31, hz]
    exact ⟨rfl, by simp; omega, fun _ => rfl, fun h => absurd h hb⟩
  · simp only []
    rw [if_neg hb, h32, hn]
    exact ⟨rfl, by simp; omega, fun h => absurd h hb, fun _ => rfl⟩

theorem sendBuffer_keepalive (now : Nat) (s : NTCPSession) :
    sendBuffer now s none =
      htobe16 0 ++ htobe32 now ++ slice s.m_TimeSyncBuffer 6 6 ++
        adler32 (htobe16 0 ++ htobe32 now ++ slice s.m_TimeSyncBuffer 6 6) := by
  have hp : sendPadding 4 = 6 := by decide
  simp [sendBuffer, sendPrepared, sendLen, hp, slice_eq_map, List.range_succ, writeAt,
    htobe16, htobe32, adler32_length]

theorem Encrypt_one_block (env : Env) (c : CBC) (p : Bytes) (h : p.length = 16) :
    c.Encrypt env p =
      (aesEncrypt16 env c.key (xorBytes p c.iv),
        { c with iv := aesEncrypt16 env c.key (xorBytes p c.iv) }) := by
  have h1 : p.take 16 = p := List.take_of_length_le (by omega)
  have h2 : p.drop 16 = [] := List.drop_eq_nil_of_le (by omega)
  simp [CBC.Encrypt, cbcEncryptBlocks, h, h1, h2]

theorem decryptNextBlock_keepalive (env : Env) (r : NTCPSession) (block : Bytes)
    (hnone : r.m_NextMessage = none)
    (hzero : (r.m_Decryption.Decrypt env (slice block 0 16)).1.take 2 = [0, 0]) :
    DecryptNextBlock env r block =
      { r with
        m_Decryption := { r.m_Decryption with iv := slice block 0 16 },
        m_NextMessageOffset := 0,
        deleted := r.deleted ++
          [{ env.NewI2NPMessage with
              buf := writeAt env.NewI2NPMessage.buf 0
                (r.m_Decryption.Decrypt env (slice block 0 16)).1 }],
        m_NextMessage := none } := by
  have hsz : be16toh (writeAt env.NewI2NPMessage.buf 0
      (r.m_Decryption.Decrypt env (slice block 0 16)).1) = 0 := by
    have h2 : (r.m_Decryption.Decrypt env (slice block 0 16)).1 =
        [0, 0] ++ (r.m_Decryption.Decrypt env (slice block 0 16)).1.drop 2 := by
      conv_lhs => rw [← List.take_append_drop 2 (r.m_Decryption.Decrypt env (slice block 0 16)).1,
        hzero]
    rw [writeAt_zero, h2]
    simp [be16toh]
  have hiv : (r.m_Decryption.Decrypt env (slice block 0 16)).2 =
      { r.m_Decryption with iv := slice block 0 16 } := by
    rw [Decrypt_block env _ _ (slice_length _ _ _)]
  unfold DecryptNextBlock
  simp only [hnone, hsz, hiv]
  simp

/-- C8: `Send` without a message encrypts the 16 bytes
`be16(0) || be32(now) || 6 bytes left in the buffer || adler32` and writes a
frame of 16 bytes.  `DecryptNextBlock` with no message in progress, on a block
whose first two decrypted bytes are zero, hands no message on, advances the
inbound CBC context by exactly that block, leaves the receive buffer and its
offset alone and ends with no message in progress; this holds for the frame
written when the receiver decrypts what the sender encrypted. -/
theorem keepalive_round_trip (env : Env) (now : Nat) (s r : NTCPSession) (block : Bytes)
    (hopen : s.socketOpen = true) (hnone : r.m_NextMessage = none)
    (hzero : (r.m_Decryption.Decrypt env (slice block 0 16)).1.take 2 = [0, 0]) :
    (sendBuffer now s none =
      htobe16 0 ++ htobe32 now ++ slice s.m_TimeSyncBuffer 6 6 ++
        adler32 (htobe16 0 ++ htobe32 now ++ slice s.m_TimeSyncBuffer 6 6) ∧
      (sendBuffer now s none).length = 16) ∧
    (∃ frame : Bytes,
      (Send env now s none).written = s.written ++ [frame] ∧
      frame = (s.m_Encryption.Encrypt env (sendBuffer now s none)).1 ∧
      frame.length = 16 ∧
      (env.aesInverts → r.m_Decryption = s.m_Encryption → s.m_Encryption.iv.length = 16 →
        (DecryptNextBlock env r frame).handled = r.handled ∧
        (DecryptNextBlock env r frame).m_NextMessage = none)) ∧
    ((DecryptNextBlock env r block).handled = r.handled ∧
      (DecryptNextBlock env r block).m_NextMessage = none ∧
      (DecryptNextBlock env r block).m_Decryption =
        { r.m_Decryption with iv := slice block 0 16 } ∧
      (DecryptNextBlock env r block).m_ReceiveBuffer = r.m_ReceiveBuffer ∧
      (DecryptNextBlock env r block).m_ReceiveBufferOffset = r.m_ReceiveBufferOffset) := by
  have hlen : (sendBuffer now s none).length = 16 := by
    rw [sendBuffer_length]; decide
  refine ⟨⟨sendBuffer_keepalive now s, hlen⟩, ?_, ?_⟩
  · refine ⟨_, Send_written env now s none hopen, rfl, by rw [Encrypt_length, hlen], ?_⟩
    intro haes hctx hiv
    have hc : (aesEncrypt16 env s.m_Encryption.key
        (xorBytes (sendBuffer now s none) s.m_Encryption.iv)).length = 16 := slice_length _ _ _
    have hdec : (r.m_Decryption.Decrypt env
        (slice (s.m_Encryption.Encrypt env (sendBuffer now s none)).1 0 16)).1.take 2 = [0, 0] := by
      rw [Encrypt_one_block env _ _ hlen]
      simp only []
      rw [slice_block _ hc, Decrypt_block env _ _ hc, hctx]
      simp only []
      rw [cbc_block_inverse env haes _ _ _ hlen hiv, sendBuffer_keepalive]
      rfl
    rw [decryptNextBlock_keepalive env r _ hnone hdec]
    exact ⟨rfl, rfl⟩
  · rw [decryptNextBlock_keepalive env r block hnone hzero]
    exact ⟨rfl, rfl, rfl, rfl, rfl⟩

theorem Send_pending (env : Env) (now : Nat) (s : NTCPSession) (msg : Option I2NPMessage) :
    (Send env now s msg).pending = s.pending ++ [Handler.HandleSent msg] := by
  cases msg with
  | none => simp [Send, asyncWrite]
  | some m => by_cases h : m.offset < 2 <;> simp [Send, asyncWrite, h]

theorem Send_delayed (env : Env) (now : Nat) (s : NTCPSession) (msg : Option I2NPMessage) :
    (Send env now s msg).m_DelayedMessage = s.m_DelayedMessage := by
  cases msg with
  | none => simp [Send, asyncWrite]
  | some m => by_cases h : m.offset < 2 <;> simp [Send, asyncWrite, h]

theorem Send_established (env : Env) (now : Nat) (s : NTCPSession) (msg : Option I2NPMessage) :
    (Send env now s msg).m_IsEstablished = s.m_IsEstablished := by
  cases msg with
  | none => simp [Send, asyncWrite]
  | some m => by_cases h : m.offset < 2 <;> simp [Send, asyncWrite, h]

theorem Send_socketOpen (env : Env) (now : Nat) (s : NTCPSession) (msg : Option I2NPMessage) :
    (Send env now s msg).socketOpen = s.socketOpen := by
  cases msg with
  | none => simp [Send, asyncWrite]
  | some m => by_cases h : m.offset < 2 <;> simp [Send, asyncWrite, h]

theorem Send_destroyed (env : Env) (now : Nat) (s : NTCPSession) (msg : Option I2NPMessage) :
    (Send env now s msg).destroyed = s.destroyed := by
  cases msg with
  | none => simp [Send, asyncWrite]
  | some m => by_cases h : m.offset < 2 <;> simp [Send, asyncWrite, h]

/-- `Connected` on a session with a deferred message: three calls of `Send`. -/
theorem Connected_deferred (env : Env) (now : Nat) (s : NTCPSession) (m : I2NPMessage)
    (h : s.m_DelayedMessage = some m) :
    Connected env now s =
      Send env now
        { Send env now (Send env now { s with m_IsEstablished := true, registered := true } none)
            (some env.CreateDatabaseStoreMsg) with m_DelayedMessage := none }
        (some m) := by
  have he : (Send env now { s with m_IsEstablished := true, registered := true }
      none).m_IsEstablished = true := by rw [Send_established]
  have hd : (Send env now
      (Send env now { s with m_IsEstablished := true, registered := true } none)
      (some env.CreateDatabaseStoreMsg)).m_DelayedMessage = some m := by
    rw [Send_delayed, Send_delayed]; exact h
  unfold Connected
  simp only [SendTimeSyncMessage, SendI2NPMessage, he, if_true, hd, Send_established]

/-- C7: on a session that is not established, `SendI2NPMessage` with a message
`m` only stores `m` in `m_DelayedMessage`: nothing is written and no operation
is started.  `Connected` then calls `Send` three times: for the time
synchronisation (no inner message), for the message of
`CreateDatabaseStoreMsg`, and for `m`, in that order, as the handlers it leaves
outstanding show, and `m_DelayedMessage` is empty afterwards. -/
theorem deferred_send (env : Env) (now now2 : Nat) (s : NTCPSession) (m : I2NPMessage)
    (hest : s.m_IsEstablished = false) :
    SendI2NPMessage env now s (some m) = { s with m_DelayedMessage := some m } ∧
    (SendI2NPMessage env now s (some m)).written = s.written ∧
    (SendI2NPMessage env now s (some m)).pending = s.pending ∧
    (SendI2NPMessage env now s (some m)).m_DelayedMessage = some m ∧
    Connected env now2 (SendI2NPMessage env now s (some m)) =
      Send env now2
        { Send env now2
            (Send env now2
              { SendI2NPMessage env now s (some m) with
                m_IsEstablished := true, registered := true } none)
            (some env.CreateDatabaseStoreMsg) with m_DelayedMessage := none }
        (some m) ∧
    (Connected env now2 (SendI2NPMessage env now s (some m))).pending =
      s.pending ++ [Handler.HandleSent none, Handler.HandleSent (some env.CreateDatabaseStoreMsg),
        Handler.HandleSent (some m)] ∧
    (Connected env now2 (SendI2NPMessage env now s (some m))).m_DelayedMessage = none ∧
    (s.socketOpen = true →
      ∃ f0 f1 f2 : Bytes,
        (Connected env now2 (SendI2NPMessage env now s (some m))).written =
          s.written ++ [f0, f1, f2]) := by
  have h1 : SendI2NPMessage env now s (some m) = { s with m_DelayedMessage := some m } := by
    simp [SendI2NPMessage, hest]
  have hc := Connected_deferred env now2 (SendI2NPMessage env now s (some m)) m (by rw [h1])
  refine ⟨h1, by rw [h1], by rw [h1], by rw [h1], hc, ?_, ?_, ?_⟩
  · rw [hc, Send_pending]
    simp only []
    rw [Send_pending, Send_pending, h1]
    simp
  · rw [hc, Send_delayed]
  · intro hopen
    have hw : ∀ (t : NTCPSession) (msg : Option I2NPMessage), t.socketOpen = true →
        ∃ f, (Send env now2 t msg).written = t.written ++ [f] :=
      fun t msg h => ⟨_, Send_written env now2 t msg h⟩
    obtain ⟨f0, e0⟩ := hw { SendI2NPMessage env now s (some m) with
      m_IsEstablished := true, registered := true } none (by rw [h1]; exact hopen)
    obtain ⟨f1, e1⟩ := hw (Send env now2 { SendI2NPMessage env now s (some m) with
      m_IsEstablished := true, registered := true } none) (some env.CreateDatabaseStoreMsg)
      (by rw [Send_socketOpen, h1]; exact hopen)
    obtain ⟨f2, e2⟩ := hw { Send env now2
            (Send env now2
              { SendI2NPMessage env now s (some m) with
                m_IsEstablished := true, registered := true } none)
            (some env.CreateDatabaseStoreMsg) with m_DelayedMessage := none } (some m)
      (by simp only []; rw [Send_socketOpen, Send_socketOpen, h1]; exact hopen)
    refine ⟨f0, f1, f2, ?_⟩
    rw [hc, e2]
    simp only []
    rw [e1, e0, h1]
    simp

/-- C6, evaluated: `Send` on a message whose offset is 0 deletes the message and
goes on; it writes a frame of 16 bytes to the socket and the chaining register
of the outbound CBC context changes.  The session is not terminated. -/
theorem send_malformed_not_dropped :
    malformedMessage.offset < 2 ∧
    (Send exampleEnv 0 exampleSession (some malformedMessage)).written =
      [[4, 14, 96, 97, 98, 99, 108, 109, 110, 111, 104, 105, 18, 159, 0, 36]] ∧
    exampleSession.written = [] ∧
    (Send exampleEnv 0 exampleSession (some malformedMessage)).m_Encryption.iv ≠
      exampleSession.m_Encryption.iv ∧
    (Send exampleEnv 0 exampleSession (some malformedMessage)).deleted = [malformedMessage] ∧
    (Send exampleEnv 0 exampleSession (some malformedMessage)).destroyed = false := by
  decide

/-! ## The identity check of Phase1 -/

theorem identMatches_iff (HXxorHI ident digest : Bytes) :
    identMatches HXxorHI ident digest = true ↔
      ∀ i, i < 32 → digest.getD i 0 ^^^ HXxorHI.getD i 0 = ident.getD i 0 := by
  unfold identMatches
  rw [List.all_eq_true]
  constructor
  · intro h i hi
    have := h i (List.mem_range.mpr hi)
    rw [beq_iff_eq] at this
    rw [← this, Nat.xor_comm (HXxorHI.getD i 0)]
    exact Nat.xor_cancel_right _ _
  · intro h i hi
    rw [beq_iff_eq, ← h i (List.mem_range.mp hi), Nat.xor_comm (digest.getD i 0)]
    exact Nat.xor_cancel_left _ _

theorem Terminate_pending (s : NTCPSession) : (Terminate s).pending = s.pending := rfl

theorem CreateAESKey_pending (env : Env) (s : NTCPSession) (pubKey aesKey : Bytes) :
    (CreateAESKey env s pubKey aesKey).1.pending = s.pending := by
  unfold CreateAESKey
  split
  · rfl
  · split <;> rfl

theorem SendPhase2_pending (env : Env) (now : Nat) (s : NTCPSession) :
    (SendPhase2 env now s).pending = s.pending ++ [Handler.HandlePhase2Sent (htobe32 now)] := by
  simp [SendPhase2, asyncWrite, CreateAESKey_pending]

theorem SendPhase2_ne_Terminate (env : Env) (now : Nat) (s : NTCPSession) :
    SendPhase2 env now s ≠ Terminate s := by
  intro h
  have := congrArg NTCPSession.pending h
  rw [SendPhase2_pending, Terminate_pending] at this
  simpa using congrArg List.length this

theorem map_range_getD (f : Nat → Nat) (n i : Nat) (h : i < n) :
    ((List.range n).map f).getD i 0 = f i := by
  rw [List.getD_eq_getElem _ _ (by simpa using h)]
  simp

theorem xor_self_cancel (a b : Nat) (h : a ^^^ b = a) : b = 0 := by
  have := congrArg (fun x => a ^^^ x) h
  simpa [Nat.xor_cancel_left] using this

theorem ClientLogin_phase1 (cenv : Env) (c : NTCPSession) :
    (ClientLogin cenv c).m_Phase1 =
      { pubKey := publicKey cenv cenv.routerIdentity,
        HXxorHI := (List.range 32).map (fun i =>
          (sha256 cenv (publicKey cenv cenv.routerIdentity)).getD i 0 ^^^
            c.m_RemoteRouterInfo.identHash.getD i 0) } := rfl

theorem received_phase1 (env : Env) (s : NTCPSession) (x hx : Bytes) (h1 : x.length = 256)
    (h2 : hx.length = 32) :
    (received env s Handler.HandlePhase1Received (x ++ hx)).m_Phase1 =
      { pubKey := x, HXxorHI := hx } := by
  have e1 : slice (x ++ hx) 0 256 = x := by
    rw [slice_append_left _ _ _ _ (by omega), slice_full _ _ h1]
  have e2 : slice (x ++ hx) 256 32 = hx := by
    have := slice_append_right x hx 0 32
    rw [h1] at this
    rw [this, slice_full _ _ h2]
  simp only [received, e1, e2]

/-- C3: without an I/O error `HandlePhase1Received` goes on to `SendPhase2`
exactly when `SHA-256(X) xor HXxorHI` equals the local identity hash at each of
the 32 positions; otherwise it is `Terminate`, nothing is written and no
operation is started.  A Phase1 record built by `ClientLogin` for the remote
identity hash `J` (both sides using the same hash function) is accepted exactly
when `J` is the local identity hash, and an accepted record with one bit of
`HXxorHI[0]` flipped is rejected with nothing written. -/
theorem phase1_ident_check (env : Env) (now : Nat) (s : NTCPSession) :
    (HandlePhase1Received env now s false = SendPhase2 env now s ↔
      ∀ i, i < 32 →
        (sha256 env (slice s.m_Phase1.pubKey 0 256)).getD i 0 ^^^ s.m_Phase1.HXxorHI.getD i 0 =
          env.identHash.getD i 0) ∧
    ((¬ ∀ i, i < 32 →
        (sha256 env (slice s.m_Phase1.pubKey 0 256)).getD i 0 ^^^ s.m_Phase1.HXxorHI.getD i 0 =
          env.identHash.getD i 0) →
      HandlePhase1Received env now s false = Terminate s ∧
      (HandlePhase1Received env now s false).written = s.written ∧
      (HandlePhase1Received env now s false).pending = s.pending ∧
      (HandlePhase1Received env now s false).destroyed = true) ∧
    (∀ (cenv : Env) (c : NTCPSession), cenv.SHA256 = env.SHA256 →
      c.m_RemoteRouterInfo.identHash.length = 32 → env.identHash.length = 32 →
      (c.socketOpen = true →
        (ClientLogin cenv c).written =
          c.written ++ [(ClientLogin cenv c).m_Phase1.pubKey ++
            (ClientLogin cenv c).m_Phase1.HXxorHI]) ∧
      (HandlePhase1Received env now
          (received env s Handler.HandlePhase1Received
            ((ClientLogin cenv c).m_Phase1.pubKey ++ (ClientLogin cenv c).m_Phase1.HXxorHI))
          false =
        SendPhase2 env now
          (received env s Handler.HandlePhase1Received
            ((ClientLogin cenv c).m_Phase1.pubKey ++ (ClientLogin cenv c).m_Phase1.HXxorHI)) ↔
        c.m_RemoteRouterInfo.identHash = env.identHash)) ∧
    (∀ k, k < 8 →
      HandlePhase1Received env now s false = SendPhase2 env now s →
      HandlePhase1Received env now
          { s with m_Phase1 := { s.m_Phase1 with
              HXxorHI := writeAt s.m_Phase1.HXxorHI 0 [s.m_Phase1.HXxorHI.getD 0 0 ^^^ 2 ^ k] } }
          false =
        Terminate
          { s with m_Phase1 := { s.m_Phase1 with
              HXxorHI := writeAt s.m_Phase1.HXxorHI 0 [s.m_Phase1.HXxorHI.getD 0 0 ^^^ 2 ^ k] } } ∧
      (HandlePhase1Received env now
          { s with m_Phase1 := { s.m_Phase1 with
              HXxorHI := writeAt s.m_Phase1.HXxorHI 0 [s.m_Phase1.HXxorHI.getD 0 0 ^^^ 2 ^ k] } }
          false).written = s.written) := by
  have main : ∀ t : NTCPSession,
      (HandlePhase1Received env now t false = SendPhase2 env now t ↔
        ∀ i, i < 32 →
          (sha256 env (slice t.m_Phase1.pubKey 0 256)).getD i 0 ^^^ t.m_Phase1.HXxorHI.getD i 0 =
            env.identHash.getD i 0) ∧
      ((¬ ∀ i, i < 32 →
          (sha256 env (slice t.m_Phase1.pubKey 0 256)).getD i 0 ^^^ t.m_Phase1.HXxorHI.getD i 0 =
            env.identHash.getD i 0) →
        HandlePhase1Received env now t false = Terminate t) := by
    intro t
    have hiff := identMatches_iff t.m_Phase1.HXxorHI env.identHash
      (sha256 env (slice t.m_Phase1.pubKey 0 256))
    by_cases hm : identMatches t.m_Phase1.HXxorHI env.identHash
        (sha256 env (slice t.m_Phase1.pubKey 0 256)) = true
    · have e : HandlePhase1Received env now t false = SendPhase2 env now t := by
        simp [HandlePhase1Received, hm]
      exact ⟨⟨fun _ => hiff.mp hm, fun _ => e⟩, fun hn => absurd (hiff.mp hm) hn⟩
    · have e : HandlePhase1Received env now t false = Terminate t := by
        simp [HandlePhase1Received, hm]
      refine ⟨⟨fun h => ?_, fun h => absurd (hiff.mpr h) hm⟩, fun _ => e⟩
      rw [e] at h
      exact absurd h.symm (SendPhase2_ne_Terminate env now t)
  refine ⟨(main s).1, ?_, ?_, ?_⟩
  · intro hn
    have e := (main s).2 hn
    exact ⟨e, by rw [e]; rfl, by rw [e]; rfl, by rw [e]; rfl⟩
  · intro cenv c hsha hJ hI
    refine ⟨fun hopen => by simp [ClientLogin, asyncWrite, hopen], ?_⟩
    have hx : (publicKey cenv cenv.routerIdentity).length = 256 := slice_length _ _ _
    rw [(main _).1, ClientLogin_phase1]
    simp only []
    rw [received_phase1 env s _ _ hx (by simp)]
    simp only []
    have hs : sha256 cenv = sha256 env := by
      funext d; simp [sha256, hsha]
    rw [slice_full _ _ hx, hs]
    constructor
    · intro h
      apply ext_getD _ _ (by rw [hJ, hI])
      intro i hi
      have := h i (by omega)
      rwa [map_range_getD _ _ _ (by omega), Nat.xor_cancel_left] at this
    · intro h i hi
      rw [map_range_getD _ _ _ hi, Nat.xor_cancel_left, h]
  · intro k hk hacc
    have hc := (main s).1.mp hacc 0 (by omega)
    have hne : ¬ ∀ i, i < 32 →
        (sha256 env (slice s.m_Phase1.pubKey 0 256)).getD i 0 ^^^
          (writeAt s.m_Phase1.HXxorHI 0 [s.m_Phase1.HXxorHI.getD 0 0 ^^^ 2 ^ k]).getD i 0 =
          env.identHash.getD i 0 := by
      intro h
      have h0 := h 0 (by omega)
      rw [writeAt_zero] at h0
      simp only [List.singleton_append, List.getD_cons_zero] at h0
      rw [← Nat.xor_assoc, hc] at h0
      have := xor_self_cancel _ _ h0
      exact absurd this (by positivity)
    have e := (main { s with m_Phase1 := { s.m_Phase1 with
      HXxorHI := writeAt s.m_Phase1.HXxorHI 0 [s.m_Phase1.HXxorHI.getD 0 0 ^^^ 2 ^ k] } }).2 hne
    exact ⟨e, by rw [e]; rfl⟩

/-! ## The hash check of Phase2 -/

theorem step_destroyed (env : Env) (s : NTCPSession) (ev : Event) (h : s.destroyed = true) :
    step env s ev = s := by
  simp [step, h]

theorem run_destroyed (env : Env) (s : NTCPSession) (evs : List Event) (h : s.destroyed = true) :
    run env s evs = s := by
  induction evs with
  | nil => rfl
  | cons ev evs ih =>
    simp only [run, List.foldl_cons] at ih ⊢
    rw [step_destroyed env s ev h]
    exact ih

theorem CreateAESKey_written (env : Env) (s : NTCPSession) (pubKey aesKey : Bytes) :
    (CreateAESKey env s pubKey aesKey).1.written = s.written := by
  unfold CreateAESKey
  split
  · rfl
  · split <;> rfl

theorem decryptPhase2_written (env : Env) (s : NTCPSession) :
    (decryptPhase2 env s).written = s.written :=
  CreateAESKey_written env s s.m_Phase2.pubKey env.aesKeyStack

theorem decryptPhase2_pending (env : Env) (s : NTCPSession) :
    (decryptPhase2 env s).pending = s.pending :=
  CreateAESKey_pending env s s.m_Phase2.pubKey env.aesKeyStack

theorem decryptPhase2_pubKey (env : Env) (s : NTCPSession) :
    (decryptPhase2 env s).m_Phase2.pubKey = s.m_Phase2.pubKey := rfl

theorem SendPhase3_pending (env : Env) (now : Nat) (s : NTCPSession) :
    (SendPhase3 env now s).pending = s.pending ++ [Handler.HandlePhase3Sent (htobe32 now)] := rfl

/-- C4: without an I/O error `HandlePhase2Received` decrypts the 48 bytes and
compares the decrypted `hxy` with `SHA-256(X || Y)`, `X` the local public key
and `Y` the received one.  When they differ, at any position, the handler is
`Terminate`: the session is destroyed and not established, nothing is written,
no operation is started and no later event makes it established.  When they
are equal it is `SendPhase3`; so a write or a new operation implies equality. -/
theorem phase2_hash_check (env : Env) (now : Nat) (s : NTCPSession) :
    ((decryptPhase2 env s).m_Phase2.hxy ≠
        sha256 env (publicKey env env.routerIdentity ++ slice s.m_Phase2.pubKey 0 256) →
      HandlePhase2Received env now s false = Terminate (decryptPhase2 env s) ∧
      (HandlePhase2Received env now s false).destroyed = true ∧
      (HandlePhase2Received env now s false).m_IsEstablished = false ∧
      (HandlePhase2Received env now s false).written = s.written ∧
      (HandlePhase2Received env now s false).pending = s.pending ∧
      ∀ evs : List Event,
        (run env (HandlePhase2Received env now s false) evs).m_IsEstablished = false ∧
        (run env (HandlePhase2Received env now s false) evs).written = s.written) ∧
    ((decryptPhase2 env s).m_Phase2.hxy =
        sha256 env (publicKey env env.routerIdentity ++ slice s.m_Phase2.pubKey 0 256) →
      HandlePhase2Received env now s false = SendPhase3 env now (decryptPhase2 env s)) ∧
    (((HandlePhase2Received env now s false).written ≠ s.written ∨
        (HandlePhase2Received env now s false).pending ≠ s.pending) →
      (decryptPhase2 env s).m_Phase2.hxy =
        sha256 env (publicKey env env.routerIdentity ++ slice s.m_Phase2.pubKey 0 256)) ∧
    (∀ i, (decryptPhase2 env s).m_Phase2.hxy.getD i 0 ≠
        (sha256 env (publicKey env env.routerIdentity ++ slice s.m_Phase2.pubKey 0 256)).getD i 0 →
      HandlePhase2Received env now s false = Terminate (decryptPhase2 env s)) := by
  have hbad : (decryptPhase2 env s).m_Phase2.hxy ≠
        sha256 env (publicKey env env.routerIdentity ++ slice s.m_Phase2.pubKey 0 256) →
      HandlePhase2Received env now s false = Terminate (decryptPhase2 env s) := by
    intro h
    unfold HandlePhase2Received
    simp only [Bool.false_eq_true, if_false, decryptPhase2_pubKey]
    rw [if_pos (fun e => h e.symm)]
  have hfull : (decryptPhase2 env s).m_Phase2.hxy ≠
        sha256 env (publicKey env env.routerIdentity ++ slice s.m_Phase2.pubKey 0 256) →
      (HandlePhase2Received env now s false).written = s.written ∧
      (HandlePhase2Received env now s false).pending = s.pending := by
    intro h
    rw [hbad h]
    exact ⟨decryptPhase2_written env s, decryptPhase2_pending env s⟩
  refine ⟨?_, ?_, ?_, ?_⟩
  · intro h
    have e := hbad h
    refine ⟨e, by rw [e]; rfl, by rw [e]; rfl, (hfull h).1, (hfull h).2, ?_⟩
    intro evs
    rw [run_destroyed env _ evs (by rw [e]; rfl)]
    exact ⟨by rw [e]; rfl, (hfull h).1⟩
  · intro h
    unfold HandlePhase2Received
    simp only [Bool.false_eq_true, if_false, decryptPhase2_pubKey]
    rw [if_neg (fun e => e h.symm)]
  · intro h
    by_contra hne
    rcases h with h | h
    · exact h (hfull hne).1
    · exact h (hfull hne).2
  · intro i hi
    exact hbad (fun e => hi (by rw [e]))

/-! ## Runs of the handshake -/

theorem handshaking_Terminate (P : Handler → Bool) (s : NTCPSession)
    (h : ∀ h, h ∈ s.pending → P h = true) : handshaking P (Terminate s) :=
  ⟨rfl, h⟩

theorem handshaking_asyncRead (P : Handler → Bool) (s : NTCPSession) (h : Handler)
    (hs : handshaking P s) (hP : P h = true) : handshaking P (asyncRead s h) := by
  refine ⟨hs.1, ?_⟩
  intro h2 hm
  simp only [asyncRead, List.mem_append, List.mem_singleton] at hm
  rcases hm with hm | hm
  · exact hs.2 h2 hm
  · rw [hm]; exact hP

theorem handshaking_asyncWrite (P : Handler → Bool) (s : NTCPSession) (data : Bytes)
    (h : Handler) (hs : handshaking P s) (hP : P h = true) :
    handshaking P (asyncWrite s data h) := by
  refine ⟨hs.1, ?_⟩
  intro h2 hm
  simp only [asyncWrite, List.mem_append, List.mem_singleton] at hm
  rcases hm with hm | hm
  · exact hs.2 h2 hm
  · rw [hm]; exact hP

theorem CreateAESKey_established (env : Env) (s : NTCPSession) (pubKey aesKey : Bytes)
    (h : s.m_IsEstablished = false) :
    (CreateAESKey env s pubKey aesKey).1.m_IsEstablished = false := by
  unfold CreateAESKey
  split
  · rfl
  · split <;> exact h

theorem handshaking_decryptPhase2 (P : Handler → Bool) (env : Env) (s : NTCPSession)
    (hs : handshaking P s) : handshaking P (decryptPhase2 env s) := by
  refine ⟨CreateAESKey_established env s _ _ hs.1, ?_⟩
  intro h hm
  rw [decryptPhase2_pending] at hm
  exact hs.2 h hm

theorem handshaking_SendPhase3 (P : Handler → Bool) (env : Env) (now : Nat) (s : NTCPSession)
    (hs : handshaking P s) (hP : ∀ ts, P (Handler.HandlePhase3Sent ts) = true) :
    handshaking P (SendPhase3 env now s) :=
  handshaking_asyncWrite P _ _ _ ⟨hs.1, hs.2⟩ (hP _)

theorem handshaking_SendPhase2 (P : Handler → Bool) (env : Env) (now : Nat) (s : NTCPSession)
    (hs : handshaking P s) (hP : ∀ ts, P (Handler.HandlePhase2Sent ts) = true) :
    handshaking P (SendPhase2 env now s) := by
  apply handshaking_asyncWrite P _ _ _ _ (hP _)
  refine ⟨CreateAESKey_established env s _ _ hs.1, ?_⟩
  intro h hm
  exact hs.2 h (by rwa [CreateAESKey_pending] at hm)

theorem handshaking_SendPhase4 (P : Handler → Bool) (env : Env) (s : NTCPSession) (tsB : Bytes)
    (hs : handshaking P s) (hP : P Handler.HandlePhase4Sent = true) :
    handshaking P (SendPhase4 env s tsB) :=
  handshaking_asyncWrite P _ _ _ ⟨hs.1, hs.2⟩ hP

theorem received_established (env : Env) (s : NTCPSession) (h : Handler) (data : Bytes) :
    (received env s h data).m_IsEstablished = s.m_IsEstablished := by
  cases h <;> rfl

theorem received_pending (env : Env) (s : NTCPSession) (h : Handler) (data : Bytes) :
    (received env s h data).pending = s.pending := by
  cases h <;> rfl

theorem handshaking_received (P : Handler → Bool) (env : Env) (s : NTCPSession) (h : Handler)
    (data : Bytes) (hs : handshaking P s) :
    handshaking P (received env { s with pending := s.pending.erase h } h data) := by
  refine ⟨by rw [received_established]; exact hs.1, ?_⟩
  intro h2 hm
  rw [received_pending] at hm
  exact hs.2 h2 (List.mem_of_mem_erase hm)

theorem Connected_established (env : Env) (now : Nat) (s : NTCPSession) :
    (Connected env now s).m_IsEstablished = true := by
  unfold Connected
  simp only [SendTimeSyncMessage, SendI2NPMessage, Send_established, if_true]
  split <;> simp [Send_established, SendI2NPMessage]

theorem phase4SignatureValid_received (env : Env) (s : NTCPSession) (l : List Handler)
    (tsA data : Bytes) :
    phase4SignatureValid env
        (received env { s with pending := l } (Handler.HandlePhase4Received tsA) data) tsA =
      phase4SignatureValid env (received env s (Handler.HandlePhase4Received tsA) data) tsA := rfl

theorem phase3SignatureValid_received (env : Env) (s : NTCPSession) (l : List Handler)
    (tsB data : Bytes) :
    phase3SignatureValid env
        (received env { s with pending := l } (Handler.HandlePhase3Received tsB) data) tsB =
      phase3SignatureValid env (received env s (Handler.HandlePhase3Received tsB) data) tsB := rfl

theorem HandlePhase4Received_failed (env : Env) (now : Nat) (s : NTCPSession) (tsA : Bytes)
    (h : phase4SignatureValid env s tsA = false) :
    (HandlePhase4Received env now s false tsA).destroyed = true ∧
    (HandlePhase4Received env now s false tsA).m_IsEstablished = false ∧
    (HandlePhase4Received env now s false tsA).pending = s.pending ∧
    (HandlePhase4Received env now s false tsA).written = s.written := by
  unfold phase4SignatureValid at h
  unfold HandlePhase4Received
  simp only [Bool.false_eq_true, if_false, h, Bool.not_false, if_true]
  exact ⟨rfl, rfl, rfl, rfl⟩

theorem HandlePhase4Received_verified (env : Env) (now : Nat) (s : NTCPSession) (tsA : Bytes)
    (h : phase4SignatureValid env s tsA = true) :
    (HandlePhase4Received env now s false tsA).m_IsEstablished = true := by
  unfold phase4SignatureValid at h
  unfold HandlePhase4Received
  simp only [Bool.false_eq_true, if_false, h, Bool.not_true]
  exact Connected_established env now _

theorem HandlePhase3Received_failed (env : Env) (s : NTCPSession) (tsB : Bytes)
    (h : phase3SignatureValid env s tsB = false) :
    (HandlePhase3Received env s false tsB).destroyed = true ∧
    (HandlePhase3Received env s false tsB).m_IsEstablished = false ∧
    (HandlePhase3Received env s false tsB).pending = s.pending ∧
    (HandlePhase3Received env s false tsB).written = s.written := by
  unfold phase3SignatureValid at h
  unfold HandlePhase3Received
  simp only [Bool.false_eq_true, if_false, RouterInfo.SetRouterIdentity, h, Bool.not_false,
    if_true]
  exact ⟨rfl, rfl, rfl, rfl⟩

theorem HandlePhase3Received_verified (env : Env) (s : NTCPSession) (tsB : Bytes)
    (h : phase3SignatureValid env s tsB = true) :
    (HandlePhase3Received env s false tsB).m_IsEstablished = s.m_IsEstablished ∧
    (HandlePhase3Received env s false tsB).pending = s.pending ++ [Handler.HandlePhase4Sent] := by
  unfold phase3SignatureValid at h
  unfold HandlePhase3Received
  simp only [Bool.false_eq_true, if_false, RouterInfo.SetRouterIdentity, h, Bool.not_true]
  exact ⟨rfl, rfl⟩

theorem invoke_error (env : Env) (now : Nat) (s : NTCPSession) (h : Handler) (n : Nat) :
    (invoke env now s h true n).destroyed = true ∧
    (invoke env now s h true n).m_IsEstablished = false ∧
    (invoke env now s h true n).written = s.written := by
  cases h <;> simp [invoke, HandleConnect, HandlePhase1Sent, HandlePhase1Received,
    HandlePhase2Sent, HandlePhase2Received, HandlePhase3Sent, HandlePhase3Received,
    HandlePhase4Sent, HandlePhase4Received, HandleReceived, HandleSent, Terminate]
  split <;> simp

theorem handshaking_of_fields (P : Handler → Bool) (s t : NTCPSession) (hs : handshaking P s)
    (he : t.m_IsEstablished = false) (hp : t.pending = s.pending) : handshaking P t :=
  ⟨he, fun h hm => hs.2 h (by rwa [hp] at hm)⟩

theorem handshaking_HandlePhase1Received (P : Handler → Bool) (env : Env) (now : Nat)
    (s : NTCPSession) (ecode : Bool) (hs : handshaking P s)
    (hP : ∀ ts, P (Handler.HandlePhase2Sent ts) = true) :
    handshaking P (HandlePhase1Received env now s ecode) := by
  unfold HandlePhase1Received
  split
  · exact handshaking_Terminate P s hs.2
  · simp only []
    split
    · exact handshaking_SendPhase2 P env now s hs hP
    · exact handshaking_Terminate P s hs.2

theorem handshaking_HandlePhase2Received (P : Handler → Bool) (env : Env) (now : Nat)
    (s : NTCPSession) (ecode : Bool) (hs : handshaking P s)
    (hP : ∀ ts, P (Handler.HandlePhase3Sent ts) = true) :
    handshaking P (HandlePhase2Received env now s ecode) := by
  unfold HandlePhase2Received
  split
  · exact handshaking_Terminate P s hs.2
  · simp only []
    split
    · exact handshaking_Terminate P _ (handshaking_decryptPhase2 P env s hs).2
    · exact handshaking_SendPhase3 P env now _ (handshaking_decryptPhase2 P env s hs) hP

theorem handshaking_HandlePhase3Received (P : Handler → Bool) (env : Env) (s : NTCPSession)
    (ecode : Bool) (tsB : Bytes) (hs : handshaking P s)
    (hP : P Handler.HandlePhase4Sent = true) :
    handshaking P (HandlePhase3Received env s ecode tsB) := by
  cases ecode with
  | true => exact handshaking_Terminate P s hs.2
  | false =>
    cases hv : phase3SignatureValid env s tsB with
    | false =>
      obtain ⟨_, h2, h3, _⟩ := HandlePhase3Received_failed env s tsB hv
      exact handshaking_of_fields P s _ hs h2 h3
    | true =>
      obtain ⟨h1, h2⟩ := HandlePhase3Received_verified env s tsB hv
      refine ⟨by rw [h1]; exact hs.1, ?_⟩
      intro h hm
      rw [h2] at hm
      simp only [List.mem_append, List.mem_singleton] at hm
      rcases hm with hm | hm
      · exact hs.2 h hm
      · rw [hm]; exact hP

theorem handshaking_SendI2NPMessage (P : Handler → Bool) (env : Env) (now : Nat)
    (s : NTCPSession) (msg : Option I2NPMessage) (hs : handshaking P s) :
    handshaking P (SendI2NPMessage env now s msg) := by
  cases msg with
  | none => exact hs
  | some m =>
    have e : SendI2NPMessage env now s (some m) = { s with m_DelayedMessage := some m } := by
      simp [SendI2NPMessage, hs.1]
    rw [e]
    exact ⟨hs.1, hs.2⟩

theorem step_complete (env : Env) (s : NTCPSession) (h : Handler) (ecode : Bool) (data : Bytes)
    (now : Nat) (hd : s.destroyed = false) (hm : h ∈ s.pending) :
    step env s (Event.complete h ecode data now) =
      invoke env now (received env { s with pending := s.pending.erase h } h data) h ecode
        data.length := by
  unfold step
  rw [if_neg (by simp [hd])]
  simp only []
  rw [if_pos hm]

theorem step_not_pending (env : Env) (s : NTCPSession) (h : Handler) (ecode : Bool)
    (data : Bytes) (now : Nat) (hm : h ∉ s.pending) :
    step env s (Event.complete h ecode data now) = s := by
  unfold step
  split
  · rfl
  · simp only []
    rw [if_neg hm]

theorem step_submit (env : Env) (s : NTCPSession) (msg : Option I2NPMessage) (now : Nat)
    (hd : s.destroyed = false) :
    step env s (Event.submit msg now) = SendI2NPMessage env now s msg := by
  unfold step
  rw [if_neg (by simp [hd])]

/-- One event of an initiator that is not established: it stays so, or the
event is a Phase4 read without error whose signature verifies. -/
theorem initiator_step (env : Env) (s : NTCPSession) (ev : Event)
    (hs : handshaking initiatorHandler s) :
    handshaking initiatorHandler (step env s ev) ∨
    ∃ tsA data now,
      ev = Event.complete (Handler.HandlePhase4Received tsA) false data now ∧
      s.destroyed = false ∧ Handler.HandlePhase4Received tsA ∈ s.pending ∧
      phase4SignatureValid env (received env s (Handler.HandlePhase4Received tsA) data) tsA =
        true := by
  by_cases hd : s.destroyed = true
  · left; rw [step_destroyed env s ev hd]; exact hs
  have hd2 : s.destroyed = false := by simpa using hd
  cases ev with
  | submit msg now =>
    left
    rw [step_submit env s msg now hd2]
    exact handshaking_SendI2NPMessage _ env now s msg hs
  | complete h ecode data now =>
    by_cases hm : h ∈ s.pending
    · have ht := handshaking_received initiatorHandler env s h data hs
      have hP := hs.2 h hm
      rw [step_complete env s h ecode data now hd2 hm]
      cases h with
      | HandleConnect =>
        left
        simp only [invoke, HandleConnect]
        split
        · exact handshaking_Terminate _ _ ht.2
        · exact handshaking_asyncWrite _ _ _ _ ⟨ht.1, ht.2⟩ rfl
      | HandlePhase1Sent =>
        left
        simp only [invoke, HandlePhase1Sent]
        split
        · exact handshaking_Terminate _ _ ht.2
        · exact handshaking_asyncRead _ _ _ ht rfl
      | HandlePhase2Received =>
        left
        exact handshaking_HandlePhase2Received _ env now _ ecode ht (fun _ => rfl)
      | HandlePhase3Sent tsA =>
        left
        simp only [invoke, HandlePhase3Sent]
        split
        · exact handshaking_Terminate _ _ ht.2
        · exact handshaking_asyncRead _ _ _ ht rfl
      | HandlePhase4Received tsA =>
        cases ecode with
        | true => left; exact handshaking_Terminate _ _ ht.2
        | false =>
          cases hv : phase4SignatureValid env
              (received env s (Handler.HandlePhase4Received tsA) data) tsA with
          | true => right; exact ⟨tsA, data, now, rfl, hd2, hm, hv⟩
          | false =>
            left
            rw [← phase4SignatureValid_received env s
              (s.pending.erase (Handler.HandlePhase4Received tsA))] at hv
            obtain ⟨_, h2, h3, _⟩ := HandlePhase4Received_failed env now _ tsA hv
            exact handshaking_of_fields _ _ _ ht h2 h3
      | HandlePhase1Received => simp [initiatorHandler] at hP
      | HandlePhase2Sent _ => simp [initiatorHandler] at hP
      | HandlePhase3Received _ => simp [initiatorHandler] at hP
      | HandlePhase4Sent => simp [initiatorHandler] at hP
      | HandleReceived => simp [initiatorHandler] at hP
      | HandleSent _ => simp [initiatorHandler] at hP
    · left
      rw [step_not_pending env s h ecode data now hm]
      exact hs

theorem run_cons (env : Env) (s : NTCPSession) (ev : Event) (evs : List Event) :
    run env s (ev :: evs) = run env (step env s ev) evs := rfl

/-- A run of an initiator that ends established contains a Phase4 read without
error whose signature verified. -/
theorem initiator_run (env : Env) :
    ∀ (evs : List Event) (s : NTCPSession), handshaking initiatorHandler s →
      (run env s evs).m_IsEstablished = true →
      ∃ pre tsA data now post,
        evs = pre ++ Event.complete (Handler.HandlePhase4Received tsA) false data now :: post ∧
        (run env s pre).destroyed = false ∧
        Handler.HandlePhase4Received tsA ∈ (run env s pre).pending ∧
        phase4SignatureValid env
          (received env (run env s pre) (Handler.HandlePhase4Received tsA) data) tsA = true := by
  intro evs
  induction evs with
  | nil =>
    intro s hs he
    have : s.m_IsEstablished = true := he
    rw [hs.1] at this
    exact absurd this (by simp)
  | cons ev evs ih =>
    intro s hs he
    rcases initiator_step env s ev hs with h | ⟨tsA, data, now, h1, h2, h3, h4⟩
    · obtain ⟨pre, tsA, data, now, post, e1, e2, e3, e4⟩ := ih (step env s ev) h he
      exact ⟨ev :: pre, tsA, data, now, post, by rw [e1]; rfl, e2, e3, e4⟩
    · exact ⟨[], tsA, data, now, evs, by rw [h1]; rfl, h2, h3, h4⟩

theorem handshaking_mono (P Q : Handler → Bool) (s : NTCPSession)
    (hPQ : ∀ h, P h = true → Q h = true) (hs : handshaking P s) : handshaking Q s :=
  ⟨hs.1, fun h hm => hPQ h (hs.2 h hm)⟩

theorem responderHandler_late (h : Handler) (hr : responderHandler h = true) :
    responderHandlerLate h = true := by
  cases h <;> simp_all [responderHandler, responderHandlerLate]

/-- One event of a responder that has not verified Phase3: it stays so, or the
event is a Phase3 read without error whose signature verifies. -/
theorem responder_step (env : Env) (s : NTCPSession) (ev : Event)
    (hs : handshaking responderHandler s) :
    handshaking responderHandler (step env s ev) ∨
    ∃ tsB data now,
      ev = Event.complete (Handler.HandlePhase3Received tsB) false data now ∧
      s.destroyed = false ∧ Handler.HandlePhase3Received tsB ∈ s.pending ∧
      phase3SignatureValid env (received env s (Handler.HandlePhase3Received tsB) data) tsB =
        true ∧
      handshaking responderHandlerLate (step env s ev) := by
  by_cases hd : s.destroyed = true
  · left; rw [step_destroyed env s ev hd]; exact hs
  have hd2 : s.destroyed = false := by simpa using hd
  cases ev with
  | submit msg now =>
    left
    rw [step_submit env s msg now hd2]
    exact handshaking_SendI2NPMessage _ env now s msg hs
  | complete h ecode data now =>
    by_cases hm : h ∈ s.pending
    · have ht := handshaking_received responderHandler env s h data hs
      have hP := hs.2 h hm
      rw [step_complete env s h ecode data now hd2 hm]
      cases h with
      | HandlePhase1Received =>
        left
        exact handshaking_HandlePhase1Received _ env now _ ecode ht (fun _ => rfl)
      | HandlePhase2Sent tsB =>
        left
        simp only [invoke, HandlePhase2Sent]
        split
        · exact handshaking_Terminate _ _ ht.2
        · exact handshaking_asyncRead _ _ _ ht rfl
      | HandlePhase3Received tsB =>
        cases ecode with
        | true => left; exact handshaking_Terminate _ _ ht.2
        | false =>
          cases hv : phase3SignatureValid env
              (received env s (Handler.HandlePhase3Received tsB) data) tsB with
          | true =>
            right
            refine ⟨tsB, data, now, rfl, hd2, hm, hv, ?_⟩
            exact handshaking_HandlePhase3Received _ env _ false tsB
              (handshaking_mono _ _ _ responderHandler_late ht) rfl
          | false =>
            left
            rw [← phase3SignatureValid_received env s
              (s.pending.erase (Handler.HandlePhase3Received tsB))] at hv
            obtain ⟨_, h2, h3, _⟩ := HandlePhase3Received_failed env _ tsB hv
            exact handshaking_of_fields _ _ _ ht h2 h3
      | HandleConnect => simp [responderHandler] at hP
      | HandlePhase1Sent => simp [responderHandler] at hP
      | HandlePhase2Received => simp [responderHandler] at hP
      | HandlePhase3Sent _ => simp [responderHandler] at hP
      | HandlePhase4Sent => simp [responderHandler] at hP
      | HandlePhase4Received _ => simp [responderHandler] at hP
      | HandleReceived => simp [responderHandler] at hP
      | HandleSent _ => simp [responderHandler] at hP
    · left
      rw [step_not_pending env s h ecode data now hm]
      exact hs

/-- One event of a responder that is not established: it stays so, or the
event is the completion of the Phase4 write without error. -/
theorem responder_step_late (env : Env) (s : NTCPSession) (ev : Event)
    (hs : handshaking responderHandlerLate s) :
    handshaking responderHandlerLate (step env s ev) ∨
    ∃ data now,
      ev = Event.complete Handler.HandlePhase4Sent false data now ∧
      s.destroyed = false ∧ Handler.HandlePhase4Sent ∈ s.pending := by
  by_cases hd : s.destroyed = true
  · left; rw [step_destroyed env s ev hd]; exact hs
  have hd2 : s.destroyed = false := by simpa using hd
  cases ev with
  | submit msg now =>
    left
    rw [step_submit env s msg now hd2]
    exact handshaking_SendI2NPMessage _ env now s msg hs
  | complete h ecode data now =>
    by_cases hm : h ∈ s.pending
    · have ht := handshaking_received responderHandlerLate env s h data hs
      have hP := hs.2 h hm
      rw [step_complete env s h ecode data now hd2 hm]
      cases h with
      | HandlePhase1Received =>
        left
        exact handshaking_HandlePhase1Received _ env now _ ecode ht (fun _ => rfl)
      | HandlePhase2Sent tsB =>
        left
        simp only [invoke, HandlePhase2Sent]
        split
        · exact handshaking_Terminate _ _ ht.2
        · exact handshaking_asyncRead _ _ _ ht rfl
      | HandlePhase3Received tsB =>
        left
        exact handshaking_HandlePhase3Received _ env _ ecode tsB ht rfl
      | HandlePhase4Sent =>
        cases ecode with
        | true => left; exact handshaking_Terminate _ _ ht.2
        | false => right; exact ⟨data, now, rfl, hd2, hm⟩
      | HandleConnect => simp [responderHandler, responderHandlerLate] at hP
      | HandlePhase1Sent => simp [responderHandler, responderHandlerLate] at hP
      | HandlePhase2Received => simp [responderHandler, responderHandlerLate] at hP
      | HandlePhase3Sent _ => simp [responderHandler, responderHandlerLate] at hP
      | HandlePhase4Received _ => simp [responderHandler, responderHandlerLate] at hP
      | HandleReceived => simp [responderHandler, responderHandlerLate] at hP
      | HandleSent _ => simp [responderHandler, responderHandlerLate] at hP
    · left
      rw [step_not_pending env s h ecode data now hm]
      exact hs

theorem responder_run_late (env : Env) :
    ∀ (evs : List Event) (s : NTCPSession), handshaking responderHandlerLate s →
      (run env s evs).m_IsEstablished = true →
      ∃ mid data now post,
        evs = mid ++ Event.complete Handler.HandlePhase4Sent false data now :: post ∧
        (run env s mid).destroyed = false ∧
        Handler.HandlePhase4Sent ∈ (run env s mid).pending := by
  intro evs
  induction evs with
  | nil =>
    intro s hs he
    have : s.m_IsEstablished = true := he
    rw [hs.1] at this
    exact absurd this (by simp)
  | cons ev evs ih =>
    intro s hs he
    rcases responder_step_late env s ev hs with h | ⟨data, now, h1, h2, h3⟩
    · obtain ⟨mid, data, now, post, e1, e2, e3⟩ := ih (step env s ev) h he
      exact ⟨ev :: mid, data, now, post, by rw [e1]; rfl, e2, e3⟩
    · exact ⟨[], data, now, evs, by rw [h1]; rfl, h2, h3⟩

theorem run_append (env : Env) (s : NTCPSession) (a b : List Event) :
    run env s (a ++ b) = run env (run env s a) b := by
  simp [run, List.foldl_append]

/-- A run of a responder that ends established contains a Phase3 read without
error whose signature verified and, later, the completion of the Phase4 write
without error. -/
theorem responder_run (env : Env) :
    ∀ (evs : List Event) (s : NTCPSession), handshaking responderHandler s →
      (run env s evs).m_IsEstablished = true →
      ∃ pre tsB data now mid data2 now2 post,
        evs = pre ++ Event.complete (Handler.HandlePhase3Received tsB) false data now ::
          (mid ++ Event.complete Handler.HandlePhase4Sent false data2 now2 :: post) ∧
        (run env s pre).destroyed = false ∧
        Handler.HandlePhase3Received tsB ∈ (run env s pre).pending ∧
        phase3SignatureValid env
          (received env (run env s pre) (Handler.HandlePhase3Received tsB) data) tsB = true ∧
        (run env s
          (pre ++ Event.complete (Handler.HandlePhase3Received tsB) false data now ::
            mid)).destroyed = false ∧
        Handler.HandlePhase4Sent ∈ (run env s
          (pre ++ Event.complete (Handler.HandlePhase3Received tsB) false data now ::
            mid)).pending := by
  intro evs
  induction evs with
  | nil =>
    intro s hs he
    have : s.m_IsEstablished = true := he
    rw [hs.1] at this
    exact absurd this (by simp)
  | cons ev evs ih =>
    intro s hs he
    rcases responder_step env s ev hs with h | ⟨tsB, data, now, h1, h2, h3, h4, h5⟩
    · obtain ⟨pre, tsB, data, now, mid, data2, now2, post, e1, e2, e3, e4, e5, e6⟩ :=
        ih (step env s ev) h he
      exact ⟨ev :: pre, tsB, data, now, mid, data2, now2, post, by rw [e1]; rfl, e2, e3, e4,
        e5, e6⟩
    · obtain ⟨mid, data2, now2, post, e1, e2, e3⟩ := responder_run_late env evs _ h5 he
      refine ⟨[], tsB, data, now, mid, data2, now2, post, by rw [h1, e1]; rfl, h2, h3, h4, ?_, ?_⟩
      · rw [← h1]; exact e2
      · rw [← h1]; exact e3

theorem handshaking_new (P : Handler → Bool) (mem : NTCPSession) (remote : Option RouterInfo) :
    handshaking P (NTCPSession.new mem remote) :=
  ⟨rfl, fun h hm => by simp [NTCPSession.new] at hm⟩

/-- C5: in every run of an initiator (from `Connect` or from `ClientLogin`) that
ends established, some event is the completion without error of the Phase4
read on the live session, and the DSA verification over
`SignedData (x, y, local identity hash, tsA, timestamp of Phase2)` made on the
record read succeeded.  In every run of a responder (from `ServerLogin`) that
ends established, some event is the completion without error of the Phase3
read whose DSA verification succeeded, and a later event is the completion
without error of the Phase4 write.  Every handler called with an error, and
each of the two verifications when it fails, ends in a destroyed session that
is not established. -/
theorem established_only_after_verification (env : Env) (mem : NTCPSession)
    (remote : Option RouterInfo) (evs : List Event) :
    (∀ init : NTCPSession,
      (init = Connect (NTCPSession.new mem remote) ∨
        init = ClientLogin env (NTCPSession.new mem remote)) →
      (run env init evs).m_IsEstablished = true →
      ∃ pre tsA data now post,
        evs = pre ++ Event.complete (Handler.HandlePhase4Received tsA) false data now :: post ∧
        (run env init pre).destroyed = false ∧
        Handler.HandlePhase4Received tsA ∈ (run env init pre).pending ∧
        phase4SignatureValid env
          (received env (run env init pre) (Handler.HandlePhase4Received tsA) data) tsA =
          true) ∧
    ((run env (ServerLogin (NTCPSession.new mem remote)) evs).m_IsEstablished = true →
      ∃ pre tsB data now mid data2 now2 post,
        evs = pre ++ Event.complete (Handler.HandlePhase3Received tsB) false data now ::
          (mid ++ Event.complete Handler.HandlePhase4Sent false data2 now2 :: post) ∧
        (run env (ServerLogin (NTCPSession.new mem remote)) pre).destroyed = false ∧
        Handler.HandlePhase3Received tsB ∈
          (run env (ServerLogin (NTCPSession.new mem remote)) pre).pending ∧
        phase3SignatureValid env
          (received env (run env (ServerLogin (NTCPSession.new mem remote)) pre)
            (Handler.HandlePhase3Received tsB) data) tsB = true ∧
        (run env (ServerLogin (NTCPSession.new mem remote))
          (pre ++ Event.complete (Handler.HandlePhase3Received tsB) false data now ::
            mid)).destroyed = false ∧
        Handler.HandlePhase4Sent ∈ (run env (ServerLogin (NTCPSession.new mem remote))
          (pre ++ Event.complete (Handler.HandlePhase3Received tsB) false data now ::
            mid)).pending) ∧
    (∀ (s : NTCPSession) (h : Handler) (now n : Nat),
      (invoke env now s h true n).destroyed = true ∧
      (invoke env now s h true n).m_IsEstablished = false) ∧
    (∀ (s : NTCPSession) (now : Nat) (tsA : Bytes), phase4SignatureValid env s tsA = false →
      (HandlePhase4Received env now s false tsA).destroyed = true ∧
      (HandlePhase4Received env now s false tsA).m_IsEstablished = false) ∧
    (∀ (s : NTCPSession) (tsB : Bytes), phase3SignatureValid env s tsB = false →
      (HandlePhase3Received env s false tsB).destroyed = true ∧
      (HandlePhase3Received env s false tsB).m_IsEstablished = false) := by
  refine ⟨?_, ?_, ?_, ?_, ?_⟩
  · intro init hinit
    apply initiator_run env evs init
    rcases hinit with h | h
    · rw [h]; exact handshaking_asyncRead _ _ _ (handshaking_new _ mem remote) rfl
    · rw [h]
      exact handshaking_asyncWrite _ _ _ _
        ⟨(handshaking_new initiatorHandler mem remote).1,
          (handshaking_new initiatorHandler mem remote).2⟩ rfl
  · apply responder_run env evs
    exact handshaking_asyncRead _ _ _ (handshaking_new _ mem remote) rfl
  · intro s h now n
    exact ⟨(invoke_error env now s h n).1, (invoke_error env now s h n).2.1⟩
  · intro s now tsA h
    exact ⟨(HandlePhase4Received_failed env now s tsA h).1,
      (HandlePhase4Received_failed env now s tsA h).2.1⟩
  · intro s tsB h
    exact ⟨(HandlePhase3Received_failed env s tsB h).1,
      (HandlePhase3Received_failed env s tsB h).2.1⟩

/-! ## The properties on the example sessions -/

theorem exampleEnv_aesInverts : exampleEnv.aesInverts := by
  intro key b hb
  refine ⟨by show (List.map _ b).length = 16; rw [List.length_map]; exact hb, ?_⟩
  show List.map _ (List.map _ b) = b
  rw [List.map_map]
  have : ((fun x => x ^^^ key.getD 0 0) ∘ fun x => x ^^^ key.getD 0 0) = id := by
    funext x
    simp [Nat.xor_cancel_right]
  rw [this, List.map_id]

/-- The round trip of C1 on `exampleMessage`, sent and received with the
contexts of `exampleSession`. -/
theorem send_receive_round_trip_witness :
    exampleEnv.aesInverts ∧ 1 ≤ exampleMessage.GetLength ∧ exampleMessage.GetLength ≤ 65535 ∧
    ∃ (frame : Bytes) (msg : I2NPMessage),
      (Send exampleEnv 0 exampleSession (some exampleMessage)).written =
        exampleSession.written ++ [frame] ∧
      (decryptAll exampleEnv exampleSession (blocksOf (frame.length / 16) frame)).handled =
        exampleSession.handled ++ [msg] ∧
      msg.offset = 2 ∧ msg.len = exampleMessage.GetLength + 2 ∧
      slice msg.buf 2 exampleMessage.GetLength =
        slice exampleMessage.buf exampleMessage.offset exampleMessage.GetLength := by
  obtain ⟨_, frame, h1, _, _, msg, h2, h3, h4, h5, _⟩ :=
    send_receive_round_trip exampleEnv 0 exampleSession exampleSession exampleMessage
      exampleEnv_aesInverts (by decide) (by decide) (by decide) (by decide) (by decide) (by decide)
      (by decide)
  exact ⟨exampleEnv_aesInverts, by decide, by decide, frame, msg, h1, h2, h3, h4, h5⟩

/-- The frame of C2 for `exampleMessage`, a message of 14 bytes: 32 bytes. -/
theorem send_frame_length_witness :
    exampleSession.socketOpen = true ∧ exampleMessage.GetLength = 14 ∧
    ∃ frame : Bytes,
      (Send exampleEnv 0 exampleSession (some exampleMessage)).written =
        exampleSession.written ++ [frame] ∧
      frame.length = exampleMessage.GetLength + 2 + sendPadding exampleMessage.GetLength + 4 := by
  obtain ⟨_, _, _, ⟨frame, h1, _, h2⟩, _, _, _⟩ :=
    send_frame_length exampleEnv 0 exampleSession exampleMessage (by decide) (by decide)
  exact ⟨by decide, by decide, frame, h1, h2⟩

/-- The deferred send of C7 on `exampleSession` and `exampleMessage`. -/
theorem deferred_send_witness :
    exampleSession.m_IsEstablished = false ∧
    (Connected exampleEnv 1 (SendI2NPMessage exampleEnv 0 exampleSession
      (some exampleMessage))).pending =
      exampleSession.pending ++
        [Handler.HandleSent none, Handler.HandleSent (some exampleEnv.CreateDatabaseStoreMsg),
          Handler.HandleSent (some exampleMessage)] :=
  ⟨by decide, (deferred_send exampleEnv 0 1 exampleSession exampleMessage (by decide)).2.2.2.2.2.1⟩

/-- The keep-alive of C8 on `exampleSession` and `exampleKeepAliveBlock`. -/
theorem keepalive_round_trip_witness :
    (exampleSession.m_Decryption.Decrypt exampleEnv (slice exampleKeepAliveBlock 0 16)).1.take 2 =
      [0, 0] ∧
    (DecryptNextBlock exampleEnv exampleSession exampleKeepAliveBlock).handled =
      exampleSession.handled ∧
    (DecryptNextBlock exampleEnv exampleSession exampleKeepAliveBlock).m_NextMessage = none :=
  ⟨by decide,
    (keepalive_round_trip exampleEnv 0 exampleSession exampleSession exampleKeepAliveBlock
      (by decide) (by decide) (by decide)).2.2.1,
    (keepalive_round_trip exampleEnv 0 exampleSession exampleSession exampleKeepAliveBlock
      (by decide) (by decide) (by decide)).2.2.2.1⟩

/-- The key of C9 for a shared secret whose first byte is 203: a zero byte in
front of 31 bytes of the secret. -/
theorem createAESKey_normalization_witness :
    exampleEnv.dhAgree exampleEnv.privateKey (List.replicate 256 200) =
      some (List.replicate 256 203) ∧
    (CreateAESKey exampleEnv exampleSession (List.replicate 256 200)
      (List.replicate 32 0)).2 = 0 :: (List.replicate 256 203).take 31 :=
  ⟨rfl,
    (createAESKey_normalization exampleEnv exampleSession (List.replicate 256 200)
      (List.replicate 32 0) (List.replicate 256 203) rfl
      (by rw [List.length_replicate]; omega) (by rw [List.length_replicate])).2.2.1 (by decide)⟩

set_option maxRecDepth 100000 in
/-- The identity check of C3 on the Phase1 record of the example initiator. -/
theorem phase1_ident_check_witness :
    HandlePhase1Received exampleEnv 10
        (received exampleEnv exampleServerStart Handler.HandlePhase1Received
          ((ClientLogin exampleEnv exampleSession).m_Phase1.pubKey ++
            (ClientLogin exampleEnv exampleSession).m_Phase1.HXxorHI))
        false =
      SendPhase2 exampleEnv 10
        (received exampleEnv exampleServerStart Handler.HandlePhase1Received
          ((ClientLogin exampleEnv exampleSession).m_Phase1.pubKey ++
            (ClientLogin exampleEnv exampleSession).m_Phase1.HXxorHI)) :=
  ((phase1_ident_check exampleEnv 10 exampleServerStart).2.2.1 exampleEnv exampleSession rfl
    (by decide) (by decide)).2.mpr (by decide)

set_option maxRecDepth 100000 in
/-- The hash check of C4 on the Phase2 record of the example responder, and on
the same record with the first encrypted byte changed. -/
theorem phase2_hash_check_witness :
    HandlePhase2Received exampleEnv 11
        (received exampleEnv exampleClientStart Handler.HandlePhase2Received
          (exampleServer1.written.getD 0 [])) false =
      SendPhase3 exampleEnv 11
        (decryptPhase2 exampleEnv
          (received exampleEnv exampleClientStart Handler.HandlePhase2Received
            (exampleServer1.written.getD 0 []))) ∧
    (HandlePhase2Received exampleEnv 11
        (received exampleEnv exampleClientStart Handler.HandlePhase2Received
          (writeAt (exampleServer1.written.getD 0 []) 256 [0])) false).destroyed = true :=
  ⟨(phase2_hash_check exampleEnv 11
      (received exampleEnv exampleClientStart Handler.HandlePhase2Received
        (exampleServer1.written.getD 0 []))).2.1 (by decide),
    ((phase2_hash_check exampleEnv 11
      (received exampleEnv exampleClientStart Handler.HandlePhase2Received
        (writeAt (exampleServer1.written.getD 0 []) 256 [0]))).1 (by decide)).2.1⟩

set_option maxRecDepth 100000 in
/-- The runs of C5 on the example handshake: both sessions end established, and
the verified reads are found in their runs. -/
theorem established_only_after_verification_witness :
    (run exampleEnv exampleClientStart exampleClientEvents).m_IsEstablished = true ∧
    (run exampleEnv exampleServerStart exampleServerEvents).m_IsEstablished = true ∧
    (∃ pre tsA data now post,
      exampleClientEvents =
        pre ++ Event.complete (Handler.HandlePhase4Received tsA) false data now :: post ∧
      phase4SignatureValid exampleEnv
        (received exampleEnv (run exampleEnv exampleClientStart pre)
          (Handler.HandlePhase4Received tsA) data) tsA = true) := by
  refine ⟨by decide, by decide, ?_⟩
  obtain ⟨pre, tsA, data, now, post, h1, _, _, h4⟩ :=
    (established_only_after_verification exampleEnv exampleSession
      (some exampleSession.m_RemoteRouterInfo) exampleClientEvents).1 exampleClientStart
      (Or.inr rfl) (by decide)
  exact ⟨pre, tsA, data, now, post, h1, h4⟩

/-- The checksum of C10 on the frame of `exampleMessage` and on a keep-alive. -/
theorem send_frame_checksum_witness :
    adlerVerify (sendBuffer 0 exampleSession (some exampleMessage)) = true ∧
    adlerVerify (sendBuffer 0 exampleSession none) = true :=
  ⟨(send_frame_checksum 0 exampleSession (some exampleMessage)).2.2.2,
    (send_frame_checksum 0 exampleSession none).2.2.2⟩

/-! ## The receiver checks neither the checksum nor the size -/

theorem completeMessage_fields (s : NTCPSession) :
    (completeMessage s).destroyed = s.destroyed ∧
    (completeMessage s).socketOpen = s.socketOpen ∧
    (completeMessage s).m_IsEstablished = s.m_IsEstablished ∧
    (completeMessage s).written = s.written ∧
    (completeMessage s).pending = s.pending := by
  unfold completeMessage
  split
  · split <;> exact ⟨rfl, rfl, rfl, rfl, rfl⟩
  · exact ⟨rfl, rfl, rfl, rfl, rfl⟩

/-- `DecryptNextBlock` has no path to `Terminate`: it leaves the socket, the
established flag and the life of the session alone. -/
theorem DecryptNextBlock_fields (env : Env) (s : NTCPSession) (b : Bytes) :
    (DecryptNextBlock env s b).destroyed = s.destroyed ∧
    (DecryptNextBlock env s b).socketOpen = s.socketOpen ∧
    (DecryptNextBlock env s b).m_IsEstablished = s.m_IsEstablished ∧
    (DecryptNextBlock env s b).written = s.written ∧
    (DecryptNextBlock env s b).pending = s.pending := by
  unfold DecryptNextBlock
  split
  · simp only []
    split
    · exact completeMessage_fields _
    · exact ⟨rfl, rfl, rfl, rfl, rfl⟩
  · exact completeMessage_fields _

theorem decryptAll_fields (env : Env) (bs : List Bytes) :
    ∀ s : NTCPSession,
      (decryptAll env s bs).destroyed = s.destroyed ∧
      (decryptAll env s bs).socketOpen = s.socketOpen ∧
      (decryptAll env s bs).m_IsEstablished = s.m_IsEstablished ∧
      (decryptAll env s bs).written = s.written ∧
      (decryptAll env s bs).pending = s.pending := by
  induction bs with
  | nil => intro s; exact ⟨rfl, rfl, rfl, rfl, rfl⟩
  | cons b bs ih =>
    intro s
    rw [decryptAll_cons]
    obtain ⟨h1, h2, h3, h4, h5⟩ := ih (DecryptNextBlock env s b)
    obtain ⟨g1, g2, g3, g4, g5⟩ := DecryptNextBlock_fields env s b
    exact ⟨h1.trans g1, h2.trans g2, h3.trans g3, h4.trans g4, h5.trans g5⟩

/-- C12, as the code has it: a frame that is completely reassembled is handed
to the I2NP handler whatever its last four bytes are, and the session is not
terminated.  The frame has a size field `n` between 1 and 65535 and `k + 1`
blocks, the last of which holds position `n + 5`; nothing is assumed about the
bytes behind the payload, so the statement covers the frames whose checksum is
wrong as well as those whose checksum is right. -/
theorem receive_ignores_checksum (env : Env) (haes : env.aesInverts) (r : NTCPSession)
    (key reg plain : Bytes) (n k : Nat) (hn1 : 1 ≤ n) (hn2 : n ≤ 65535)
    (hp : plain.length = 16 * (k + 1)) (hreg : reg.length = 16)
    (hsize : plain.take 2 = htobe16 n)
    (hlo : n + 6 ≤ 16 * (k + 1)) (hhi : 16 * k < n + 6)
    (hnone : r.m_NextMessage = none) (hdec : r.m_Decryption = { key := key, iv := reg })
    (hcap : 16 * (k + 1) ≤ env.NewI2NPMessage.buf.length) :
    (decryptAll env r
        (blocksOf (k + 1) (CBC.Encrypt env { key := key, iv := reg } plain).1)).handled =
      r.handled ++
        [{ buf := writeAt env.NewI2NPMessage.buf 0 plain, len := n + 2, offset := 2 }] ∧
    (decryptAll env r
        (blocksOf (k + 1) (CBC.Encrypt env { key := key, iv := reg } plain).1)).destroyed =
      r.destroyed ∧
    (decryptAll env r
        (blocksOf (k + 1) (CBC.Encrypt env { key := key, iv := reg } plain).1)).socketOpen =
      r.socketOpen ∧
    (decryptAll env r
        (blocksOf (k + 1) (CBC.Encrypt env { key := key, iv := reg } plain).1)).m_IsEstablished =
      r.m_IsEstablished := by
  have hdiv : 16 * (k + 1) / 16 = k + 1 := by omega
  have hframe : (CBC.Encrypt env { key := key, iv := reg } plain).1 =
      (cbcEncryptBlocks (aesEncrypt16 env) key (k + 1) reg plain).1 := by
    simp only [CBC.Encrypt, hp, hdiv]
  rw [hframe]
  obtain ⟨_, f2, _⟩ := decryptAll_frame env haes r key reg plain n k hn1 hn2 hp hreg hsize hlo hhi
    hnone hdec hcap
  obtain ⟨g1, g2, g3, _, _⟩ := decryptAll_fields env
    (blocksOf (k + 1) (cbcEncryptBlocks (aesEncrypt16 env) key (k + 1) reg plain).1) r
  exact ⟨f2, g1, g2, g3⟩

/-- C12 as stated fails: the frame `exampleBadFrame` does not pass the Adler-32
check, and the receiver hands its message on and is not terminated. -/
theorem receive_checksum_counterexample :
    adlerVerify exampleBadFrame = false ∧
    (decryptAll exampleEnv exampleSession
      (blocksOf 2 (exampleSession.m_Encryption.Encrypt exampleEnv exampleBadFrame).1)).handled =
      [{ buf := writeAt exampleEnv.NewI2NPMessage.buf 0 exampleBadFrame, len := 16, offset := 2 }] ∧
    (decryptAll exampleEnv exampleSession
      (blocksOf 2
        (exampleSession.m_Encryption.Encrypt exampleEnv exampleBadFrame).1)).destroyed = false := by
  decide

/-- The frame of C12 with a wrong checksum, `exampleBadFrame`, in the amended
statement. -/
theorem receive_ignores_checksum_witness :
    adlerVerify exampleBadFrame = false ∧
    (decryptAll exampleEnv exampleSession
        (blocksOf 2
          (CBC.Encrypt exampleEnv { key := List.replicate 32 5, iv := List.replicate 16 1 }
            exampleBadFrame).1)).handled =
      exampleSession.handled ++
        [{ buf := writeAt exampleEnv.NewI2NPMessage.buf 0 exampleBadFrame, len := 14 + 2,
           offset := 2 }] :=
  ⟨by decide,
    (receive_ignores_checksum exampleEnv exampleEnv_aesInverts exampleSession
      (List.replicate 32 5) (List.replicate 16 1) exampleBadFrame 14 1 (by decide) (by decide)
      (by decide) (by decide) (by decide) (by decide) (by decide) (by decide) (by decide)
      (by decide)).1⟩

set_option maxRecDepth 100000 in
/-- C13, evaluated: the buffer of a new message has 64 bytes and the header
block announces 100 bytes, a frame of 112 bytes.  The session is not terminated
at the header block nor later; after four blocks the offset is 64, the end of
the buffer, and the fifth block is written there: the offset becomes 80 and the
buffer of the message in progress has grown to 80 bytes. -/
theorem oversized_frame_not_rejected :
    exampleEnv.NewI2NPMessage.buf.length = 64 ∧
    be16toh (exampleSession.m_Decryption.Decrypt exampleEnv
      (exampleOversizedBlocks.getD 0 [])).1 = 100 ∧
    100 + 2 + sendPadding 100 + 4 = 112 ∧
    (decryptAll exampleEnv exampleSession (exampleOversizedBlocks.take 1)).destroyed = false ∧
    (decryptAll exampleEnv exampleSession (exampleOversizedBlocks.take 4)).m_NextMessageOffset =
      64 ∧
    (decryptAll exampleEnv exampleSession exampleOversizedBlocks).destroyed = false ∧
    (decryptAll exampleEnv exampleSession exampleOversizedBlocks).socketOpen = true ∧
    (decryptAll exampleEnv exampleSession exampleOversizedBlocks).m_NextMessageOffset = 80 ∧
    (decryptAll exampleEnv exampleSession exampleOversizedBlocks).m_NextMessage.map
      (fun m => m.buf.length) = some 80 := by
  decide

/-! ## Deferred slot and failed agreement -/

/-- C20: on a session that is not established, a message `m1` and then a
message `m2` are submitted with `SendI2NPMessage`.  After the second call the
session differs from the one before the first call only in `m_DelayedMessage`,
which holds `m2`; `m1` is nowhere in it and was not deleted.  `Connected` then
calls `Send` for the time synchronisation, for the message of
`CreateDatabaseStoreMsg` and for `m2`; when `m1` is another message than these
it is not among the messages handed to `Send`, and the slot is empty after. -/
theorem deferred_slot_replacement (env : Env) (now1 now2 now3 : Nat) (s : NTCPSession)
    (m1 m2 : I2NPMessage) (hest : s.m_IsEstablished = false) :
    (SendI2NPMessage env now1 s (some m1)).m_DelayedMessage = some m1 ∧
    SendI2NPMessage env now2 (SendI2NPMessage env now1 s (some m1)) (some m2) =
      { s with m_DelayedMessage := some m2 } ∧
    (SendI2NPMessage env now2 (SendI2NPMessage env now1 s (some m1))
      (some m2)).m_DelayedMessage = some m2 ∧
    (Connected env now3
      (SendI2NPMessage env now2 (SendI2NPMessage env now1 s (some m1)) (some m2))).pending =
      s.pending ++ [Handler.HandleSent none, Handler.HandleSent (some env.CreateDatabaseStoreMsg),
        Handler.HandleSent (some m2)] ∧
    (m1 ≠ m2 → m1 ≠ env.CreateDatabaseStoreMsg →
      Handler.HandleSent (some m1) ∉
        [Handler.HandleSent none, Handler.HandleSent (some env.CreateDatabaseStoreMsg),
          Handler.HandleSent (some m2)]) ∧
    (Connected env now3
      (SendI2NPMessage env now2 (SendI2NPMessage env now1 s (some m1))
        (some m2))).m_DelayedMessage = none ∧
    (SendI2NPMessage env now2 (SendI2NPMessage env now1 s (some m1)) (some m2)).deleted =
      s.deleted := by
  have h1 : SendI2NPMessage env now1 s (some m1) = { s with m_DelayedMessage := some m1 } := by
    simp [SendI2NPMessage, hest]
  have h2 : SendI2NPMessage env now2 (SendI2NPMessage env now1 s (some m1)) (some m2) =
      { s with m_DelayedMessage := some m2 } := by
    rw [h1]
    simp [SendI2NPMessage, hest]
  have hc := Connected_deferred env now3 { s with m_DelayedMessage := some m2 } m2 rfl
  refine ⟨by rw [h1], h2, by rw [h2], ?_, ?_, ?_, ?_⟩
  · rw [h2, hc, Send_pending]
    simp only []
    rw [Send_pending, Send_pending]
    simp
  · intro hne hdb
    simp only [List.mem_cons, Handler.HandleSent.injEq, Option.some.injEq, List.mem_singleton,
      List.not_mem_nil, or_false, not_or]
    exact ⟨by simp, hdb, hne⟩
  · rw [h2, hc, Send_delayed]
  · rw [h2]

/-- The deferred slot of C20 on `exampleSession`: `malformedMessage`, then
`exampleMessage`. -/
theorem deferred_slot_replacement_witness :
    exampleSession.m_IsEstablished = false ∧
    (Connected exampleEnv 3
      (SendI2NPMessage exampleEnv 2 (SendI2NPMessage exampleEnv 1 exampleSession
        (some malformedMessage)) (some exampleMessage))).pending =
      exampleSession.pending ++
        [Handler.HandleSent none, Handler.HandleSent (some exampleEnv.CreateDatabaseStoreMsg),
          Handler.HandleSent (some exampleMessage)] :=
  ⟨by decide,
    (deferred_slot_replacement exampleEnv 1 2 3 exampleSession malformedMessage exampleMessage
      (by decide)).2.2.2.1⟩

/-- When the agreement fails `SendPhase2` still keys both contexts, from the
array `aesKey` as it was, encrypts the Phase2 record and starts the write. -/
theorem SendPhase2_after_failed_agreement (env : Env) (now : Nat) (s : NTCPSession)
    (h : env.dhAgree env.privateKey s.m_Phase1.pubKey = none) :
    (SendPhase2 env now s).destroyed = true ∧
    (SendPhase2 env now s).m_Encryption.key = slice env.aesKeyStack 0 32 ∧
    (SendPhase2 env now s).m_Decryption =
      { key := slice env.aesKeyStack 0 32, iv := slice s.m_Phase1.HXxorHI 16 16 } ∧
    (SendPhase2 env now s).pending = s.pending ++ [Handler.HandlePhase2Sent (htobe32 now)] ∧
    (SendPhase2 env now s).written = s.written := by
  have hk : CreateAESKey env s s.m_Phase1.pubKey env.aesKeyStack =
      (Terminate s, env.aesKeyStack) := by
    unfold CreateAESKey
    rw [h]
  refine ⟨?_, ?_, ?_, SendPhase2_pending env now s, ?_⟩
  · simp [SendPhase2, asyncWrite, hk, Terminate]
  · simp [SendPhase2, asyncWrite, hk, CBC.Encrypt]
  · simp [SendPhase2, asyncWrite, hk]
  · simp [SendPhase2, asyncWrite, hk, Terminate]

/-- When the agreement fails `HandlePhase2Received` still keys both contexts,
from the array `aesKey` as it was, and decrypts the record with them. -/
theorem decryptPhase2_after_failed_agreement (env : Env) (s : NTCPSession)
    (h : env.dhAgree env.privateKey s.m_Phase2.pubKey = none) :
    (decryptPhase2 env s).destroyed = true ∧
    (decryptPhase2 env s).m_Decryption.key = slice env.aesKeyStack 0 32 ∧
    (decryptPhase2 env s).m_Encryption =
      { key := slice env.aesKeyStack 0 32, iv := slice s.m_Phase1.HXxorHI 16 16 } ∧
    (decryptPhase2 env s).m_Phase2.encrypted =
      (CBC.Decrypt env
        { key := slice env.aesKeyStack 0 32, iv := slice s.m_Phase2.pubKey 240 16 }
        (slice s.m_Phase2.encrypted 0 48)).1 := by
  have hk : CreateAESKey env s s.m_Phase2.pubKey env.aesKeyStack =
      (Terminate s, env.aesKeyStack) := by
    unfold CreateAESKey
    rw [h]
  refine ⟨?_, ?_, ?_, ?_⟩
  · simp [decryptPhase2, hk, Terminate]
  · simp [decryptPhase2, hk, CBC.Decrypt]
  · simp [decryptPhase2, hk]
  · simp [decryptPhase2, hk]

set_option maxRecDepth 100000 in
/-- C18, evaluated with an agreement that fails.  The responder, on a Phase1
record it accepts, is terminated, but `SendPhase2` has gone on: both contexts
are keyed with the 32 zero bytes of the unset array, the Phase2 record is built
and encrypted, and the write is started (on the closed socket, so no byte is
written).  The initiator, on a Phase2 record, is terminated, but both contexts
are keyed with the unset array and the record was decrypted with them. -/
theorem failed_agreement_not_fatal :
    exampleEnvNoAgreement.aesKeyStack = List.replicate 32 0 ∧
    (step exampleEnvNoAgreement exampleServerStart
      (Event.complete Handler.HandlePhase1Received false
        (exampleClientStart.written.getD 0 []) 10)).destroyed = true ∧
    (step exampleEnvNoAgreement exampleServerStart
      (Event.complete Handler.HandlePhase1Received false
        (exampleClientStart.written.getD 0 []) 10)).m_Encryption.key = List.replicate 32 0 ∧
    (step exampleEnvNoAgreement exampleServerStart
      (Event.complete Handler.HandlePhase1Received false
        (exampleClientStart.written.getD 0 []) 10)).m_Decryption =
      { key := List.replicate 32 0, iv := List.replicate 16 9 } ∧
    (step exampleEnvNoAgreement exampleServerStart
      (Event.complete Handler.HandlePhase1Received false
        (exampleClientStart.written.getD 0 []) 10)).pending =
      [Handler.HandlePhase2Sent (htobe32 10)] ∧
    (step exampleEnvNoAgreement exampleServerStart
      (Event.complete Handler.HandlePhase1Received false
        (exampleClientStart.written.getD 0 []) 10)).written = [] ∧
    (step exampleEnvNoAgreement exampleServerStart
      (Event.complete Handler.HandlePhase1Received false
        (exampleClientStart.written.getD 0 []) 10)).m_IsEstablished = false ∧
    (step exampleEnvNoAgreement
      (step exampleEnv exampleClientStart (Event.complete Handler.HandlePhase1Sent false [] 10))
      (Event.complete Handler.HandlePhase2Received false
        (exampleServer1.written.getD 0 []) 11)).destroyed = true ∧
    (step exampleEnvNoAgreement
      (step exampleEnv exampleClientStart (Event.complete Handler.HandlePhase1Sent false [] 10))
      (Event.complete Handler.HandlePhase2Received false
        (exampleServer1.written.getD 0 []) 11)).m_Encryption =
      { key := List.replicate 32 0, iv := List.replicate 16 9 } ∧
    (step exampleEnvNoAgreement
      (step exampleEnv exampleClientStart (Event.complete Handler.HandlePhase1Sent false [] 10))
      (Event.complete Handler.HandlePhase2Received false
        (exampleServer1.written.getD 0 []) 11)).m_Decryption.key = List.replicate 32 0 ∧
    (step exampleEnvNoAgreement
      (step exampleEnv exampleClientStart (Event.complete Handler.HandlePhase1Sent false [] 10))
      (Event.complete Handler.HandlePhase2Received false
        (exampleServer1.written.getD 0 []) 11)).m_Decryption.iv ≠
      (step exampleEnv exampleClientStart
        (Event.complete Handler.HandlePhase1Sent false [] 10)).m_Decryption.iv := by
  decide

/-! ## CBC contexts: round trip and keys -/

/-- CBC decryption of what CBC encryption produced, with the same key and
chaining register, gives the plaintext back and ends with the same register. -/
theorem cbc_round_trip (env : Env) (haes : env.aesInverts) (key : Bytes) :
    ∀ (k : Nat) (reg plain : Bytes), reg.length = 16 → 16 * k ≤ plain.length →
      cbcDecryptBlocks (aesDecrypt16 env) key k reg
          (cbcEncryptBlocks (aesEncrypt16 env) key k reg plain).1 =
        (plain, (cbcEncryptBlocks (aesEncrypt16 env) key k reg plain).2) := by
  intro k
  induction k with
  | zero => intro reg plain _ _; rfl
  | succ k ih =>
    intro reg plain hreg hlen
    have hc : (aesEncrypt16 env key (xorBytes (plain.take 16) reg)).length = 16 :=
      slice_length _ _ _
    have hp16 : (plain.take 16).length = 16 := by simp; omega
    rw [cbcEncryptBlocks_succ]
    simp only [cbcDecryptBlocks, cbcEncryptBlocks]
    rw [List.take_left' hc, List.drop_left' hc,
      cbc_block_inverse env haes key _ reg hp16 hreg,
      ih _ (plain.drop 16) hc (by simp; omega)]
    simp

theorem Decrypt_Encrypt (env : Env) (haes : env.aesInverts) (c : CBC) (plain : Bytes)
    (hiv : c.iv.length = 16) :
    c.Decrypt env (c.Encrypt env plain).1 = (plain, (c.Encrypt env plain).2) := by
  have hl := Encrypt_length env c plain
  unfold CBC.Decrypt
  rw [hl]
  simp only [CBC.Encrypt]
  rw [cbc_round_trip env haes c.key _ c.iv plain hiv (Nat.mul_div_le _ _)]

theorem Decrypt_congr (env1 env2 : Env) (h : env1.aesDecryptBlock = env2.aesDecryptBlock)
    (c : CBC) (data : Bytes) : c.Decrypt env1 data = c.Decrypt env2 data := by
  have : aesDecrypt16 env1 = aesDecrypt16 env2 := by
    funext key b; simp [aesDecrypt16, h]
  simp [CBC.Decrypt, this]

theorem Encrypt_congr (env1 env2 : Env) (h : env1.aesEncryptBlock = env2.aesEncryptBlock)
    (c : CBC) (data : Bytes) : c.Encrypt env1 data = c.Encrypt env2 data := by
  have : aesEncrypt16 env1 = aesEncrypt16 env2 := by
    funext key b; simp [aesEncrypt16, h]
  simp [CBC.Encrypt, this]

theorem Send_contexts (env : Env) (now : Nat) (s : NTCPSession) (msg : Option I2NPMessage) :
    (Send env now s msg).m_Encryption.key = s.m_Encryption.key ∧
    (Send env now s msg).m_Decryption = s.m_Decryption := by
  cases msg with
  | none => simp [Send, asyncWrite, CBC.Encrypt]
  | some m => by_cases h : m.offset < 2 <;> simp [Send, asyncWrite, h, CBC.Encrypt]

theorem SendI2NPMessage_contexts (env : Env) (now : Nat) (s : NTCPSession)
    (msg : Option I2NPMessage) :
    (SendI2NPMessage env now s msg).m_Encryption.key = s.m_Encryption.key ∧
    (SendI2NPMessage env now s msg).m_Decryption = s.m_Decryption := by
  cases msg with
  | none => exact ⟨rfl, rfl⟩
  | some m =>
    unfold SendI2NPMessage
    simp only []
    split
    · exact Send_contexts env now s (some m)
    · exact ⟨rfl, rfl⟩

theorem Connected_contexts (env : Env) (now : Nat) (s : NTCPSession) :
    (Connected env now s).m_Encryption.key = s.m_Encryption.key ∧
    (Connected env now s).m_Decryption = s.m_Decryption := by
  unfold Connected
  simp only [SendTimeSyncMessage]
  have h1 := Send_contexts env now { s with m_IsEstablished := true, registered := true } none
  have h2 := SendI2NPMessage_contexts env now
    (Send env now { s with m_IsEstablished := true, registered := true } none)
    (some env.CreateDatabaseStoreMsg)
  split
  · rename_i d hd
    have h3 := SendI2NPMessage_contexts env now
      { SendI2NPMessage env now
          (Send env now { s with m_IsEstablished := true, registered := true } none)
          (some env.CreateDatabaseStoreMsg) with m_DelayedMessage := none } (some d)
    exact ⟨h3.1.trans (h2.1.trans h1.1), h3.2.trans (h2.2.trans h1.2)⟩
  · exact ⟨h2.1.trans h1.1, h2.2.trans h1.2⟩

theorem completeMessage_contexts (s : NTCPSession) :
    (completeMessage s).m_Encryption = s.m_Encryption ∧
    (completeMessage s).m_Decryption = s.m_Decryption ∧
    (completeMessage s).m_ReceiveBuffer = s.m_ReceiveBuffer ∧
    (completeMessage s).m_ReceiveBufferOffset = s.m_ReceiveBufferOffset := by
  unfold completeMessage
  split
  · split <;> exact ⟨rfl, rfl, rfl, rfl⟩
  · exact ⟨rfl, rfl, rfl, rfl⟩

theorem DecryptNextBlock_contexts (env : Env) (s : NTCPSession) (b : Bytes) :
    (DecryptNextBlock env s b).m_Encryption = s.m_Encryption ∧
    (DecryptNextBlock env s b).m_Decryption = { s.m_Decryption with iv := slice b 0 16 } ∧
    (DecryptNextBlock env s b).m_ReceiveBuffer = s.m_ReceiveBuffer ∧
    (DecryptNextBlock env s b).m_ReceiveBufferOffset = s.m_ReceiveBufferOffset := by
  have hd : (s.m_Decryption.Decrypt env (slice b 0 16)).2 =
      { s.m_Decryption with iv := slice b 0 16 } := by
    rw [Decrypt_block env _ _ (slice_length _ _ _)]
  unfold DecryptNextBlock
  split
  · simp only []
    split
    · exact ⟨(completeMessage_contexts _).1, ((completeMessage_contexts _).2.1).trans hd,
        (completeMessage_contexts _).2.2.1, (completeMessage_contexts _).2.2.2⟩
    · exact ⟨rfl, hd, rfl, rfl⟩
  · exact ⟨(completeMessage_contexts _).1, ((completeMessage_contexts _).2.1).trans hd,
      (completeMessage_contexts _).2.2.1, (completeMessage_contexts _).2.2.2⟩

theorem decryptBlocks_keys (env : Env) :
    ∀ (n : Nat) (s : NTCPSession) (nextBlock : Nat),
      (decryptBlocks env n s nextBlock).1.m_Encryption = s.m_Encryption ∧
      (decryptBlocks env n s nextBlock).1.m_Decryption.key = s.m_Decryption.key := by
  intro n
  induction n with
  | zero => intro s nb; exact ⟨rfl, rfl⟩
  | succ n ih =>
    intro s nb
    unfold decryptBlocks
    split
    · simp only []
      obtain ⟨h1, h2⟩ := ih
        { DecryptNextBlock env s (slice s.m_ReceiveBuffer nb 16) with
          m_ReceiveBufferOffset :=
            (DecryptNextBlock env s (slice s.m_ReceiveBuffer nb 16)).m_ReceiveBufferOffset - 16 }
        (nb + 16)
      obtain ⟨g1, g2, _, _⟩ := DecryptNextBlock_contexts env s (slice s.m_ReceiveBuffer nb 16)
      refine ⟨h1.trans g1, h2.trans ?_⟩
      show (DecryptNextBlock env s (slice s.m_ReceiveBuffer nb 16)).m_Decryption.key = _
      rw [g2]
    · exact ⟨rfl, rfl⟩

theorem HandleReceived_keys (env : Env) (s : NTCPSession) (ecode : Bool) (n : Nat) :
    (HandleReceived env s ecode n).m_Encryption.key = s.m_Encryption.key ∧
    (HandleReceived env s ecode n).m_Decryption.key = s.m_Decryption.key := by
  unfold HandleReceived
  split
  · exact ⟨rfl, rfl⟩
  · simp only [Receive, asyncRead]
    split
    · have h := decryptBlocks_keys env (s.m_ReceiveBufferOffset + n)
        { s with m_ReceiveBufferOffset := s.m_ReceiveBufferOffset + n } 0
      split
      · exact ⟨by rw [show ∀ x : NTCPSession, x.m_Encryption.key = x.m_Encryption.key from
            fun _ => rfl]; exact congrArg CBC.key h.1, h.2⟩
      · exact ⟨congrArg CBC.key h.1, h.2⟩
    · exact ⟨rfl, rfl⟩

theorem SendPhase4_keys (env : Env) (s : NTCPSession) (tsB : Bytes) :
    (SendPhase4 env s tsB).m_Encryption.key = s.m_Encryption.key ∧
    (SendPhase4 env s tsB).m_Decryption = s.m_Decryption :=
  ⟨rfl, rfl⟩

theorem HandlePhase3Received_keys (env : Env) (s : NTCPSession) (ecode : Bool) (tsB : Bytes) :
    (HandlePhase3Received env s ecode tsB).m_Encryption.key = s.m_Encryption.key ∧
    (HandlePhase3Received env s ecode tsB).m_Decryption.key = s.m_Decryption.key := by
  unfold HandlePhase3Received
  split
  · exact ⟨rfl, rfl⟩
  · simp only []
    split
    · exact ⟨rfl, rfl⟩
    · exact ⟨rfl, rfl⟩

theorem HandlePhase4Sent_keys (env : Env) (now : Nat) (s : NTCPSession) (ecode : Bool) :
    (HandlePhase4Sent env now s ecode).m_Encryption.key = s.m_Encryption.key ∧
    (HandlePhase4Sent env now s ecode).m_Decryption.key = s.m_Decryption.key := by
  unfold HandlePhase4Sent
  split
  · exact ⟨rfl, rfl⟩
  · exact ⟨(Connected_contexts env now s).1, congrArg CBC.key (Connected_contexts env now s).2⟩

theorem HandlePhase4Received_keys (env : Env) (now : Nat) (s : NTCPSession) (ecode : Bool)
    (tsA : Bytes) :
    (HandlePhase4Received env now s ecode tsA).m_Encryption.key = s.m_Encryption.key ∧
    (HandlePhase4Received env now s ecode tsA).m_Decryption.key = s.m_Decryption.key := by
  unfold HandlePhase4Received
  split
  · exact ⟨rfl, rfl⟩
  · simp only []
    split
    · exact ⟨rfl, rfl⟩
    · refine ⟨(Connected_contexts env now _).1, ?_⟩
      show (Connected env now _).m_Decryption.key = _
      rw [(Connected_contexts env now _).2]
      rfl

/-- Only the two handlers that call `CreateAESKey` set a key. -/
theorem invoke_keys (env : Env) (now : Nat) (s : NTCPSession) (h : Handler) (ecode : Bool)
    (n : Nat) (h1 : h ≠ Handler.HandlePhase1Received) (h2 : h ≠ Handler.HandlePhase2Received) :
    (invoke env now s h ecode n).m_Encryption.key = s.m_Encryption.key ∧
    (invoke env now s h ecode n).m_Decryption.key = s.m_Decryption.key := by
  cases h with
  | HandlePhase1Received => exact absurd rfl h1
  | HandlePhase2Received => exact absurd rfl h2
  | HandleConnect =>
    simp only [invoke, HandleConnect]
    split <;> exact ⟨rfl, rfl⟩
  | HandlePhase1Sent =>
    simp only [invoke, HandlePhase1Sent]
    split <;> exact ⟨rfl, rfl⟩
  | HandlePhase2Sent tsB =>
    simp only [invoke, HandlePhase2Sent]
    split <;> exact ⟨rfl, rfl⟩
  | HandlePhase3Sent tsA =>
    simp only [invoke, HandlePhase3Sent]
    split <;> exact ⟨rfl, rfl⟩
  | HandlePhase3Received tsB => exact HandlePhase3Received_keys env s ecode tsB
  | HandlePhase4Sent => exact HandlePhase4Sent_keys env now s ecode
  | HandlePhase4Received tsA => exact HandlePhase4Received_keys env now s ecode tsA
  | HandleReceived => exact HandleReceived_keys env s ecode n
  | HandleSent msg =>
    simp only [invoke, HandleSent]
    cases msg <;> (simp only []; split <;> exact ⟨rfl, rfl⟩)

/-! ## Mirrored contexts -/

theorem SendPhase2_contexts (env : Env) (now : Nat) (s : NTCPSession) :
    (SendPhase2 env now s).m_Encryption =
      (CBC.Encrypt env
        { key := slice (CreateAESKey env s s.m_Phase1.pubKey env.aesKeyStack).2 0 32,
          iv := slice (publicKey env env.routerIdentity) 240 16 }
        (writeAt (writeAt (slice s.m_Phase2.encrypted 0 48) 0
          (sha256 env (slice s.m_Phase1.pubKey 0 256 ++ publicKey env env.routerIdentity))) 32
          (htobe32 now))).2 ∧
    (SendPhase2 env now s).m_Phase2 =
      { pubKey := publicKey env env.routerIdentity,
        encrypted :=
          (CBC.Encrypt env
            { key := slice (CreateAESKey env s s.m_Phase1.pubKey env.aesKeyStack).2 0 32,
              iv := slice (publicKey env env.routerIdentity) 240 16 }
            (writeAt (writeAt (slice s.m_Phase2.encrypted 0 48) 0
              (sha256 env (slice s.m_Phase1.pubKey 0 256 ++ publicKey env env.routerIdentity))) 32
              (htobe32 now))).1 } ∧
    (SendPhase2 env now s).m_Decryption =
      { key := slice (CreateAESKey env s s.m_Phase1.pubKey env.aesKeyStack).2 0 32,
        iv := slice s.m_Phase1.HXxorHI 16 16 } :=
  ⟨rfl, rfl, rfl⟩

theorem phase2Plain_length (env : Env) (now : Nat) (s : NTCPSession) :
    (writeAt (writeAt (slice s.m_Phase2.encrypted 0 48) 0
      (sha256 env (slice s.m_Phase1.pubKey 0 256 ++ publicKey env env.routerIdentity))) 32
      (htobe32 now)).length = 48 := by
  rw [writeAt_length, writeAt_length, slice_length]
  · simp [sha256, slice_length]
  · rw [writeAt_length, slice_length]
    · simp [htobe32]
    · simp [sha256, slice_length]

/-- C19: an initiator `c` holding a Phase2 record and a responder `s`
holding a Phase1 record both derive the key `k`.  The initiator keys its
inbound context with `k` and the bytes 240 to 256 of the received `Y` (and
decrypts the 48 bytes with it) and its outbound context with `k` and the bytes
16 to 32 of `HXxorHI`; the responder keys its outbound context with `k` and the
bytes 240 to 256 of its `Y` (and encrypts the 48 bytes with it) and its inbound
context with `k` and the bytes 16 to 32 of the received `HXxorHI`.  When each
holds the record of the other, the outbound context of each side starts equal
to the inbound context of the other, and after the 48 bytes the inbound context
of the initiator equals the outbound context of the responder.  `Connected`
leaves the inbound context and the outbound key as they are, and no handler but
`HandlePhase1Received` and `HandlePhase2Received` changes a key. -/
theorem aes_context_mirroring (cenv senv : Env) (now : Nat) (c s : NTCPSession) (k : Bytes)
    (hkc : slice (CreateAESKey cenv c c.m_Phase2.pubKey cenv.aesKeyStack).2 0 32 = k)
    (hks : slice (CreateAESKey senv s s.m_Phase1.pubKey senv.aesKeyStack).2 0 32 = k) :
    ((decryptPhase2 cenv c).m_Decryption =
        (CBC.Decrypt cenv { key := k, iv := slice c.m_Phase2.pubKey 240 16 }
          (slice c.m_Phase2.encrypted 0 48)).2 ∧
      (decryptPhase2 cenv c).m_Encryption = { key := k, iv := slice c.m_Phase1.HXxorHI 16 16 }) ∧
    (∃ plain : Bytes, plain.length = 48 ∧
      (SendPhase2 senv now s).m_Encryption =
        (CBC.Encrypt senv { key := k, iv := slice (publicKey senv senv.routerIdentity) 240 16 }
          plain).2 ∧
      (SendPhase2 senv now s).m_Phase2 =
        { pubKey := publicKey senv senv.routerIdentity,
          encrypted :=
            (CBC.Encrypt senv
              { key := k, iv := slice (publicKey senv senv.routerIdentity) 240 16 } plain).1 } ∧
      (SendPhase2 senv now s).m_Decryption =
        { key := k, iv := slice s.m_Phase1.HXxorHI 16 16 }) ∧
    (c.m_Phase2.pubKey = publicKey senv senv.routerIdentity →
      s.m_Phase1.HXxorHI = c.m_Phase1.HXxorHI →
      ({ key := k, iv := slice c.m_Phase2.pubKey 240 16 } : CBC) =
        { key := k, iv := slice (publicKey senv senv.routerIdentity) 240 16 } ∧
      (decryptPhase2 cenv c).m_Encryption = (SendPhase2 senv now s).m_Decryption) ∧
    (senv.aesInverts → cenv.aesDecryptBlock = senv.aesDecryptBlock →
      c.m_Phase2 = (SendPhase2 senv now s).m_Phase2 →
      (decryptPhase2 cenv c).m_Decryption = (SendPhase2 senv now s).m_Encryption) ∧
    (∀ (env : Env) (t : NTCPSession) (now2 : Nat),
      (Connected env now2 t).m_Decryption = t.m_Decryption ∧
      (Connected env now2 t).m_Encryption.key = t.m_Encryption.key) ∧
    (∀ (env : Env) (t : NTCPSession) (now2 : Nat) (h : Handler) (ecode : Bool) (n : Nat),
      h ≠ Handler.HandlePhase1Received → h ≠ Handler.HandlePhase2Received →
      (invoke env now2 t h ecode n).m_Encryption.key = t.m_Encryption.key ∧
      (invoke env now2 t h ecode n).m_Decryption.key = t.m_Decryption.key) := by
  have hc1 : (decryptPhase2 cenv c).m_Decryption =
      (CBC.Decrypt cenv { key := k, iv := slice c.m_Phase2.pubKey 240 16 }
        (slice c.m_Phase2.encrypted 0 48)).2 := by
    rw [← hkc]; rfl
  have hc2 : (decryptPhase2 cenv c).m_Encryption =
      { key := k, iv := slice c.m_Phase1.HXxorHI 16 16 } := by
    rw [← hkc]; rfl
  obtain ⟨hs1, hs2, hs3⟩ := SendPhase2_contexts senv now s
  rw [hks] at hs1 hs2 hs3
  refine ⟨⟨hc1, hc2⟩, ⟨_, phase2Plain_length senv now s, hs1, hs2, hs3⟩, ?_, ?_, ?_, ?_⟩
  · intro hY hHX
    exact ⟨by rw [hY], by rw [hc2, hs3, hHX]⟩
  · intro haes hD hP
    have hpk : c.m_Phase2.pubKey = publicKey senv senv.routerIdentity := by rw [hP, hs2]
    have hen : c.m_Phase2.encrypted =
        (CBC.Encrypt senv { key := k, iv := slice (publicKey senv senv.routerIdentity) 240 16 }
          (writeAt (writeAt (slice s.m_Phase2.encrypted 0 48) 0
            (sha256 senv (slice s.m_Phase1.pubKey 0 256 ++ publicKey senv senv.routerIdentity)))
            32 (htobe32 now))).1 := by rw [hP, hs2]
    rw [hc1, hs1, hpk, hen, slice_full _ _ (by rw [Encrypt_length, phase2Plain_length]),
      Decrypt_congr cenv senv hD,
      Decrypt_Encrypt senv haes _ _ (by simp [slice_length])]
  · intro env t now2
    exact ⟨(Connected_contexts env now2 t).2, (Connected_contexts env now2 t).1⟩
  · intro env t now2 h ecode n h1 h2
    exact invoke_keys env now2 t h ecode n h1 h2

set_option maxRecDepth 100000 in
/-- The contexts of C19 on the Phase1 and Phase2 records of the example
handshake, with the key of 32 bytes 10. -/
theorem aes_context_mirroring_witness :
    slice (CreateAESKey exampleEnv exampleClientPhase2 exampleClientPhase2.m_Phase2.pubKey
      exampleEnv.aesKeyStack).2 0 32 = List.replicate 32 10 ∧
    slice (CreateAESKey exampleEnv exampleServerPhase1 exampleServerPhase1.m_Phase1.pubKey
      exampleEnv.aesKeyStack).2 0 32 = List.replicate 32 10 ∧
    (decryptPhase2 exampleEnv exampleClientPhase2).m_Decryption =
      (SendPhase2 exampleEnv 10 exampleServerPhase1).m_Encryption ∧
    (decryptPhase2 exampleEnv exampleClientPhase2).m_Encryption =
      (SendPhase2 exampleEnv 10 exampleServerPhase1).m_Decryption :=
  ⟨by decide, by decide,
    (aes_context_mirroring exampleEnv exampleEnv 10 exampleClientPhase2 exampleServerPhase1
      (List.replicate 32 10) (by decide) (by decide)).2.2.2.1 exampleEnv_aesInverts rfl
      (by decide),
    ((aes_context_mirroring exampleEnv exampleEnv 10 exampleClientPhase2 exampleServerPhase1
      (List.replicate 32 10) (by decide) (by decide)).2.2.1 (by decide) (by decide)).2⟩

/-! ## NTCP2: the derived key and the session request -/

theorem slice_front (a b : Bytes) (n : Nat) (h : a.length = n) : slice (a ++ b) 0 n = a := by
  subst h
  rw [slice_append_left a b 0 a.length (by omega)]
  exact slice_full a _ rfl

theorem hmacSha256_length (env : NTCP2Env) (key data : Bytes) :
    (hmacSha256 env key data).length = 32 := slice_length _ _ _

theorem protocolName_slice : slice protocolName 0 32 = protocolName := by decide

theorem protocolName_key :
    slice (writeAt (List.replicate 33 0) 0 (slice protocolName 0 32)) 0 32 = protocolName := by
  decide

theorem chainingKey_final (hm : Bytes) (h : hm.length = 32) :
    slice (writeAt (writeAt (writeAt (List.replicate 33 0) 0 (slice protocolName 0 32)) 0 hm)
      32 [2]) 0 33 = hm ++ [2] := by
  have h1 : writeAt (List.replicate 33 0) 0 (slice protocolName 0 32) = protocolName ++ [0] := by
    decide
  rw [h1, writeAt_zero, h]
  have h2 : List.drop 32 (protocolName ++ [0]) = [0] := by decide
  rw [h2]
  have h3 : writeAt (hm ++ [0]) 32 [2] = hm ++ [2] := by
    unfold writeAt
    rw [List.take_left' h, List.drop_eq_nil_of_le (by simp [h])]
    simp
  rw [h3]
  exact slice_full _ _ (by simp [h])

theorem firstByte_one (ikm : Bytes) : slice (writeAt ikm 0 [1]) 0 1 = [1] := by
  rw [writeAt_zero]
  exact slice_front [1] _ 1 rfl

/-- C14: for every remote static key `rs`, every expanded private key of the
session and every `pub`, `KeyDerivationFunction` returns `true` and
`derived = HMAC-SHA256 (tempKey, ck ++ [2])`, where
`tempKey = HMAC-SHA256 (protocolName, Mul (rs, priv))`,
`ck = HMAC-SHA256 (tempKey, [1])`, and `protocolName` is the 32 character codes
of `Noise_XK_25519_ChaChaPoly_SHA256`. -/
theorem keyDerivation_noise_xk (env : NTCP2Env) (s : NTCP2Session) (rs pub : Bytes) :
    (KeyDerivationFunction env s rs pub).result = true ∧
    (KeyDerivationFunction env s rs pub).derived =
      hmacSha256 env
        (hmacSha256 env protocolName (slice (env.Mul rs s.m_ExpandedPrivateKey) 0 32))
        (hmacSha256 env
          (hmacSha256 env protocolName (slice (env.Mul rs s.m_ExpandedPrivateKey) 0 32)) [1]
          ++ [2]) ∧
    protocolName = [78, 111, 105, 115, 101, 95, 88, 75, 95, 50, 53, 53, 49, 57, 95, 67, 104, 97,
      67, 104, 97, 80, 111, 108, 121, 95, 83, 72, 65, 50, 53, 54] := by
  refine ⟨rfl, ?_, by decide⟩
  have hk : ∀ d, hmacSha256 env (writeAt (List.replicate 33 0) 0 (slice protocolName 0 32)) d =
      hmacSha256 env protocolName d := by
    intro d
    unfold hmacSha256
    rw [protocolName_key, protocolName_slice]
  have hi : slice (slice (env.Mul rs s.m_ExpandedPrivateKey) 0 32) 0 32 =
      slice (env.Mul rs s.m_ExpandedPrivateKey) 0 32 := slice_full _ _ (slice_length _ _ _)
  show hmacSha256 env _ _ = _
  rw [hk, hi, firstByte_one, chainingKey_final _ (hmacSha256_length _ _ _)]

theorem sessionRequestOptions_eq (rand now : Nat) :
    sessionRequestOptions rand now =
      htobe16 2 ++ htobe16 (rand % 223) ++ htobe16 0 ++ [0, 0] ++ htobe32 now ++ [0, 0, 0, 0]
        ++ List.replicate 16 0 := by
  simp [sessionRequestOptions, sessionRequestPaddingLength, writeAt, htobe16, htobe32]

theorem writeAt_within (a b d : Bytes) (n : Nat) (ha : a.length = n) :
    writeAt (a ++ b) n d = a ++ d ++ b.drop d.length := by
  subst ha
  unfold writeAt
  rw [List.take_left, List.drop_append]

theorem sessionRequestBuffer_eq (x o p : Bytes) (n : Nat) (hx : x.length = 32)
    (ho : o.length = 32) (hp : p.length = n) :
    writeAt (writeAt (writeAt (List.replicate (n + 64) 0) 0 x) 32 o) 64 p = x ++ o ++ p := by
  rw [writeAt_zero, writeAt_within x _ o 32 hx,
    writeAt_within (x ++ o) _ p 64 (by simp [hx, ho])]
  simp [hx, ho, hp]

theorem optionsPlain_length (rand now : Nat) :
    (htobe16 2 ++ htobe16 (rand % 223) ++ htobe16 0 ++ [0, 0] ++ htobe32 now
      ++ [0, 0, 0, 0]).length = 16 := by
  simp [htobe16, htobe32]

theorem cbcEncryption_length (env : NTCP2Env) (key iv data : Bytes) (h : data.length = 32) :
    (cbcEncryption env key iv 2 data).length = 32 := by
  unfold cbcEncryption
  rw [cbcEncryptBlocks_length _ _ (fun _ _ => slice_length _ _ _) 2 _ _ (by omega), h]

theorem sessionRequestOptions_signed (rand now : Nat) (mac c : Bytes) (hm : mac.length = 16)
    (hc : c.length = 16) :
    slice (sessionRequestOptions rand now) 0 16 =
      htobe16 2 ++ htobe16 (rand % 223) ++ htobe16 0 ++ [0, 0] ++ htobe32 now ++ [0, 0, 0, 0] ∧
    slice (writeAt (sessionRequestOptions rand now) 16 mac) 0 16 =
      htobe16 2 ++ htobe16 (rand % 223) ++ htobe16 0 ++ [0, 0] ++ htobe32 now ++ [0, 0, 0, 0] ∧
    slice (writeAt (writeAt (sessionRequestOptions rand now) 16 mac) 0 c) 0 32 = c ++ mac := by
  have hl := optionsPlain_length rand now
  rw [sessionRequestOptions_eq, writeAt_within _ _ mac 16 hl]
  have hd : List.drop mac.length (List.replicate 16 0) = [] := by
    rw [hm]; rfl
  rw [hd, List.append_nil]
  refine ⟨slice_front _ _ 16 hl, slice_front _ _ 16 hl, ?_⟩
  rw [writeAt_zero, hc, List.drop_left' hl]
  exact slice_full _ _ (by simp [hm, hc])

theorem sessionRequestBuffer_written (env : NTCP2Env) (s : NTCP2Session) (key : Bytes)
    (rand now : Nat) (padding : Bytes) :
    (SendSessionRequest env s key rand now padding).written = s.written ++
      [cbcEncryption env s.remoteIdentHash s.m_RemoteIV 2 (CreateEphemeralKey env s key).2
        ++ (slice (env.chacha20
            (KeyDerivationFunction env (CreateEphemeralKey env s key).1 s.m_RemoteStaticKey
              (cbcEncryption env s.remoteIdentHash s.m_RemoteIV 2
                (CreateEphemeralKey env s key).2)).derived 0
            (htobe16 2 ++ htobe16 (rand % 223) ++ htobe16 0 ++ [0, 0] ++ htobe32 now
              ++ [0, 0, 0, 0])) 0 16
        ++ slice (env.Poly1305HMAC
            (KeyDerivationFunction env (CreateEphemeralKey env s key).1 s.m_RemoteStaticKey
              (cbcEncryption env s.remoteIdentHash s.m_RemoteIV 2
                (CreateEphemeralKey env s key).2)).derived
            (htobe16 2 ++ htobe16 (rand % 223) ++ htobe16 0 ++ [0, 0] ++ htobe32 now
              ++ [0, 0, 0, 0])) 0 16)
        ++ slice padding 0 (rand % 223)] := by
  have hpub : (CreateEphemeralKey env s key).2.length = 32 := slice_length _ _ _
  have hx := cbcEncryption_length env s.remoteIdentHash s.m_RemoteIV _ hpub
  have hkey : (CreateEphemeralKey env s key).1.m_RemoteStaticKey = s.m_RemoteStaticKey := rfl
  have hw : (CreateEphemeralKey env s key).1.written = s.written := rfl
  unfold SendSessionRequest
  simp only [hkey, hw]
  generalize (KeyDerivationFunction env (CreateEphemeralKey env s key).1 s.m_RemoteStaticKey
    (cbcEncryption env s.remoteIdentHash s.m_RemoteIV 2 (CreateEphemeralKey env s key).2)).derived
    = k
  have h := sessionRequestOptions_signed rand now
    (slice (env.Poly1305HMAC k (slice (sessionRequestOptions rand now) 0 16)) 0 16)
    (slice (env.chacha20 k 0 (slice (writeAt (sessionRequestOptions rand now) 16
      (slice (env.Poly1305HMAC k (slice (sessionRequestOptions rand now) 0 16)) 0 16)) 0 16)) 0 16)
    (slice_length _ _ _) (slice_length _ _ _)
  rw [h.2.2, h.2.1, h.1, slice_full _ 32 hx]
  have hp : sessionRequestPaddingLength rand = rand % 223 := rfl
  rw [hp, sessionRequestBuffer_eq _ _ _ _ hx (by simp [slice_length]) (slice_length _ _ _)]

theorem sessionRequestBuffer_slices (x c mac p : Bytes) (hx : x.length = 32)
    (hc : c.length = 16) (hm : mac.length = 16) :
    slice (x ++ (c ++ mac) ++ p) 0 32 = x ∧
    slice (x ++ (c ++ mac) ++ p) 32 16 = c ∧
    slice (x ++ (c ++ mac) ++ p) 48 16 = mac ∧
    slice (x ++ (c ++ mac) ++ p) 64 p.length = p := by
  refine ⟨?_, ?_, ?_, ?_⟩
  · rw [List.append_assoc]
    exact slice_front _ _ 32 hx
  · have h := slice_append_right x (c ++ (mac ++ p)) 0 16
    rw [hx] at h
    rw [List.append_assoc, List.append_assoc, h]
    exact slice_front _ _ 16 hc
  · have h := slice_append_right (x ++ c) (mac ++ p) 0 16
    rw [List.length_append, hx, hc] at h
    have e : x ++ (c ++ mac) ++ p = (x ++ c) ++ (mac ++ p) := by simp
    rw [e, h]
    exact slice_front _ _ 16 hm
  · have h := slice_append_right (x ++ (c ++ mac)) p 0 p.length
    rw [List.length_append, List.length_append, hx, hc, hm] at h
    rw [h]
    exact slice_full _ _ rfl

/-- C15: for every value `rand` of `rand ()` and every timestamp `now`, the 16
option bytes `SendSessionRequest` builds are
`be16 2 ++ be16 padLen ++ be16 0 ++ [0, 0] ++ be32 now ++ [0, 0, 0, 0]` with
`padLen = rand % 223`, which is at most 222, and the one buffer written to the
socket has exactly `64 + padLen` bytes, at most 286.  These option bytes are
the ones that go into the buffer: its bytes 32 to 47 are their ChaCha20
encryption and its bytes 48 to 63 the Poly1305 tag over them, both with the
derived key. -/
theorem sessionRequest_options_and_length (env : NTCP2Env) (s : NTCP2Session) (key : Bytes)
    (rand now : Nat) (padding : Bytes) :
    slice (sessionRequestOptions rand now) 0 16 =
      htobe16 2 ++ htobe16 (sessionRequestPaddingLength rand) ++ htobe16 0 ++ [0, 0]
        ++ htobe32 now ++ [0, 0, 0, 0] ∧
    sessionRequestPaddingLength rand = rand % 223 ∧
    sessionRequestPaddingLength rand ≤ 222 ∧
    ∃ b, (SendSessionRequest env s key rand now padding).written = s.written ++ [b] ∧
      b.length = 64 + sessionRequestPaddingLength rand ∧ b.length ≤ 286 ∧
      slice b 32 16 =
        slice (env.chacha20
          (KeyDerivationFunction env (CreateEphemeralKey env s key).1 s.m_RemoteStaticKey
            (cbcEncryption env s.remoteIdentHash s.m_RemoteIV 2
              (CreateEphemeralKey env s key).2)).derived 0
          (htobe16 2 ++ htobe16 (sessionRequestPaddingLength rand) ++ htobe16 0 ++ [0, 0]
            ++ htobe32 now ++ [0, 0, 0, 0])) 0 16 ∧
      slice b 48 16 =
        slice (env.Poly1305HMAC
          (KeyDerivationFunction env (CreateEphemeralKey env s key).1 s.m_RemoteStaticKey
            (cbcEncryption env s.remoteIdentHash s.m_RemoteIV 2
              (CreateEphemeralKey env s key).2)).derived
          (htobe16 2 ++ htobe16 (sessionRequestPaddingLength rand) ++ htobe16 0 ++ [0, 0]
            ++ htobe32 now ++ [0, 0, 0, 0])) 0 16 := by
  have hp : sessionRequestPaddingLength rand = rand % 223 := rfl
  have hlt : rand % 223 < 223 := Nat.mod_lt _ (by omega)
  have hpub : (CreateEphemeralKey env s key).2.length = 32 := slice_length _ _ _
  have hx := cbcEncryption_length env s.remoteIdentHash s.m_RemoteIV _ hpub
  obtain ⟨_, h32, h48, _⟩ := sessionRequestBuffer_slices
    (cbcEncryption env s.remoteIdentHash s.m_RemoteIV 2 (CreateEphemeralKey env s key).2)
    (slice (env.chacha20
      (KeyDerivationFunction env (CreateEphemeralKey env s key).1 s.m_RemoteStaticKey
        (cbcEncryption env s.remoteIdentHash s.m_RemoteIV 2
          (CreateEphemeralKey env s key).2)).derived 0
      (htobe16 2 ++ htobe16 (rand % 223) ++ htobe16 0 ++ [0, 0] ++ htobe32 now
        ++ [0, 0, 0, 0])) 0 16)
    (slice (env.Poly1305HMAC
      (KeyDerivationFunction env (CreateEphemeralKey env s key).1 s.m_RemoteStaticKey
        (cbcEncryption env s.remoteIdentHash s.m_RemoteIV 2
          (CreateEphemeralKey env s key).2)).derived
      (htobe16 2 ++ htobe16 (rand % 223) ++ htobe16 0 ++ [0, 0] ++ htobe32 now
        ++ [0, 0, 0, 0])) 0 16)
    (slice padding 0 (rand % 223)) hx (slice_length _ _ _) (slice_length _ _ _)
  refine ⟨?_, hp, by omega, _, sessionRequestBuffer_written env s key rand now padding, ?_, ?_,
    ?_, ?_⟩
  · rw [hp]
    exact (sessionRequestOptions_signed rand now (List.replicate 16 0) (List.replicate 16 0)
      (by simp) (by simp)).1
  · rw [hp]
    simp only [List.length_append, hx, slice_length]
  · simp only [List.length_append, hx, slice_length]
    omega
  · rw [hp]
    exact h32
  · rw [hp]
    exact h48

/-- C16: the buffer `SendSessionRequest` writes is `X_enc ++ options ++ random`:
`X_enc` (32 bytes) is the CBC encryption, under the remote identity hash and
the remote IV, of the 32-byte ephemeral public key; the next 16 bytes are the
ChaCha20 encryption with key `k` and nonce 0 of the 16 plain option bytes; the
next 16 bytes are the Poly1305 tag computed with `k` over the 16 plain option
bytes, as it was before the encryption; then come `padLen` random bytes.  Here
`k` is the key derived from the remote static key and `X_enc`. -/
theorem sessionRequest_record_layout (env : NTCP2Env) (s : NTCP2Session) (key : Bytes)
    (rand now : Nat) (padding : Bytes) :
    (SendSessionRequest env s key rand now padding).written = s.written ++
      [cbcEncryption env s.remoteIdentHash s.m_RemoteIV 2 (CreateEphemeralKey env s key).2
        ++ slice (env.chacha20
            (KeyDerivationFunction env (CreateEphemeralKey env s key).1 s.m_RemoteStaticKey
              (cbcEncryption env s.remoteIdentHash s.m_RemoteIV 2
                (CreateEphemeralKey env s key).2)).derived 0
            (htobe16 2 ++ htobe16 (rand % 223) ++ htobe16 0 ++ [0, 0] ++ htobe32 now
              ++ [0, 0, 0, 0])) 0 16
        ++ slice (env.Poly1305HMAC
            (KeyDerivationFunction env (CreateEphemeralKey env s key).1 s.m_RemoteStaticKey
              (cbcEncryption env s.remoteIdentHash s.m_RemoteIV 2
                (CreateEphemeralKey env s key).2)).derived
            (htobe16 2 ++ htobe16 (rand % 223) ++ htobe16 0 ++ [0, 0] ++ htobe32 now
              ++ [0, 0, 0, 0])) 0 16
        ++ slice padding 0 (rand % 223)] ∧
    (cbcEncryption env s.remoteIdentHash s.m_RemoteIV 2 (CreateEphemeralKey env s key).2).length
      = 32 ∧
    (CreateEphemeralKey env s key).2.length = 32 := by
  have hpub : (CreateEphemeralKey env s key).2.length = 32 := slice_length _ _ _
  have hx := cbcEncryption_length env s.remoteIdentHash s.m_RemoteIV _ hpub
  refine ⟨?_, hx, hpub⟩
  have hkey : (CreateEphemeralKey env s key).1.m_RemoteStaticKey = s.m_RemoteStaticKey := rfl
  have hw : (CreateEphemeralKey env s key).1.written = s.written := rfl
  unfold SendSessionRequest
  simp only [hkey, hw]
  generalize (KeyDerivationFunction env (CreateEphemeralKey env s key).1 s.m_RemoteStaticKey
    (cbcEncryption env s.remoteIdentHash s.m_RemoteIV 2 (CreateEphemeralKey env s key).2)).derived
    = k
  have h := sessionRequestOptions_signed rand now
    (slice (env.Poly1305HMAC k (slice (sessionRequestOptions rand now) 0 16)) 0 16)
    (slice (env.chacha20 k 0 (slice (writeAt (sessionRequestOptions rand now) 16
      (slice (env.Poly1305HMAC k (slice (sessionRequestOptions rand now) 0 16)) 0 16)) 0 16)) 0 16)
    (slice_length _ _ _) (slice_length _ _ _)
  rw [h.2.2, h.2.1, h.1, slice_full _ 32 hx]
  have hp : sessionRequestPaddingLength rand = rand % 223 := rfl
  rw [hp, sessionRequestBuffer_eq _ _ _ _ hx (by simp [slice_length]) (slice_length _ _ _)]
  simp

/-! ## Reads of the record layer -/

theorem DecryptNextBlock_buffer (env : Env) (s : NTCPSession) (x b : Bytes) (o : Nat)
    (p : List Handler) :
    DecryptNextBlock env (s.withReceive b o p) x = (DecryptNextBlock env s x).withReceive b o p := by
  unfold DecryptNextBlock completeMessage NTCPSession.withReceive
  cases hm : s.m_NextMessage <;> simp only [hm] <;> (repeat' split) <;>
    rfl

theorem decryptAll_buffer (env : Env) (bs : List Bytes) :
    ∀ (s : NTCPSession) (b : Bytes) (o : Nat) (p : List Handler),
      decryptAll env (s.withReceive b o p) bs = (decryptAll env s bs).withReceive b o p := by
  induction bs with
  | nil => intro s b o p; rfl
  | cons x xs ih =>
    intro s b o p
    rw [decryptAll_cons, decryptAll_cons, DecryptNextBlock_buffer, ih]

theorem withReceive_withReceive (s : NTCPSession) (b b2 : Bytes) (o o2 : Nat)
    (p p2 : List Handler) :
    (s.withReceive b o p).withReceive b2 o2 p2 = s.withReceive b2 o2 p2 := rfl

theorem withReceive_self (s : NTCPSession) :
    s.withReceive s.m_ReceiveBuffer s.m_ReceiveBufferOffset s.pending = s := rfl

theorem decryptAll_append (env : Env) (s : NTCPSession) (a b : List Bytes) :
    decryptAll env s (a ++ b) = decryptAll env (decryptAll env s a) b := by
  simp [decryptAll, List.foldl_append]

theorem blocksOf_add (a b : Nat) : ∀ data : Bytes,
    blocksOf (a + b) data = blocksOf a data ++ blocksOf b (data.drop (16 * a)) := by
  induction a with
  | zero => intro data; simp [blocksOf]
  | succ a ih =>
    intro data
    have : a + 1 + b = (a + b) + 1 := by omega
    rw [this]
    simp only [blocksOf, ih, List.cons_append, List.drop_drop, Nat.mul_succ]
    rw [Nat.add_comm 16 (16 * a)]

theorem blocksOf_front (k : Nat) : ∀ (x rest : Bytes), 16 * k ≤ x.length →
    blocksOf k (x ++ rest) = blocksOf k x := by
  induction k with
  | zero => intro x rest _; rfl
  | succ k ih =>
    intro x rest h
    simp only [blocksOf]
    rw [List.take_append_of_le_length (by omega), List.drop_append_of_le_length (by omega),
      ih _ _ (by simp; omega)]

theorem decryptBlocks_eq (env : Env) :
    ∀ (fuel : Nat) (s : NTCPSession) (pos : Nat),
      s.m_ReceiveBufferOffset / 16 ≤ fuel →
      pos + s.m_ReceiveBufferOffset ≤ s.m_ReceiveBuffer.length →
      decryptBlocks env fuel s pos =
        ((decryptAll env s
              (blocksOf (s.m_ReceiveBufferOffset / 16) (s.m_ReceiveBuffer.drop pos))).withReceive
            s.m_ReceiveBuffer (s.m_ReceiveBufferOffset % 16) s.pending,
          pos + 16 * (s.m_ReceiveBufferOffset / 16)) := by
  intro fuel
  induction fuel with
  | zero =>
    intro s pos hf hb
    have h0 : s.m_ReceiveBufferOffset / 16 = 0 := by omega
    have h1 : s.m_ReceiveBufferOffset % 16 = s.m_ReceiveBufferOffset := by omega
    rw [h0, h1]
    rfl
  | succ n ih =>
    intro s pos hf hb
    unfold decryptBlocks
    by_cases h : s.m_ReceiveBufferOffset ≥ 16
    · rw [if_pos h]
      obtain ⟨_, _, g3, g4⟩ := DecryptNextBlock_contexts env s (slice s.m_ReceiveBuffer pos 16)
      have g5 := (DecryptNextBlock_fields env s (slice s.m_ReceiveBuffer pos 16)).2.2.2.2
      have hq : s.m_ReceiveBufferOffset / 16 = (s.m_ReceiveBufferOffset - 16) / 16 + 1 := by omega
      have hs : slice s.m_ReceiveBuffer pos 16 = (s.m_ReceiveBuffer.drop pos).take 16 := by
        rw [slice_take_drop _ _ _ (by omega)]
      have hb2 : blocksOf (s.m_ReceiveBufferOffset / 16) (s.m_ReceiveBuffer.drop pos) =
          slice s.m_ReceiveBuffer pos 16 ::
            blocksOf ((s.m_ReceiveBufferOffset - 16) / 16) (s.m_ReceiveBuffer.drop (pos + 16)) := by
        rw [hq, hs]
        simp only [blocksOf, List.drop_drop]
      have hm : (s.m_ReceiveBufferOffset - 16) % 16 = s.m_ReceiveBufferOffset % 16 := by omega
      rw [hb2, decryptAll_cons]
      generalize DecryptNextBlock env s (slice s.m_ReceiveBuffer pos 16) = s1 at g3 g4 g5 ⊢
      show decryptBlocks env n
        (s1.withReceive s1.m_ReceiveBuffer (s1.m_ReceiveBufferOffset - 16) s1.pending) (pos + 16)
        = _
      rw [g3, g4, g5, ih _ _ (by show (s.m_ReceiveBufferOffset - 16) / 16 ≤ n; omega)
        (by show pos + 16 + (s.m_ReceiveBufferOffset - 16) ≤ s.m_ReceiveBuffer.length; omega)]
      show ((decryptAll env (s1.withReceive _ _ _)
        (blocksOf ((s.m_ReceiveBufferOffset - 16) / 16)
          (s.m_ReceiveBuffer.drop (pos + 16)))).withReceive s.m_ReceiveBuffer
            ((s.m_ReceiveBufferOffset - 16) % 16) s.pending,
          pos + 16 + 16 * ((s.m_ReceiveBufferOffset - 16) / 16)) = _
      rw [decryptAll_buffer, withReceive_withReceive, hm]
      congr 1
      omega
    · rw [if_neg h]
      have h0 : s.m_ReceiveBufferOffset / 16 = 0 := by omega
      have h1 : s.m_ReceiveBufferOffset % 16 = s.m_ReceiveBufferOffset := by omega
      rw [h0, h1]
      rfl

theorem decryptAll_receive (env : Env) (bs : List Bytes) :
    ∀ s : NTCPSession,
      (decryptAll env s bs).m_ReceiveBuffer = s.m_ReceiveBuffer ∧
      (decryptAll env s bs).m_ReceiveBufferOffset = s.m_ReceiveBufferOffset := by
  induction bs with
  | nil => intro s; exact ⟨rfl, rfl⟩
  | cons b bs ih =>
    intro s
    rw [decryptAll_cons]
    obtain ⟨h1, h2⟩ := ih (DecryptNextBlock env s b)
    obtain ⟨_, _, g3, g4⟩ := DecryptNextBlock_contexts env s b
    exact ⟨h1.trans g3, h2.trans g4⟩

theorem HandleReceived_eq (env : Env) (s : NTCPSession) (k : Nat)
    (hfit : s.m_ReceiveBufferOffset + k ≤ s.m_ReceiveBuffer.length) :
    HandleReceived env s false k =
      (decryptAll env s
          (blocksOf ((s.m_ReceiveBufferOffset + k) / 16) s.m_ReceiveBuffer)).withReceive
        (if (s.m_ReceiveBufferOffset + k) ≥ 16 ∧ (s.m_ReceiveBufferOffset + k) % 16 > 0 then
          writeAt s.m_ReceiveBuffer 0
            (slice s.m_ReceiveBuffer (16 * ((s.m_ReceiveBufferOffset + k) / 16))
              ((s.m_ReceiveBufferOffset + k) % 16))
          else s.m_ReceiveBuffer)
        ((s.m_ReceiveBufferOffset + k) % 16) (s.pending ++ [Handler.HandleReceived]) := by
  unfold HandleReceived
  rw [if_neg (by simp)]
  show Receive (if (s.m_ReceiveBufferOffset + k) ≥ 16 then
      (if (decryptBlocks env (s.m_ReceiveBufferOffset + k)
            (s.withReceive s.m_ReceiveBuffer (s.m_ReceiveBufferOffset + k) s.pending)
            0).1.m_ReceiveBufferOffset > 0 then
        (decryptBlocks env (s.m_ReceiveBufferOffset + k)
            (s.withReceive s.m_ReceiveBuffer (s.m_ReceiveBufferOffset + k) s.pending) 0).1.withReceive
          (writeAt (decryptBlocks env (s.m_ReceiveBufferOffset + k)
              (s.withReceive s.m_ReceiveBuffer (s.m_ReceiveBufferOffset + k) s.pending)
              0).1.m_ReceiveBuffer 0
            (slice (decryptBlocks env (s.m_ReceiveBufferOffset + k)
              (s.withReceive s.m_ReceiveBuffer (s.m_ReceiveBufferOffset + k) s.pending)
              0).1.m_ReceiveBuffer
              (decryptBlocks env (s.m_ReceiveBufferOffset + k)
              (s.withReceive s.m_ReceiveBuffer (s.m_ReceiveBufferOffset + k) s.pending) 0).2
              (decryptBlocks env (s.m_ReceiveBufferOffset + k)
              (s.withReceive s.m_ReceiveBuffer (s.m_ReceiveBufferOffset + k) s.pending)
              0).1.m_ReceiveBufferOffset))
          (decryptBlocks env (s.m_ReceiveBufferOffset + k)
              (s.withReceive s.m_ReceiveBuffer (s.m_ReceiveBufferOffset + k) s.pending)
              0).1.m_ReceiveBufferOffset
          (decryptBlocks env (s.m_ReceiveBufferOffset + k)
              (s.withReceive s.m_ReceiveBuffer (s.m_ReceiveBufferOffset + k) s.pending)
              0).1.pending
      else (decryptBlocks env (s.m_ReceiveBufferOffset + k)
            (s.withReceive s.m_ReceiveBuffer (s.m_ReceiveBufferOffset + k) s.pending) 0).1)
     else s.withReceive s.m_ReceiveBuffer (s.m_ReceiveBufferOffset + k) s.pending) = _
  generalize s.m_ReceiveBufferOffset + k = n at hfit ⊢
  have hR : ∀ (t : NTCPSession) (b : Bytes) (o : Nat) (p : List Handler),
      Receive (t.withReceive b o p) = t.withReceive b o (p ++ [Handler.HandleReceived]) :=
    fun _ _ _ _ => rfl
  have hdb := decryptBlocks_eq env n (s.withReceive s.m_ReceiveBuffer n s.pending) 0
    (by show n / 16 ≤ n; omega) (by show 0 + n ≤ s.m_ReceiveBuffer.length; omega)
  have hdb2 : decryptBlocks env n (s.withReceive s.m_ReceiveBuffer n s.pending) 0 =
      ((decryptAll env s (blocksOf (n / 16) s.m_ReceiveBuffer)).withReceive s.m_ReceiveBuffer
        (n % 16) s.pending, 16 * (n / 16)) := by
    rw [hdb]
    show ((decryptAll env (s.withReceive s.m_ReceiveBuffer n s.pending)
      (blocksOf (n / 16) (List.drop 0 s.m_ReceiveBuffer))).withReceive s.m_ReceiveBuffer (n % 16)
      s.pending, 0 + 16 * (n / 16)) = _
    rw [decryptAll_buffer, withReceive_withReceive, List.drop_zero, Nat.zero_add]
  rw [hdb2]
  by_cases h16 : n ≥ 16
  · rw [if_pos h16]
    by_cases hr : n % 16 > 0
    · have : ((decryptAll env s (blocksOf (n / 16) s.m_ReceiveBuffer)).withReceive
          s.m_ReceiveBuffer (n % 16) s.pending).m_ReceiveBufferOffset > 0 := hr
      rw [if_pos (by exact this), if_pos ⟨h16, hr⟩]
      exact hR _ _ _ _
    · have : ¬ ((decryptAll env s (blocksOf (n / 16) s.m_ReceiveBuffer)).withReceive
          s.m_ReceiveBuffer (n % 16) s.pending).m_ReceiveBufferOffset > 0 := hr
      rw [if_neg (by exact this), if_neg (fun h => hr h.2)]
      exact hR _ _ _ _
  · rw [if_neg h16, if_neg (fun h => h16 h.1)]
    have h0 : n / 16 = 0 := by omega
    have h1 : n % 16 = n := by omega
    rw [h0, h1]
    exact hR _ _ _ _

theorem read_step (env : Env) (s : NTCPSession) (c : Bytes) (now : Nat)
    (hd : s.destroyed = false) (hp : Handler.HandleReceived ∈ s.pending)
    (hfit : s.m_ReceiveBufferOffset + c.length ≤ s.m_ReceiveBuffer.length) :
    ∃ (b : Bytes) (p : List Handler),
      step env s (Event.complete Handler.HandleReceived false c now) =
        (decryptAll env s
          (blocksOf ((s.m_ReceiveBufferOffset + c.length) / 16)
            (s.m_ReceiveBuffer.take s.m_ReceiveBufferOffset ++ c))).withReceive b
          ((s.m_ReceiveBufferOffset + c.length) % 16) p ∧
      b.take ((s.m_ReceiveBufferOffset + c.length) % 16) =
        (s.m_ReceiveBuffer.take s.m_ReceiveBufferOffset ++ c).drop
          (16 * ((s.m_ReceiveBufferOffset + c.length) / 16)) ∧
      b.length = s.m_ReceiveBuffer.length ∧ Handler.HandleReceived ∈ p := by
  have hL : (s.m_ReceiveBuffer.take s.m_ReceiveBufferOffset).length = s.m_ReceiveBufferOffset := by
    rw [List.length_take]; omega
  have hX : (s.m_ReceiveBuffer.take s.m_ReceiveBufferOffset ++ c).length =
      s.m_ReceiveBufferOffset + c.length := by rw [List.length_append, hL]
  have hbuf : writeAt s.m_ReceiveBuffer s.m_ReceiveBufferOffset c =
      (s.m_ReceiveBuffer.take s.m_ReceiveBufferOffset ++ c) ++
        s.m_ReceiveBuffer.drop (s.m_ReceiveBufferOffset + c.length) := rfl
  have hlen : (writeAt s.m_ReceiveBuffer s.m_ReceiveBufferOffset c).length =
      s.m_ReceiveBuffer.length := writeAt_length _ _ _ hfit
  rw [step_complete env s _ _ _ _ hd hp]
  show ∃ b p, HandleReceived env
      (s.withReceive (writeAt s.m_ReceiveBuffer s.m_ReceiveBufferOffset c) s.m_ReceiveBufferOffset
        (s.pending.erase Handler.HandleReceived)) false c.length = _ ∧ _
  rw [HandleReceived_eq env _ _ (by
    show s.m_ReceiveBufferOffset + c.length ≤
      (writeAt s.m_ReceiveBuffer s.m_ReceiveBufferOffset c).length
    rw [hlen]; exact hfit)]
  show ∃ b p, (decryptAll env (s.withReceive _ _ _)
      (blocksOf ((s.m_ReceiveBufferOffset + c.length) / 16)
        (writeAt s.m_ReceiveBuffer s.m_ReceiveBufferOffset c))).withReceive
      (if (s.m_ReceiveBufferOffset + c.length) ≥ 16 ∧ (s.m_ReceiveBufferOffset + c.length) % 16 > 0
        then writeAt (writeAt s.m_ReceiveBuffer s.m_ReceiveBufferOffset c) 0
          (slice (writeAt s.m_ReceiveBuffer s.m_ReceiveBufferOffset c)
            (16 * ((s.m_ReceiveBufferOffset + c.length) / 16))
            ((s.m_ReceiveBufferOffset + c.length) % 16))
        else writeAt s.m_ReceiveBuffer s.m_ReceiveBufferOffset c)
      ((s.m_ReceiveBufferOffset + c.length) % 16)
      (s.pending.erase Handler.HandleReceived ++ [Handler.HandleReceived]) = _ ∧ _
  have hbl : blocksOf ((s.m_ReceiveBufferOffset + c.length) / 16)
      (writeAt s.m_ReceiveBuffer s.m_ReceiveBufferOffset c) =
      blocksOf ((s.m_ReceiveBufferOffset + c.length) / 16)
        (s.m_ReceiveBuffer.take s.m_ReceiveBufferOffset ++ c) := by
    rw [hbuf, blocksOf_front _ _ _ (by rw [hX]; omega)]
  rw [decryptAll_buffer, withReceive_withReceive, hbl]
  refine ⟨_, _, rfl, ?_, ?_, by simp⟩
  · generalize hn : s.m_ReceiveBufferOffset + c.length = n at *
    generalize hx : List.take s.m_ReceiveBufferOffset s.m_ReceiveBuffer ++ c = X at *
    rw [hbuf]
    by_cases h : n ≥ 16 ∧ n % 16 > 0
    · rw [if_pos h, writeAt_zero, List.take_left' (slice_length _ _ _),
        slice_append_left _ _ _ _ (by omega), slice_take_drop _ _ _ (by omega)]
      exact List.take_of_length_le (by rw [List.length_drop]; omega)
    · rw [if_neg h]
      by_cases h16 : n ≥ 16
      · have h0 : n % 16 = 0 := by omega
        rw [h0, List.take_zero]
        exact (List.drop_eq_nil_of_le (by omega)).symm
      · have h0 : n / 16 = 0 := by omega
        have h1 : n % 16 = n := by omega
        rw [h0, h1, List.take_left' hX]
        rfl
  · split
    · rw [writeAt_length _ _ _ (by rw [slice_length, hlen]; omega), hlen]
    · exact hlen

theorem readEvents_cons (now : Nat) (c : Bytes) (cs : List Bytes) :
    readEvents now (c :: cs) =
      Event.complete Handler.HandleReceived false c now :: readEvents now cs := rfl

theorem readsFit_cons (cap off : Nat) (c : Bytes) (cs : List Bytes)
    (h : readsFit cap off (c :: cs) = true) :
    off + c.length ≤ cap ∧ readsFit cap ((off + c.length) % 16) cs = true := by
  simpa [readsFit] using h

theorem readsFit_append (cap : Nat) (a b : List Bytes) :
    ∀ off, readsFit cap off (a ++ b) = true → readsFit cap off a = true := by
  induction a with
  | nil => intro off _; rfl
  | cons c cs ih =>
    intro off h
    obtain ⟨h1, h2⟩ := readsFit_cons cap off c (cs ++ b) h
    simp only [readsFit, Bool.and_eq_true, decide_eq_true_eq]
    exact ⟨h1, ih _ h2⟩

theorem reads_run (env : Env) (now : Nat) :
    ∀ (chunks : List Bytes) (s : NTCPSession),
      s.destroyed = false → Handler.HandleReceived ∈ s.pending →
      s.m_ReceiveBufferOffset < 16 → s.m_ReceiveBufferOffset ≤ s.m_ReceiveBuffer.length →
      readsFit s.m_ReceiveBuffer.length s.m_ReceiveBufferOffset chunks = true →
      ∃ (b : Bytes) (p : List Handler),
        run env s (readEvents now chunks) =
          (decryptAll env s
            (blocksOf ((s.m_ReceiveBufferOffset + chunks.flatten.length) / 16)
              (s.m_ReceiveBuffer.take s.m_ReceiveBufferOffset ++ chunks.flatten))).withReceive b
            ((s.m_ReceiveBufferOffset + chunks.flatten.length) % 16) p ∧
        b.take ((s.m_ReceiveBufferOffset + chunks.flatten.length) % 16) =
          (s.m_ReceiveBuffer.take s.m_ReceiveBufferOffset ++ chunks.flatten).drop
            (16 * ((s.m_ReceiveBufferOffset + chunks.flatten.length) / 16)) ∧
        b.length = s.m_ReceiveBuffer.length ∧ Handler.HandleReceived ∈ p := by
  intro chunks
  induction chunks with
  | nil =>
    intro s hd hp h16 hle _
    refine ⟨s.m_ReceiveBuffer, s.pending, ?_, ?_, rfl, hp⟩
    · have h0 : (s.m_ReceiveBufferOffset + ([] : List Bytes).flatten.length) / 16 = 0 := by
        simp; omega
      have h1 : (s.m_ReceiveBufferOffset + ([] : List Bytes).flatten.length) % 16 =
          s.m_ReceiveBufferOffset := by simp; omega
      rw [h0, h1]
      rfl
    · have h0 : (s.m_ReceiveBufferOffset + ([] : List Bytes).flatten.length) / 16 = 0 := by
        simp; omega
      have h1 : (s.m_ReceiveBufferOffset + ([] : List Bytes).flatten.length) % 16 =
          s.m_ReceiveBufferOffset := by simp; omega
      rw [h0, h1]
      simp
  | cons c cs ih =>
    intro s hd hp h16 hle hfit
    obtain ⟨hf1, hf2⟩ := readsFit_cons _ _ c cs hfit
    obtain ⟨b1, p1, e1, t1, l1, m1⟩ := read_step env s c now hd hp hf1
    have hL : (s.m_ReceiveBuffer.take s.m_ReceiveBufferOffset).length =
        s.m_ReceiveBufferOffset := by rw [List.length_take]; omega
    have hX : (s.m_ReceiveBuffer.take s.m_ReceiveBufferOffset ++ c).length =
        s.m_ReceiveBufferOffset + c.length := by rw [List.length_append, hL]
    rw [readEvents_cons, run_cons, e1]
    have hd1 : ((decryptAll env s
        (blocksOf ((s.m_ReceiveBufferOffset + c.length) / 16)
          (s.m_ReceiveBuffer.take s.m_ReceiveBufferOffset ++ c))).withReceive b1
        ((s.m_ReceiveBufferOffset + c.length) % 16) p1).destroyed = false :=
      ((decryptAll_fields env _ s).1).trans hd
    obtain ⟨b, p, e2, t2, l2, m2⟩ := ih _ hd1 m1
      (by show (s.m_ReceiveBufferOffset + c.length) % 16 < 16; omega)
      (by show (s.m_ReceiveBufferOffset + c.length) % 16 ≤ b1.length; rw [l1]; omega)
      (by show readsFit b1.length ((s.m_ReceiveBufferOffset + c.length) % 16) cs = true
          rw [l1]; exact hf2)
    refine ⟨b, p, ?_, ?_, l2.trans l1, m2⟩
    · rw [e2]
      show (decryptAll env (NTCPSession.withReceive _ _ _ _)
        (blocksOf (((s.m_ReceiveBufferOffset + c.length) % 16 + cs.flatten.length) / 16)
          (b1.take ((s.m_ReceiveBufferOffset + c.length) % 16) ++ cs.flatten))).withReceive b
        (((s.m_ReceiveBufferOffset + c.length) % 16 + cs.flatten.length) % 16) p = _
      rw [decryptAll_buffer, withReceive_withReceive, ← decryptAll_append, t1,
        List.flatten_cons, List.length_append]
      have hq : (s.m_ReceiveBufferOffset + (c.length + cs.flatten.length)) / 16 =
          (s.m_ReceiveBufferOffset + c.length) / 16 +
            ((s.m_ReceiveBufferOffset + c.length) % 16 + cs.flatten.length) / 16 := by omega
      have hm : (s.m_ReceiveBufferOffset + (c.length + cs.flatten.length)) % 16 =
          ((s.m_ReceiveBufferOffset + c.length) % 16 + cs.flatten.length) % 16 := by omega
      have hpre := blocksOf_front ((s.m_ReceiveBufferOffset + c.length) / 16)
        (s.m_ReceiveBuffer.take s.m_ReceiveBufferOffset ++ c) cs.flatten (by rw [hX]; omega)
      have hdr : List.drop (16 * ((s.m_ReceiveBufferOffset + c.length) / 16))
          (s.m_ReceiveBuffer.take s.m_ReceiveBufferOffset ++ c ++ cs.flatten) =
          List.drop (16 * ((s.m_ReceiveBufferOffset + c.length) / 16))
            (s.m_ReceiveBuffer.take s.m_ReceiveBufferOffset ++ c) ++ cs.flatten :=
        List.drop_append_of_le_length (by rw [hX]; omega)
      rw [hq, hm, blocksOf_add, ← List.append_assoc, hpre, hdr]
    · have t3 : b.take (((s.m_ReceiveBufferOffset + c.length) % 16 + cs.flatten.length) % 16) =
        (b1.take ((s.m_ReceiveBufferOffset + c.length) % 16) ++ cs.flatten).drop
          (16 * (((s.m_ReceiveBufferOffset + c.length) % 16 + cs.flatten.length) / 16)) := t2
      rw [List.flatten_cons, List.length_append]
      have hq : 16 * ((s.m_ReceiveBufferOffset + (c.length + cs.flatten.length)) / 16) =
          16 * ((s.m_ReceiveBufferOffset + c.length) / 16) +
            16 * (((s.m_ReceiveBufferOffset + c.length) % 16 + cs.flatten.length) / 16) := by
        omega
      have hm : (s.m_ReceiveBufferOffset + (c.length + cs.flatten.length)) % 16 =
          ((s.m_ReceiveBufferOffset + c.length) % 16 + cs.flatten.length) % 16 := by omega
      have hdr : List.drop (16 * ((s.m_ReceiveBufferOffset + c.length) / 16))
          (s.m_ReceiveBuffer.take s.m_ReceiveBufferOffset ++ c ++ cs.flatten) =
          List.drop (16 * ((s.m_ReceiveBufferOffset + c.length) / 16))
            (s.m_ReceiveBuffer.take s.m_ReceiveBufferOffset ++ c) ++ cs.flatten :=
        List.drop_append_of_le_length (by rw [hX]; omega)
      rw [hq, hm, t3, t1, ← List.drop_drop, ← List.append_assoc, hdr]

/-! ## Frames in sequence and the stream of reads -/

theorem cbcRegister_length (env : Env) (key : Bytes) :
    ∀ (k : Nat) (reg data : Bytes), reg.length = 16 →
      (cbcEncryptBlocks (aesEncrypt16 env) key k reg data).2.length = 16 := by
  intro k
  induction k with
  | zero => intro reg data h; exact h
  | succ k ih =>
    intro reg data _
    exact ih _ _ (slice_length _ _ _)

theorem decryptAll_register (env : Env) (key : Bytes) :
    ∀ (k : Nat) (reg plain : Bytes) (r : NTCPSession), r.m_Decryption.key = key →
      (decryptAll env r
          (blocksOf (k + 1)
            (cbcEncryptBlocks (aesEncrypt16 env) key (k + 1) reg plain).1)).m_Decryption =
        { key := key, iv := (cbcEncryptBlocks (aesEncrypt16 env) key (k + 1) reg plain).2 } := by
  intro k
  induction k with
  | zero =>
    intro reg plain r hk
    have hc : (aesEncrypt16 env key (xorBytes (plain.take 16) reg)).length = 16 :=
      slice_length _ _ _
    rw [cbcEncryptBlocks_succ, blocksOf_append _ _ _ hc]
    show (DecryptNextBlock env r _).m_Decryption = _
    rw [(DecryptNextBlock_contexts env r _).2.1, slice_block _ hc]
    show ({ key := r.m_Decryption.key, iv := _ } : CBC) = _
    rw [hk]
    rfl
  | succ k ih =>
    intro reg plain r hk
    have hc : (aesEncrypt16 env key (xorBytes (plain.take 16) reg)).length = 16 :=
      slice_length _ _ _
    rw [cbcEncryptBlocks_succ, blocksOf_append _ _ _ hc, decryptAll_cons,
      ih _ _ _ (by rw [(DecryptNextBlock_contexts env r _).2.1]; exact hk)]
    rfl

theorem Send_encryption (env : Env) (now : Nat) (s : NTCPSession) (msg : Option I2NPMessage) :
    (Send env now s msg).m_Encryption = (s.m_Encryption.Encrypt env (sendBuffer now s msg)).2 := by
  cases msg with
  | none => rfl
  | some m =>
    by_cases h : m.offset < 2 <;> simp [Send, asyncWrite, h, sendBuffer, sendPrepared]

/-- A frame written by `Send`, fed block by block to a receiver that holds the
sender's context and has no message in progress: the receiver ends with no
message in progress and the sender's new context, and has handed on the inner
message, if there is one. -/
theorem frame_received (env : Env) (haes : env.aesInverts) (now : Nat) (s r : NTCPSession)
    (msg : Option I2NPMessage) (hiv : s.m_Encryption.iv.length = 16)
    (hmsg : ∀ m, msg = some m → 1 ≤ m.GetLength ∧ m.GetLength ≤ 65535 ∧
      m.GetLength + 2 + sendPadding m.GetLength + 4 ≤ env.NewI2NPMessage.buf.length)
    (hnone : r.m_NextMessage = none) (hctx : r.m_Decryption = s.m_Encryption) :
    ((s.m_Encryption.Encrypt env (sendBuffer now s msg)).1).length % 16 = 0 ∧
    (s.m_Encryption.Encrypt env (sendBuffer now s msg)).2.iv.length = 16 ∧
    (decryptAll env r
      (blocksOf (((s.m_Encryption.Encrypt env (sendBuffer now s msg)).1).length / 16)
        (s.m_Encryption.Encrypt env (sendBuffer now s msg)).1)).m_NextMessage = none ∧
    (decryptAll env r
      (blocksOf (((s.m_Encryption.Encrypt env (sendBuffer now s msg)).1).length / 16)
        (s.m_Encryption.Encrypt env (sendBuffer now s msg)).1)).m_Decryption =
      (s.m_Encryption.Encrypt env (sendBuffer now s msg)).2 ∧
    ∃ ms : List I2NPMessage,
      (decryptAll env r
        (blocksOf (((s.m_Encryption.Encrypt env (sendBuffer now s msg)).1).length / 16)
          (s.m_Encryption.Encrypt env (sendBuffer now s msg)).1)).handled = r.handled ++ ms ∧
      List.Forall₂ (fun (d m : I2NPMessage) => d.offset = 2 ∧ d.len = m.GetLength + 2 ∧
        slice d.buf 2 m.GetLength = slice m.buf m.offset m.GetLength) ms msg.toList := by
  have hlenb : (sendBuffer now s msg).length = sendLen msg + 2 + sendPadding (sendLen msg) + 4 :=
    sendBuffer_length now s msg
  have hmul := frame_multiple (sendLen msg)
  have hpad := sendPadding_lt (sendLen msg)
  obtain ⟨k, hk⟩ : ∃ k, sendLen msg + 2 + sendPadding (sendLen msg) + 4 = 16 * (k + 1) :=
    ⟨(sendLen msg + 2 + sendPadding (sendLen msg) + 4) / 16 - 1, by omega⟩
  have hlen : (sendBuffer now s msg).length = 16 * (k + 1) := by rw [hlenb]; omega
  have hflen : ((s.m_Encryption.Encrypt env (sendBuffer now s msg)).1).length = 16 * (k + 1) := by
    rw [Encrypt_length, hlen]
  have hdiv : 16 * (k + 1) / 16 = k + 1 := by omega
  have hframe : (s.m_Encryption.Encrypt env (sendBuffer now s msg)) =
      ((cbcEncryptBlocks (aesEncrypt16 env) s.m_Encryption.key (k + 1) s.m_Encryption.iv
        (sendBuffer now s msg)).1,
       { key := s.m_Encryption.key,
         iv := (cbcEncryptBlocks (aesEncrypt16 env) s.m_Encryption.key (k + 1) s.m_Encryption.iv
          (sendBuffer now s msg)).2 }) := by
    simp only [CBC.Encrypt, hlen, hdiv]
  have hreg := decryptAll_register env s.m_Encryption.key k s.m_Encryption.iv
    (sendBuffer now s msg) r (by rw [hctx])
  have hrl := cbcRegister_length env s.m_Encryption.key (k + 1) s.m_Encryption.iv
    (sendBuffer now s msg) hiv
  rw [hflen, hdiv, hframe]
  refine ⟨by omega, hrl, ?_⟩
  cases msg with
  | none =>
    have hk0 : k = 0 := by
      have h4 : sendLen none = 4 := rfl
      have h6 : sendPadding 4 = 6 := by decide
      rw [h4, h6] at hk
      omega
    subst hk0
    have hc : (aesEncrypt16 env s.m_Encryption.key
        (xorBytes (sendBuffer now s none) s.m_Encryption.iv)).length = 16 := slice_length _ _ _
    have hp16 : (sendBuffer now s none).take 16 = sendBuffer now s none :=
      List.take_of_length_le (by omega)
    have hblocks : blocksOf (0 + 1) (cbcEncryptBlocks (aesEncrypt16 env) s.m_Encryption.key (0 + 1)
        s.m_Encryption.iv (sendBuffer now s none)).1 =
        [aesEncrypt16 env s.m_Encryption.key
          (xorBytes (sendBuffer now s none) s.m_Encryption.iv)] := by
      rw [cbcEncryptBlocks_succ, hp16, blocksOf_append _ _ _ hc]
      rfl
    have hdec : (r.m_Decryption.Decrypt env
        (slice (aesEncrypt16 env s.m_Encryption.key
          (xorBytes (sendBuffer now s none) s.m_Encryption.iv)) 0 16)).1.take 2 = [0, 0] := by
      rw [slice_block _ hc, Decrypt_block env _ _ hc, hctx]
      simp only []
      rw [cbc_block_inverse env haes _ _ _ hlen hiv, sendBuffer_keepalive]
      rfl
    have hstep := decryptNextBlock_keepalive env r _ hnone hdec
    refine ⟨?_, hreg, [], ?_, List.Forall₂.nil⟩
    · rw [hblocks]
      show (DecryptNextBlock env r _).m_NextMessage = none
      rw [hstep]
    · rw [hblocks]
      show (DecryptNextBlock env r _).handled = _
      rw [hstep, List.append_nil]
  | some m =>
    obtain ⟨hn1, hn2, hfit⟩ := hmsg m rfl
    have hshape := sendBuffer_message now s m
    have hsize : (sendBuffer now s (some m)).take 2 = htobe16 m.GetLength := by
      rw [hshape, List.append_assoc]
      exact List.take_left' rfl
    have hl : sendLen (some m) = m.GetLength := rfl
    rw [hl] at hk hpad
    obtain ⟨f1, f2, f3⟩ := decryptAll_frame env haes r s.m_Encryption.key s.m_Encryption.iv
      (sendBuffer now s (some m)) m.GetLength k hn1 hn2 hlen hiv hsize (by omega)
      (by omega) hnone (by rw [hctx]) (by omega)
    refine ⟨f3, hreg, _, f2, List.Forall₂.cons ⟨rfl, rfl, ?_⟩ List.Forall₂.nil⟩
    simp only []
    rw [hshape, payload_of_frame _ (htobe16 m.GetLength) _ _ _ rfl (by simp [slice_length]),
      slice_take _ _ _ _ (by omega)]

theorem filterMap_inner (p : Nat × Option I2NPMessage) (ps : List (Nat × Option I2NPMessage)) :
    (p :: ps).filterMap (fun q => q.2) = p.2.toList ++ ps.filterMap (fun q => q.2) := by
  cases h : p.2 <;> simp [List.filterMap_cons, h]

theorem blocksOf_frames (f rest : Bytes) (h : f.length % 16 = 0) :
    blocksOf ((f ++ rest).length / 16) (f ++ rest) =
      blocksOf (f.length / 16) f ++ blocksOf (rest.length / 16) rest := by
  have hq : (f ++ rest).length / 16 = f.length / 16 + rest.length / 16 := by
    rw [List.length_append]; omega
  have hd : List.drop (16 * (f.length / 16)) (f ++ rest) = rest :=
    List.drop_left' (by omega)
  rw [hq, blocksOf_add, hd, blocksOf_front _ _ _ (by omega)]

/-- The frames `Send` writes for a list of messages, fed block by block to a
receiver that holds the sender's context and has no message in progress. -/
theorem frames_received (env : Env) (haes : env.aesInverts) :
    ∀ (msgs : List (Nat × Option I2NPMessage)) (s r : NTCPSession),
      s.socketOpen = true → s.m_Encryption.iv.length = 16 →
      (∀ p ∈ msgs, ∀ m, p.2 = some m → 1 ≤ m.GetLength ∧ m.GetLength ≤ 65535 ∧
        m.GetLength + 2 + sendPadding m.GetLength + 4 ≤ env.NewI2NPMessage.buf.length) →
      r.m_NextMessage = none → r.m_Decryption = s.m_Encryption →
      ∃ (frames : List Bytes) (ms : List I2NPMessage),
        (sendAll env s msgs).written = s.written ++ frames ∧
        frames.flatten.length % 16 = 0 ∧
        (decryptAll env r
          (blocksOf (frames.flatten.length / 16) frames.flatten)).handled = r.handled ++ ms ∧
        (decryptAll env r
          (blocksOf (frames.flatten.length / 16) frames.flatten)).m_NextMessage = none ∧
        List.Forall₂ (fun (d m : I2NPMessage) => d.offset = 2 ∧ d.len = m.GetLength + 2 ∧
          slice d.buf 2 m.GetLength = slice m.buf m.offset m.GetLength) ms
          (msgs.filterMap (fun p => p.2)) := by
  intro msgs
  induction msgs with
  | nil =>
    intro s r _ _ _ hnone _
    exact ⟨[], [], by simp [sendAll], rfl, by simp [blocksOf, decryptAll], by
      simpa [blocksOf, decryptAll] using hnone, List.Forall₂.nil⟩
  | cons p ps ih =>
    intro s r hopen hiv hmsgs hnone hctx
    obtain ⟨h16, hiv1, hnone1, hctx1, ms1, hh1, hF1⟩ :=
      frame_received env haes p.1 s r p.2 hiv (hmsgs p (List.mem_cons_self _ _)) hnone hctx
    have hopen1 : (Send env p.1 s p.2).socketOpen = true :=
      (Send_socketOpen env p.1 s p.2).trans hopen
    rw [← Send_encryption env p.1 s p.2] at hiv1 hctx1
    obtain ⟨frames, ms, hw, hl, hh, hn, hF⟩ := ih (Send env p.1 s p.2) _ hopen1 hiv1
      (fun q hq => hmsgs q (List.mem_cons_of_mem _ hq)) hnone1 hctx1
    refine ⟨(s.m_Encryption.Encrypt env (sendBuffer p.1 s p.2)).1 :: frames, ms1 ++ ms,
      ?_, ?_, ?_, ?_, ?_⟩
    · show (sendAll env (Send env p.1 s p.2) ps).written = _
      rw [hw, Send_written env p.1 s p.2 hopen]
      simp
    · rw [List.flatten_cons, List.length_append]
      omega
    · rw [List.flatten_cons, blocksOf_frames _ _ h16, decryptAll_append, hh, hh1,
        List.append_assoc]
    · rw [List.flatten_cons, blocksOf_frames _ _ h16, decryptAll_append, hn]
    · rw [filterMap_inner]
      exact List.rel_append hF1 hF

theorem reads_run_start (env : Env) (now : Nat) (chunks : List Bytes) (r : NTCPSession)
    (hd : r.destroyed = false) (hp : Handler.HandleReceived ∈ r.pending)
    (hoff : r.m_ReceiveBufferOffset = 0)
    (hfit : readsFit r.m_ReceiveBuffer.length 0 chunks = true) :
    ∃ (b : Bytes) (p : List Handler),
      run env r (readEvents now chunks) =
        (decryptAll env r
          (blocksOf (chunks.flatten.length / 16) chunks.flatten)).withReceive b
          (chunks.flatten.length % 16) p ∧
      b.take (chunks.flatten.length % 16) =
        chunks.flatten.drop (16 * (chunks.flatten.length / 16)) ∧
      b.length = r.m_ReceiveBuffer.length ∧ Handler.HandleReceived ∈ p := by
  have h := reads_run env now chunks r hd hp (by omega) (by omega) (by rw [hoff]; exact hfit)
  rw [hoff, List.take_zero, List.nil_append, Nat.zero_add] at h
  exact h

/-- C17: a sender `s` calls `Send` for a list of messages and keep-alives; a
receiver `r` with the sender's CBC context, no message in progress and an empty
receive buffer gets the concatenated frames in reads `pre ++ c :: post`, each
no longer than the room left in the receive buffer.  After the read `c` the
state is the one `DecryptNextBlock` leaves when it is called on the successive
16-byte blocks of the bytes read so far, in order; the receive offset is the
offset before the read plus the bytes read, modulo 16, and below 16; the bytes
behind the last whole block are at the front of the receive buffer.  After
the last read the messages handed on are the inner messages of the list, in
order, with no message in progress and nothing left over. -/
theorem stream_reassembly (env : Env) (haes : env.aesInverts) (now : Nat) (s r : NTCPSession)
    (msgs : List (Nat × Option I2NPMessage)) (pre : List Bytes) (c : Bytes) (post : List Bytes)
    (hopen : s.socketOpen = true) (hiv : s.m_Encryption.iv.length = 16)
    (hmsgs : ∀ p ∈ msgs, ∀ m, p.2 = some m → 1 ≤ m.GetLength ∧ m.GetLength ≤ 65535 ∧
      m.GetLength + 2 + sendPadding m.GetLength + 4 ≤ env.NewI2NPMessage.buf.length)
    (hnone : r.m_NextMessage = none) (hctx : r.m_Decryption = s.m_Encryption)
    (hd : r.destroyed = false) (hp : Handler.HandleReceived ∈ r.pending)
    (hoff : r.m_ReceiveBufferOffset = 0)
    (hsplit : (pre ++ c :: post).flatten =
      ((sendAll env s msgs).written.drop s.written.length).flatten)
    (hfit : readsFit r.m_ReceiveBuffer.length 0 (pre ++ c :: post) = true) :
    (run env r (readEvents now (pre ++ [c])) =
        (decryptAll env r
          (blocksOf ((pre ++ [c]).flatten.length / 16) (pre ++ [c]).flatten)).withReceive
          (run env r (readEvents now (pre ++ [c]))).m_ReceiveBuffer
          ((pre ++ [c]).flatten.length % 16)
          (run env r (readEvents now (pre ++ [c]))).pending ∧
      (run env r (readEvents now (pre ++ [c]))).m_ReceiveBufferOffset =
        ((run env r (readEvents now pre)).m_ReceiveBufferOffset + c.length) % 16 ∧
      (run env r (readEvents now (pre ++ [c]))).m_ReceiveBufferOffset < 16 ∧
      (run env r (readEvents now (pre ++ [c]))).m_ReceiveBuffer.take
          (run env r (readEvents now (pre ++ [c]))).m_ReceiveBufferOffset =
        (pre ++ [c]).flatten.drop (16 * ((pre ++ [c]).flatten.length / 16)) ∧
      Handler.HandleReceived ∈ (run env r (readEvents now (pre ++ [c]))).pending) ∧
    ∃ ms : List I2NPMessage,
      (run env r (readEvents now (pre ++ c :: post))).handled = r.handled ++ ms ∧
      (run env r (readEvents now (pre ++ c :: post))).m_NextMessage = none ∧
      (run env r (readEvents now (pre ++ c :: post))).m_ReceiveBufferOffset = 0 ∧
      List.Forall₂ (fun (d m : I2NPMessage) => d.offset = 2 ∧ d.len = m.GetLength + 2 ∧
        slice d.buf 2 m.GetLength = slice m.buf m.offset m.GetLength) ms
        (msgs.filterMap (fun p => p.2)) := by
  have hsp : pre ++ c :: post = (pre ++ [c]) ++ post := by simp
  have hfit1 : readsFit r.m_ReceiveBuffer.length 0 (pre ++ [c]) = true :=
    readsFit_append _ _ post _ (by rw [← hsp]; exact hfit)
  have hfit0 : readsFit r.m_ReceiveBuffer.length 0 pre = true :=
    readsFit_append _ _ (c :: post) _ hfit
  obtain ⟨b0, p0, e0, _, _, _⟩ := reads_run_start env now pre r hd hp hoff hfit0
  obtain ⟨b1, p1, e1, t1, _, m1⟩ := reads_run_start env now (pre ++ [c]) r hd hp hoff hfit1
  obtain ⟨b2, p2, e2, _, _, _⟩ := reads_run_start env now (pre ++ c :: post) r hd hp hoff hfit
  obtain ⟨frames, ms, hw, hl, hh, hn, hF⟩ :=
    frames_received env haes msgs s r hopen hiv hmsgs hnone hctx
  have hstream : (pre ++ c :: post).flatten = frames.flatten := by
    rw [hsplit, hw, List.drop_left]
  have hlen1 : (pre ++ [c]).flatten.length = pre.flatten.length + c.length := by
    simp
  refine ⟨?_, ms, ?_⟩
  · rw [e1, e0]
    refine ⟨rfl, ?_, ?_, t1, m1⟩
    · show (pre ++ [c]).flatten.length % 16 = (pre.flatten.length % 16 + c.length) % 16
      rw [hlen1]
      omega
    · show (pre ++ [c]).flatten.length % 16 < 16
      omega
  · rw [e2, hstream]
    refine ⟨hh, hn, hl, hF⟩

/-! ## The stream on the example sessions -/

set_option maxRecDepth 100000 in
/-- The stream of C17 for `exampleStreamMessages`, read in pieces of 5, 35 and
40 bytes: after the second read the offset is 8, and in the end the message is
handed on twice. -/
theorem stream_reassembly_witness :
    exampleEnv.aesInverts ∧
    readsFit exampleReceiver.m_ReceiveBuffer.length 0
      ([exampleStream.take 5] ++ (exampleStream.drop 5).take 35 :: [exampleStream.drop 40]) = true ∧
    (run exampleEnv exampleReceiver
      (readEvents 0 ([exampleStream.take 5] ++ [(exampleStream.drop 5).take 35]))).m_ReceiveBufferOffset
      = ((run exampleEnv exampleReceiver
          (readEvents 0 [exampleStream.take 5])).m_ReceiveBufferOffset + 35) % 16 ∧
    ∃ ms : List I2NPMessage,
      (run exampleEnv exampleReceiver
        (readEvents 0 ([exampleStream.take 5] ++ (exampleStream.drop 5).take 35 ::
          [exampleStream.drop 40]))).handled = exampleReceiver.handled ++ ms ∧
      List.Forall₂ (fun (d m : I2NPMessage) => d.offset = 2 ∧ d.len = m.GetLength + 2 ∧
        slice d.buf 2 m.GetLength = slice m.buf m.offset m.GetLength) ms
        [exampleMessage, exampleMessage] := by
  have hm : ∀ p ∈ exampleStreamMessages, ∀ m, p.2 = some m → 1 ≤ m.GetLength ∧
      m.GetLength ≤ 65535 ∧
      m.GetLength + 2 + sendPadding m.GetLength + 4 ≤ exampleEnv.NewI2NPMessage.buf.length := by
    intro p hp m hpm
    have hcases : p = (0, some exampleMessage) ∨ p = (5, none) ∨ p = (7, some exampleMessage) := by
      simpa [exampleStreamMessages] using hp
    rcases hcases with h | h | h <;> subst h <;> cases hpm <;> decide
  obtain ⟨⟨_, h2, _, _, _⟩, ms, h5, _, _, h8⟩ :=
    stream_reassembly exampleEnv exampleEnv_aesInverts 0 exampleSession exampleReceiver
      exampleStreamMessages [exampleStream.take 5] ((exampleStream.drop 5).take 35)
      [exampleStream.drop 40] (by decide) (by decide) hm (by decide) (by decide) (by decide)
      (by decide) (by decide) (by decide) (by decide)
  exact ⟨exampleEnv_aesInverts, by decide, h2, ms, h5, h8⟩

/-! ## The honest handshake -/

theorem CreateAESKey_agreed (env : Env) (s : NTCPSession) (pubKey aesKey sec : Bytes)
    (h : env.dhAgree env.privateKey pubKey = some sec) :
    (CreateAESKey env s pubKey aesKey).1 = s ∧
    slice (CreateAESKey env s pubKey aesKey).2 0 32 =
      if sec.getD 0 0 &&& 128 ≠ 0 then [0] ++ slice sec 0 31 else slice sec 0 32 := by
  unfold CreateAESKey
  rw [h]
  simp only []
  split
  · refine ⟨rfl, ?_⟩
    simp only []
    rw [writeAt_zero, writeAt_within [0] _ _ 1 rfl]
    exact slice_front _ _ 32 (by simp [slice_length])
  · refine ⟨rfl, ?_⟩
    simp only []
    rw [writeAt_zero]
    exact slice_front _ _ 32 (slice_length _ _ _)

theorem publicKey_length (env : Env) (identity : Bytes) : (publicKey env identity).length = 256 :=
  slice_length _ _ _

theorem sha256_length (env : Env) (data : Bytes) : (sha256 env data).length = 32 :=
  slice_length _ _ _

theorem sha256_congr (env1 env2 : Env) (h : env1.SHA256 = env2.SHA256) (data : Bytes) :
    sha256 env1 data = sha256 env2 data := by
  simp [sha256, h]

/-- The responder accepts the Phase1 record an initiator builds for it. -/
theorem identMatches_honest (d ident : Bytes) :
    identMatches ((List.range 32).map (fun i => d.getD i 0 ^^^ ident.getD i 0)) ident d = true := by
  rw [identMatches_iff]
  intro i hi
  rw [map_range_getD _ _ _ hi, ← Nat.xor_assoc, Nat.xor_self, Nat.zero_xor]

theorem SendPhase2_agreed (env : Env) (now : Nat) (s : NTCPSession) (sec : Bytes)
    (h : env.dhAgree env.privateKey s.m_Phase1.pubKey = some sec)
    (hopen : s.socketOpen = true) :
    (SendPhase2 env now s).written =
      s.written ++ [publicKey env env.routerIdentity ++ (SendPhase2 env now s).m_Phase2.encrypted] ∧
    (SendPhase2 env now s).pending = s.pending ++ [Handler.HandlePhase2Sent (htobe32 now)] ∧
    (SendPhase2 env now s).destroyed = s.destroyed ∧
    (SendPhase2 env now s).socketOpen = true ∧
    (SendPhase2 env now s).m_Phase1 = s.m_Phase1 ∧
    (SendPhase2 env now s).m_Phase3 = s.m_Phase3 ∧
    (SendPhase2 env now s).m_Phase4 = s.m_Phase4 ∧
    (SendPhase2 env now s).m_IsEstablished = s.m_IsEstablished := by
  have hk := (CreateAESKey_agreed env s s.m_Phase1.pubKey env.aesKeyStack sec h).1
  unfold SendPhase2
  simp only [asyncWrite, hk, hopen, if_true]
  simp

theorem hs_stage1 (h : Handshake)
    (hsha : h.cenv.SHA256 = h.senv.SHA256)
    (hident : h.remote.identHash = h.senv.identHash)
    :
    h.client0.written.getD 0 [] = h.client0.m_Phase1.pubKey ++ h.client0.m_Phase1.HXxorHI ∧
    (received h.senv h.server0 Handler.HandlePhase1Received (h.client0.written.getD 0 [])).m_Phase1
      = h.client0.m_Phase1 ∧
    identMatches h.client0.m_Phase1.HXxorHI h.senv.identHash
      (sha256 h.senv (slice h.client0.m_Phase1.pubKey 0 256)) = true ∧
    h.server1 = SendPhase2 h.senv h.nowB
      (received h.senv { h.server0 with pending := [] } Handler.HandlePhase1Received
        (h.client0.written.getD 0 [])) := by
  have hw : h.client0.written.getD 0 [] = h.client0.m_Phase1.pubKey ++ h.client0.m_Phase1.HXxorHI :=
    rfl
  have hx : h.client0.m_Phase1.pubKey = publicKey h.cenv h.cenv.routerIdentity := rfl
  have hh : h.client0.m_Phase1.HXxorHI = (List.range 32).map (fun i =>
      (sha256 h.cenv (publicKey h.cenv h.cenv.routerIdentity)).getD i 0 ^^^
        h.remote.identHash.getD i 0) := rfl
  have hl1 : h.client0.m_Phase1.pubKey.length = 256 := by rw [hx]; exact publicKey_length _ _
  have hl2 : h.client0.m_Phase1.HXxorHI.length = 32 := by rw [hh]; simp
  have hm : identMatches h.client0.m_Phase1.HXxorHI h.senv.identHash
      (sha256 h.senv (slice h.client0.m_Phase1.pubKey 0 256)) = true := by
    rw [slice_full _ _ hl1, hh, hx, ← sha256_congr _ _ hsha, hident]
    exact identMatches_honest _ _
  have hr : ∀ s0 : NTCPSession,
      (received h.senv s0 Handler.HandlePhase1Received (h.client0.written.getD 0 [])).m_Phase1
      = h.client0.m_Phase1 := by
    intro s0
    rw [hw, received_phase1 _ _ _ _ hl1 hl2]
  refine ⟨hw, hr _, hm, ?_⟩
  unfold Handshake.server1
  rw [step_complete _ _ _ _ _ _ rfl (by simp [Handshake.server0, ServerLogin, asyncRead,
    NTCPSession.new])]
  show HandlePhase1Received h.senv h.nowB
    (received h.senv { h.server0 with pending := [] } Handler.HandlePhase1Received
        (h.client0.written.getD 0 [])) false = _
  unfold HandlePhase1Received
  rw [if_neg (by simp), hr, if_pos hm]

theorem slice_writeAt_self (buf : Bytes) (pos : Nat) (d : Bytes)
    (h : pos + d.length ≤ buf.length) : slice (writeAt buf pos d) pos d.length = d := by
  apply ext_getD _ _ (slice_length _ _ _)
  intro i hi
  rw [slice_length] at hi
  rw [slice_getD, if_pos hi, writeAt_getD _ _ _ _ h, if_neg (by omega), if_pos (by omega)]
  congr 1
  omega

theorem slice_writeAt_before (buf : Bytes) (pos : Nat) (d : Bytes) (p n : Nat)
    (h : pos + d.length ≤ buf.length) (hb : p + n ≤ pos) :
    slice (writeAt buf pos d) p n = slice buf p n := by
  apply ext_getD _ _ (by rw [slice_length, slice_length])
  intro i hi
  rw [slice_length] at hi
  rw [slice_getD, slice_getD, if_pos hi, if_pos hi, writeAt_getD _ _ _ _ h, if_pos (by omega)]

theorem slice_writeAt_after (buf : Bytes) (pos : Nat) (d : Bytes) (p n : Nat)
    (h : pos + d.length ≤ buf.length) (hb : pos + d.length ≤ p) :
    slice (writeAt buf pos d) p n = slice buf p n := by
  apply ext_getD _ _ (by rw [slice_length, slice_length])
  intro i hi
  rw [slice_length] at hi
  rw [slice_getD, slice_getD, if_pos hi, if_pos hi, writeAt_getD _ _ _ _ h, if_neg (by omega),
    if_neg (by omega)]

theorem Encrypt_iv_length (env : Env) (c : CBC) (data : Bytes) (h : c.iv.length = 16) :
    (c.Encrypt env data).2.iv.length = 16 :=
  cbcRegister_length env c.key _ c.iv data h

theorem Encrypt_key (env : Env) (c : CBC) (data : Bytes) :
    (c.Encrypt env data).2.key = c.key := rfl

/-- The Phase2 record of a responder whose agreement succeeds. -/
theorem hs_stage2 (h : Handshake) (sec : Bytes)
    (hsha : h.cenv.SHA256 = h.senv.SHA256)
    (hident : h.remote.identHash = h.senv.identHash)
    (hdhS : h.senv.dhAgree h.senv.privateKey (publicKey h.cenv h.cenv.routerIdentity) = some sec) :
    ∃ (K plain : Bytes),
      K = (if sec.getD 0 0 &&& 128 ≠ 0 then [0] ++ slice sec 0 31 else slice sec 0 32) ∧
      plain.length = 48 ∧
      slice plain 0 32 = sha256 h.senv
        (publicKey h.cenv h.cenv.routerIdentity ++ publicKey h.senv h.senv.routerIdentity) ∧
      slice plain 32 4 = htobe32 h.nowB ∧
      h.server1.m_Phase2 =
        { pubKey := publicKey h.senv h.senv.routerIdentity,
          encrypted := (CBC.Encrypt h.senv
            { key := K, iv := slice (publicKey h.senv h.senv.routerIdentity) 240 16 } plain).1 } ∧
      h.server1.m_Encryption = (CBC.Encrypt h.senv
            { key := K, iv := slice (publicKey h.senv h.senv.routerIdentity) 240 16 } plain).2 ∧
      h.server1.m_Decryption = { key := K, iv := slice h.client0.m_Phase1.HXxorHI 16 16 } ∧
      h.server1.m_Phase1 = h.client0.m_Phase1 ∧
      h.server1.written = [publicKey h.senv h.senv.routerIdentity ++ h.server1.m_Phase2.encrypted] ∧
      h.server1.pending = [Handler.HandlePhase2Sent (htobe32 h.nowB)] ∧
      h.server1.destroyed = false ∧ h.server1.socketOpen = true ∧
      h.server1.m_IsEstablished = false := by
  obtain ⟨_, hr, _, h1⟩ := hs_stage1 h hsha hident
  have hr2 : (received h.senv { h.server0 with pending := [] } Handler.HandlePhase1Received
      (h.client0.written.getD 0 [])).m_Phase1 = h.client0.m_Phase1 := hr
  have hx : h.client0.m_Phase1.pubKey = publicKey h.cenv h.cenv.routerIdentity := rfl
  have hopen : (received h.senv { h.server0 with pending := [] } Handler.HandlePhase1Received
      (h.client0.written.getD 0 [])).socketOpen = true := rfl
  have hwr : (received h.senv { h.server0 with pending := [] } Handler.HandlePhase1Received
      (h.client0.written.getD 0 [])).written = [] := rfl
  have hpe : (received h.senv { h.server0 with pending := [] } Handler.HandlePhase1Received
      (h.client0.written.getD 0 [])).pending = [] := rfl
  have hde : (received h.senv { h.server0 with pending := [] } Handler.HandlePhase1Received
      (h.client0.written.getD 0 [])).destroyed = false := rfl
  have hes : (received h.senv { h.server0 with pending := [] } Handler.HandlePhase1Received
      (h.client0.written.getD 0 [])).m_IsEstablished = false := rfl
  generalize received h.senv { h.server0 with pending := [] } Handler.HandlePhase1Received
      (h.client0.written.getD 0 []) = s0r at h1 hr2 hopen hwr hpe hde hes
  have hdh : h.senv.dhAgree h.senv.privateKey s0r.m_Phase1.pubKey = some sec := by
    rw [hr2, hx]; exact hdhS
  obtain ⟨a1, a2, a3, a4, a5, _, _, a8⟩ := SendPhase2_agreed h.senv h.nowB s0r sec hdh hopen
  obtain ⟨b1, b2, b3⟩ := SendPhase2_contexts h.senv h.nowB s0r
  have hk := (CreateAESKey_agreed h.senv s0r s0r.m_Phase1.pubKey h.senv.aesKeyStack sec hdh).2
  have hpl := phase2Plain_length h.senv h.nowB s0r
  have hxl : (publicKey h.cenv h.cenv.routerIdentity).length = 256 := publicKey_length _ _
  rw [hk, hr2] at b1 b2 b3
  rw [hr2] at hpl
  rw [hx, slice_full _ _ hxl] at hpl b1 b2
  rw [← h1] at a1 a2 a3 a4 a5 a8 b1 b2 b3
  rw [hwr] at a1
  rw [hpe] at a2
  refine ⟨_, _, rfl, hpl, ?_, ?_, b2, b1, b3, a5.trans hr2, a1, a2, a3.trans hde, a4,
    a8.trans hes⟩
  · rw [slice_writeAt_before _ _ _ _ _ (by
      rw [writeAt_length _ _ _ (by simp [slice_length, sha256_length]), slice_length]
      simp [htobe32]) (by omega), writeAt_zero]
    exact slice_front _ _ _ (sha256_length _ _)
  · exact slice_writeAt_self _ 32 (htobe32 h.nowB) (by
      rw [writeAt_length _ _ _ (by simp [slice_length, sha256_length]), slice_length]
      simp [htobe32])

theorem decryptPhase2_agreed (env : Env) (s : NTCPSession) (sec : Bytes)
    (h : env.dhAgree env.privateKey s.m_Phase2.pubKey = some sec) :
    decryptPhase2 env s =
      { s with
        m_Decryption := (CBC.Decrypt env
          { key := (if sec.getD 0 0 &&& 128 ≠ 0 then [0] ++ slice sec 0 31 else slice sec 0 32),
            iv := slice s.m_Phase2.pubKey 240 16 } (slice s.m_Phase2.encrypted 0 48)).2,
        m_Encryption :=
          { key := (if sec.getD 0 0 &&& 128 ≠ 0 then [0] ++ slice sec 0 31 else slice sec 0 32),
            iv := slice s.m_Phase1.HXxorHI 16 16 },
        m_Phase2 :=
          { pubKey := s.m_Phase2.pubKey,
            encrypted := (CBC.Decrypt env
              { key := (if sec.getD 0 0 &&& 128 ≠ 0 then [0] ++ slice sec 0 31 else slice sec 0 32),
                iv := slice s.m_Phase2.pubKey 240 16 } (slice s.m_Phase2.encrypted 0 48)).1 } } := by
  obtain ⟨h1, h2⟩ := CreateAESKey_agreed env s s.m_Phase2.pubKey env.aesKeyStack sec h
  unfold decryptPhase2
  simp only [h1, h2]

theorem received_phase2 (env : Env) (s : NTCPSession) (y e : Bytes) (h1 : y.length = 256)
    (h2 : e.length = 48) :
    (received env s Handler.HandlePhase2Received (y ++ e)).m_Phase2 =
      { pubKey := y, encrypted := e } := by
  have e1 : slice (y ++ e) 0 256 = y := by
    rw [slice_append_left _ _ _ _ (by omega), slice_full _ _ h1]
  have e2 : slice (y ++ e) 256 48 = e := by
    have := slice_append_right y e 0 48
    rw [h1] at this
    rw [this, slice_full _ _ h2]
  simp only [received, e1, e2]

theorem SendPhase3_fields (env : Env) (now : Nat) (s : NTCPSession) (hopen : s.socketOpen = true) :
    (SendPhase3 env now s).written =
      s.written ++ [(SendPhase3 env now s).m_Phase3] ∧
    (SendPhase3 env now s).pending = s.pending ++ [Handler.HandlePhase3Sent (htobe32 now)] ∧
    (SendPhase3 env now s).destroyed = s.destroyed ∧
    (SendPhase3 env now s).socketOpen = true ∧
    (SendPhase3 env now s).m_Phase1 = s.m_Phase1 ∧
    (SendPhase3 env now s).m_Phase2 = s.m_Phase2 ∧
    (SendPhase3 env now s).m_Phase4 = s.m_Phase4 ∧
    (SendPhase3 env now s).m_Decryption = s.m_Decryption ∧
    (SendPhase3 env now s).m_RemoteRouterInfo = s.m_RemoteRouterInfo ∧
    (SendPhase3 env now s).m_IsEstablished = s.m_IsEstablished := by
  unfold SendPhase3
  simp [asyncWrite, hopen]

/-- The record `SendPhase3` encrypts: its length and its fields. -/
theorem phase3Plain (env : Env) (p0 tsA sig : Bytes) (hp : p0.length = phase3Size env)
    (ht : tsA.length = 4) (hs : sig.length = 40) :
    (writeAt (writeAt (writeAt (writeAt p0 0 (htobe16 env.identitySize)) 2
        (slice env.routerIdentity 0 env.identitySize)) (2 + env.identitySize) tsA)
        (2 + env.identitySize + 4) sig).length = phase3Size env ∧
    phase3Ident env (writeAt (writeAt (writeAt (writeAt p0 0 (htobe16 env.identitySize)) 2
        (slice env.routerIdentity 0 env.identitySize)) (2 + env.identitySize) tsA)
        (2 + env.identitySize + 4) sig) = slice env.routerIdentity 0 env.identitySize ∧
    phase3Timestamp env (writeAt (writeAt (writeAt (writeAt p0 0 (htobe16 env.identitySize)) 2
        (slice env.routerIdentity 0 env.identitySize)) (2 + env.identitySize) tsA)
        (2 + env.identitySize + 4) sig) = tsA ∧
    phase3Signature env (writeAt (writeAt (writeAt (writeAt p0 0 (htobe16 env.identitySize)) 2
        (slice env.routerIdentity 0 env.identitySize)) (2 + env.identitySize) tsA)
        (2 + env.identitySize + 4) sig) = sig := by
  have hsz : 2 + env.identitySize + 4 + 40 ≤ phase3Size env := by
    unfold phase3Size; omega
  have l1 : (writeAt p0 0 (htobe16 env.identitySize)).length = phase3Size env := by
    rw [writeAt_length _ _ _ (by simp [htobe16]; omega), hp]
  have l2 : (writeAt (writeAt p0 0 (htobe16 env.identitySize)) 2
      (slice env.routerIdentity 0 env.identitySize)).length = phase3Size env := by
    rw [writeAt_length _ _ _ (by rw [slice_length, l1]; omega), l1]
  have l3 : (writeAt (writeAt (writeAt p0 0 (htobe16 env.identitySize)) 2
      (slice env.routerIdentity 0 env.identitySize)) (2 + env.identitySize) tsA).length =
      phase3Size env := by
    rw [writeAt_length _ _ _ (by rw [l2, ht]; omega), l2]
  have hi := slice_length env.routerIdentity 0 env.identitySize
  refine ⟨?_, ?_, ?_, ?_⟩
  · rw [writeAt_length _ _ _ (by rw [l3, hs]; omega), l3]
  · unfold phase3Ident
    rw [slice_writeAt_before _ _ _ _ _ (by rw [l3, hs]; omega) (by omega),
      slice_writeAt_before _ _ _ _ _ (by rw [l2, ht]; omega) (by omega)]
    have := slice_writeAt_self (writeAt p0 0 (htobe16 env.identitySize)) 2
      (slice env.routerIdentity 0 env.identitySize) (by rw [hi, l1]; omega)
    rw [hi] at this
    exact this
  · unfold phase3Timestamp
    rw [slice_writeAt_before _ _ _ _ _ (by rw [l3, hs]; omega) (by omega)]
    have := slice_writeAt_self (writeAt (writeAt p0 0 (htobe16 env.identitySize)) 2
      (slice env.routerIdentity 0 env.identitySize)) (2 + env.identitySize) tsA
      (by rw [ht, l2]; omega)
    rw [ht] at this
    exact this
  · unfold phase3Signature
    have := slice_writeAt_self (writeAt (writeAt (writeAt p0 0 (htobe16 env.identitySize)) 2
      (slice env.routerIdentity 0 env.identitySize)) (2 + env.identitySize) tsA)
      (2 + env.identitySize + 4) sig (by rw [hs, l3]; omega)
    rw [hs] at this
    exact this

theorem CreateAESKey_snd (env : Env) (s t : NTCPSession) (pubKey aesKey : Bytes) :
    (CreateAESKey env s pubKey aesKey).2 = (CreateAESKey env t pubKey aesKey).2 := by
  unfold CreateAESKey
  split
  · rfl
  · split <;> rfl

theorem decryptPhase2_phase2_congr (env : Env) (s t : NTCPSession)
    (h2 : s.m_Phase2 = t.m_Phase2) :
    (decryptPhase2 env s).m_Phase2 = (decryptPhase2 env t).m_Phase2 := by
  unfold decryptPhase2
  simp only [h2, CreateAESKey_snd env s t]

/-- The initiator reads the Phase2 record of the responder, finds the hash it
expects and sends Phase3. -/
theorem hs_stage3 (h : Handshake) (sec K plain : Bytes)
    (hsha : h.cenv.SHA256 = h.senv.SHA256)
    (hdecB : h.cenv.aesDecryptBlock = h.senv.aesDecryptBlock)
    (haes : h.senv.aesInverts)
    (hdhC : h.cenv.dhAgree h.cenv.privateKey (publicKey h.senv h.senv.routerIdentity) = some sec)
    (hK : K = (if sec.getD 0 0 &&& 128 ≠ 0 then [0] ++ slice sec 0 31 else slice sec 0 32))
    (hpl : plain.length = 48)
    (hp1 : slice plain 0 32 = sha256 h.senv
        (publicKey h.cenv h.cenv.routerIdentity ++ publicKey h.senv h.senv.routerIdentity))
    (hp2 : slice plain 32 4 = htobe32 h.nowB)
    (hS2 : h.server1.m_Phase2 =
        { pubKey := publicKey h.senv h.senv.routerIdentity,
          encrypted := (CBC.Encrypt h.senv
            { key := K, iv := slice (publicKey h.senv h.senv.routerIdentity) 240 16 } plain).1 })
    (hSw : h.server1.written =
      [publicKey h.senv h.senv.routerIdentity ++ h.server1.m_Phase2.encrypted]) :
    sha256 h.cenv (publicKey h.cenv h.cenv.routerIdentity ++
        slice (decryptPhase2 h.cenv (received h.cenv h.client1 Handler.HandlePhase2Received
          (h.server1.written.getD 0 []))).m_Phase2.pubKey 0 256) =
      (decryptPhase2 h.cenv (received h.cenv h.client1 Handler.HandlePhase2Received
          (h.server1.written.getD 0 []))).m_Phase2.hxy ∧
    ∃ plain3 : Bytes,
      plain3.length = phase3Size h.cenv ∧
      phase3Ident h.cenv plain3 = slice h.cenv.routerIdentity 0 h.cenv.identitySize ∧
      phase3Timestamp h.cenv plain3 = htobe32 h.nowA ∧
      phase3Signature h.cenv plain3 =
        slice (h.cenv.Sign (SignedData (publicKey h.cenv h.cenv.routerIdentity)
          (publicKey h.senv h.senv.routerIdentity) h.remote.identHash (htobe32 h.nowA)
          (htobe32 h.nowB))) 0 40 ∧
      h.client2.m_Phase3 = (CBC.Encrypt h.cenv
        { key := K, iv := slice h.client0.m_Phase1.HXxorHI 16 16 } plain3).1 ∧
      h.client2.written =
        [h.client0.m_Phase1.pubKey ++ h.client0.m_Phase1.HXxorHI, h.client2.m_Phase3] ∧
      h.client2.m_Decryption = (CBC.Encrypt h.senv
        { key := K, iv := slice (publicKey h.senv h.senv.routerIdentity) 240 16 } plain).2 ∧
      h.client2.m_Phase1 = h.client0.m_Phase1 ∧
      h.client2.m_Phase2 =
        { pubKey := publicKey h.senv h.senv.routerIdentity, encrypted := plain } ∧
      h.client2.m_RemoteRouterInfo = h.remote ∧
      h.client2.pending = [Handler.HandlePhase3Sent (htobe32 h.nowA)] ∧
      h.client2.destroyed = false ∧ h.client2.socketOpen = true ∧
      h.client2.m_IsEstablished = false := by
  have hyl : (publicKey h.senv h.senv.routerIdentity).length = 256 := publicKey_length _ _
  have hel : ((CBC.Encrypt h.senv
      { key := K, iv := slice (publicKey h.senv h.senv.routerIdentity) 240 16 } plain).1).length
      = 48 := by rw [Encrypt_length, hpl]
  have hwire : h.server1.written.getD 0 [] = publicKey h.senv h.senv.routerIdentity ++
      (CBC.Encrypt h.senv
        { key := K, iv := slice (publicKey h.senv h.senv.routerIdentity) 240 16 } plain).1 := by
    rw [hSw, hS2]; rfl
  -- the initiator after the write of Phase1 completed
  have hc1 : h.client1 = asyncRead { h.client0 with pending := [] } Handler.HandlePhase2Received :=
    by
    unfold Handshake.client1
    rw [step_complete _ _ _ _ _ _ rfl (by simp [Handshake.client0, ClientLogin, asyncWrite,
      NTCPSession.new])]
    rfl
  have hrec : ∀ s0 : NTCPSession,
      (received h.cenv s0 Handler.HandlePhase2Received (h.server1.written.getD 0 [])).m_Phase2 =
        { pubKey := publicKey h.senv h.senv.routerIdentity,
          encrypted := (CBC.Encrypt h.senv
            { key := K, iv := slice (publicKey h.senv h.senv.routerIdentity) 240 16 }
            plain).1 } := by
    intro s0
    rw [hwire, received_phase2 _ _ _ _ hyl hel]
  have hdecr : CBC.Decrypt h.cenv
      { key := K, iv := slice (publicKey h.senv h.senv.routerIdentity) 240 16 }
      (slice (CBC.Encrypt h.senv
        { key := K, iv := slice (publicKey h.senv h.senv.routerIdentity) 240 16 } plain).1 0 48) =
      (plain, (CBC.Encrypt h.senv
        { key := K, iv := slice (publicKey h.senv h.senv.routerIdentity) 240 16 } plain).2) := by
    rw [slice_full _ _ hel, Decrypt_congr _ _ hdecB,
      Decrypt_Encrypt h.senv haes _ _ (slice_length _ _ _)]
  have hxl : (publicKey h.cenv h.cenv.routerIdentity).length = 256 := publicKey_length _ _
  have hcheck : ∀ s0 : NTCPSession,
      (received h.cenv s0 Handler.HandlePhase2Received (h.server1.written.getD 0 [])).m_Phase2 =
        { pubKey := publicKey h.senv h.senv.routerIdentity,
          encrypted := (CBC.Encrypt h.senv
            { key := K, iv := slice (publicKey h.senv h.senv.routerIdentity) 240 16 }
            plain).1 } →
      (decryptPhase2 h.cenv (received h.cenv s0 Handler.HandlePhase2Received
          (h.server1.written.getD 0 []))).m_Phase2 =
        { pubKey := publicKey h.senv h.senv.routerIdentity, encrypted := plain } := by
    intro s0 hs0
    rw [decryptPhase2_agreed h.cenv _ sec (by rw [hs0]; exact hdhC)]
    simp only [hs0]
    rw [← hK, hdecr]
  have hhash : sha256 h.cenv (publicKey h.cenv h.cenv.routerIdentity ++
      slice (publicKey h.senv h.senv.routerIdentity) 0 256) = slice plain 0 32 := by
    rw [slice_full _ _ hyl, hp1, sha256_congr _ _ hsha]
  refine ⟨?_, ?_⟩
  · rw [hcheck _ (hrec _)]
    exact hhash
  -- the initiator with the record read
  have e2 : h.client2 = HandlePhase2Received h.cenv h.nowA
      (received h.cenv { h.client1 with pending := [] } Handler.HandlePhase2Received
        (h.server1.written.getD 0 [])) false := by
    unfold Handshake.client2
    rw [step_complete _ _ _ _ _ _ (by rw [hc1]; rfl) (by rw [hc1]; simp [asyncRead])]
    have : h.client1.pending.erase Handler.HandlePhase2Received = [] := by
      rw [hc1]; simp [asyncRead]
    rw [this]
    rfl
  have f1 : (received h.cenv { h.client1 with pending := [] } Handler.HandlePhase2Received
      (h.server1.written.getD 0 [])).m_Phase1 = h.client0.m_Phase1 := by rw [hc1]; rfl
  have f2 : (received h.cenv { h.client1 with pending := [] } Handler.HandlePhase2Received
      (h.server1.written.getD 0 [])).socketOpen = true := by rw [hc1]; rfl
  have f3 : (received h.cenv { h.client1 with pending := [] } Handler.HandlePhase2Received
      (h.server1.written.getD 0 [])).written =
      [h.client0.m_Phase1.pubKey ++ h.client0.m_Phase1.HXxorHI] := by rw [hc1]; rfl
  have f4 : (received h.cenv { h.client1 with pending := [] } Handler.HandlePhase2Received
      (h.server1.written.getD 0 [])).pending = [] := rfl
  have f5 : (received h.cenv { h.client1 with pending := [] } Handler.HandlePhase2Received
      (h.server1.written.getD 0 [])).destroyed = false := by rw [hc1]; rfl
  have f6 : (received h.cenv { h.client1 with pending := [] } Handler.HandlePhase2Received
      (h.server1.written.getD 0 [])).m_IsEstablished = false := by rw [hc1]; rfl
  have f7 : (received h.cenv { h.client1 with pending := [] } Handler.HandlePhase2Received
      (h.server1.written.getD 0 [])).m_RemoteRouterInfo = h.remote := by rw [hc1]; rfl
  have f8 := hrec { h.client1 with pending := [] }
  generalize received h.cenv { h.client1 with pending := [] } Handler.HandlePhase2Received
      (h.server1.written.getD 0 []) = c1r at e2 f1 f2 f3 f4 f5 f6 f7 f8
  have hd := decryptPhase2_agreed h.cenv c1r sec (by rw [f8]; exact hdhC)
  simp only [f8] at hd
  rw [← hK, hdecr] at hd
  have g1 : (decryptPhase2 h.cenv c1r).m_Phase1 = h.client0.m_Phase1 := by rw [hd]; exact f1
  have g2 : (decryptPhase2 h.cenv c1r).m_Phase2 =
      { pubKey := publicKey h.senv h.senv.routerIdentity, encrypted := plain } := by rw [hd]
  have g3 : (decryptPhase2 h.cenv c1r).m_Decryption = (CBC.Encrypt h.senv
        { key := K, iv := slice (publicKey h.senv h.senv.routerIdentity) 240 16 } plain).2 := by
    rw [hd]
  have g4 : (decryptPhase2 h.cenv c1r).m_Encryption =
      { key := K, iv := slice h.client0.m_Phase1.HXxorHI 16 16 } := by rw [hd, f1]
  have g5 : (decryptPhase2 h.cenv c1r).socketOpen = true := by rw [hd]; exact f2
  have g6 : (decryptPhase2 h.cenv c1r).written =
      [h.client0.m_Phase1.pubKey ++ h.client0.m_Phase1.HXxorHI] := by rw [hd]; exact f3
  have g7 : (decryptPhase2 h.cenv c1r).pending = [] := by rw [hd]; exact f4
  have g8 : (decryptPhase2 h.cenv c1r).destroyed = false := by rw [hd]; exact f5
  have g9 : (decryptPhase2 h.cenv c1r).m_IsEstablished = false := by rw [hd]; exact f6
  have g10 : (decryptPhase2 h.cenv c1r).m_RemoteRouterInfo = h.remote := by rw [hd]; exact f7
  have e3 : h.client2 = SendPhase3 h.cenv h.nowA (decryptPhase2 h.cenv c1r) := by
    rw [e2]
    unfold HandlePhase2Received
    rw [if_neg (by simp)]
    simp only []
    rw [if_neg]
    rw [g2]
    simp only [NTCPPhase2.hxy, ne_eq, not_not]
    exact hhash
  clear hd
  generalize decryptPhase2 h.cenv c1r = c2d at e3 g1 g2 g3 g4 g5 g6 g7 g8 g9 g10
  obtain ⟨a1, a2, a3, a4, a5, a6, _, a8, a9, a10⟩ := SendPhase3_fields h.cenv h.nowA c2d g5
  rw [← e3] at a1 a2 a3 a4 a5 a6 a8 a9 a10
  obtain ⟨q1, q2, q3, q4⟩ := phase3Plain h.cenv (slice c2d.m_Phase3 0 (phase3Size h.cenv))
    (htobe32 h.nowA)
    (slice (h.cenv.Sign (SignedData (publicKey h.cenv h.cenv.routerIdentity)
          (publicKey h.senv h.senv.routerIdentity) h.remote.identHash (htobe32 h.nowA)
          (htobe32 h.nowB))) 0 40) (slice_length _ _ _) rfl (slice_length _ _ _)
  refine ⟨_, q1, q2, q3, q4, ?_, ?_, a8.trans g3, a5.trans g1, a6.trans g2, a9.trans g10, ?_,
    a3.trans g8, a4, a10.trans g9⟩
  · rw [e3]
    show (CBC.Encrypt h.cenv c2d.m_Encryption
      (writeAt (writeAt (writeAt (writeAt (slice c2d.m_Phase3 0 (phase3Size h.cenv)) 0
      (htobe16 h.cenv.identitySize)) 2 (slice h.cenv.routerIdentity 0 h.cenv.identitySize))
      (2 + h.cenv.identitySize) (htobe32 h.nowA)) (2 + h.cenv.identitySize + 4)
      (slice (h.cenv.Sign (SignedData c2d.m_Phase1.pubKey c2d.m_Phase2.pubKey
        c2d.m_RemoteRouterInfo.identHash (htobe32 h.nowA) c2d.m_Phase2.timestamp)) 0 40))).1 = _
    rw [g4, g1, g2, g10]
    show (CBC.Encrypt h.cenv _ (writeAt _ _
      (slice (h.cenv.Sign (SignedData _ _ _ _ (slice plain 32 4))) 0 40))).1 = _
    rw [hp2]
    rfl
  · rw [a1, g6]; rfl
  · rw [a2, g7]; rfl

theorem SendPhase4_fields (env : Env) (s : NTCPSession) (tsB : Bytes)
    (hopen : s.socketOpen = true) :
    (SendPhase4 env s tsB).written = s.written ++ [(SendPhase4 env s tsB).m_Phase4] ∧
    (SendPhase4 env s tsB).pending = s.pending ++ [Handler.HandlePhase4Sent] ∧
    (SendPhase4 env s tsB).destroyed = s.destroyed ∧
    (SendPhase4 env s tsB).socketOpen = true ∧
    (SendPhase4 env s tsB).m_IsEstablished = s.m_IsEstablished := by
  unfold SendPhase4
  simp [asyncWrite, hopen]

theorem phase3Size_congr (env1 env2 : Env) (h : env1.identitySize = env2.identitySize) :
    phase3Size env1 = phase3Size env2 := by
  simp [phase3Size, h]

/-- The responder reads the Phase3 record of the initiator, accepts its
signature and sends Phase4. -/
theorem hs_stage4 (h : Handshake) (K plain3 : Bytes) (encS : CBC)
    (hencB : h.cenv.aesEncryptBlock = h.senv.aesEncryptBlock)
    (haes : h.senv.aesInverts)
    (hsize : h.cenv.identitySize = h.senv.identitySize)
    (hident : h.remote.identHash = h.senv.identHash)
    (hdsaS : ∀ msg, h.senv.dsaVerify
      (signingKey h.senv (slice h.cenv.routerIdentity 0 h.cenv.identitySize)) msg
      (slice (h.cenv.Sign msg) 0 40) = true)
    (hS1 : h.server1.m_Phase1 = h.client0.m_Phase1)
    (hS2 : h.server1.m_Phase2.pubKey = publicKey h.senv h.senv.routerIdentity)
    (hSd : h.server1.m_Decryption = { key := K, iv := slice h.client0.m_Phase1.HXxorHI 16 16 })
    (hSe : h.server1.m_Encryption = encS)
    (hSw : h.server1.written =
      [publicKey h.senv h.senv.routerIdentity ++ h.server1.m_Phase2.encrypted])
    (hSp : h.server1.pending = [Handler.HandlePhase2Sent (htobe32 h.nowB)])
    (hSx : h.server1.destroyed = false) (hSo : h.server1.socketOpen = true)
    (hSi : h.server1.m_IsEstablished = false)
    (q1 : plain3.length = phase3Size h.cenv)
    (q2 : phase3Ident h.cenv plain3 = slice h.cenv.routerIdentity 0 h.cenv.identitySize)
    (q3 : phase3Timestamp h.cenv plain3 = htobe32 h.nowA)
    (q4 : phase3Signature h.cenv plain3 =
        slice (h.cenv.Sign (SignedData (publicKey h.cenv h.cenv.routerIdentity)
          (publicKey h.senv h.senv.routerIdentity) h.remote.identHash (htobe32 h.nowA)
          (htobe32 h.nowB))) 0 40)
    (hC3 : h.client2.m_Phase3 = (CBC.Encrypt h.cenv
        { key := K, iv := slice h.client0.m_Phase1.HXxorHI 16 16 } plain3).1)
    (hCw : h.client2.written =
        [h.client0.m_Phase1.pubKey ++ h.client0.m_Phase1.HXxorHI, h.client2.m_Phase3]) :
    phase3SignatureValid h.senv
      (received h.senv h.server2 (Handler.HandlePhase3Received (htobe32 h.nowB))
        (h.client2.written.getD 1 [])) (htobe32 h.nowB) = true ∧
    ∃ plain4 : Bytes,
      plain4.length = 48 ∧
      phase4Signature plain4 =
        slice (h.senv.Sign (SignedData (publicKey h.cenv h.cenv.routerIdentity)
          (publicKey h.senv h.senv.routerIdentity)
          (sha256 h.senv (slice h.cenv.routerIdentity 0 h.cenv.identitySize)) (htobe32 h.nowA)
          (htobe32 h.nowB))) 0 40 ∧
      h.server3.m_Phase4 = (CBC.Encrypt h.senv encS plain4).1 ∧
      h.server3.written =
        [publicKey h.senv h.senv.routerIdentity ++ h.server1.m_Phase2.encrypted,
          h.server3.m_Phase4] ∧
      h.server3.pending = [Handler.HandlePhase4Sent] ∧
      h.server3.destroyed = false ∧ h.server3.socketOpen = true ∧
      h.server3.m_IsEstablished = false := by
  have hx : h.client0.m_Phase1.pubKey = publicKey h.cenv h.cenv.routerIdentity := rfl
  have hwire : h.client2.written.getD 1 [] = (CBC.Encrypt h.cenv
        { key := K, iv := slice h.client0.m_Phase1.HXxorHI 16 16 } plain3).1 := by
    rw [hCw, hC3]; rfl
  have hps := phase3Size_congr _ _ hsize
  have hel : ((CBC.Encrypt h.cenv
        { key := K, iv := slice h.client0.m_Phase1.HXxorHI 16 16 } plain3).1).length =
      phase3Size h.senv := by rw [Encrypt_length, q1, hps]
  have hs2 : h.server2 = asyncRead { h.server1 with pending := [] }
      (Handler.HandlePhase3Received (htobe32 h.nowB)) := by
    unfold Handshake.server2
    rw [step_complete _ _ _ _ _ _ hSx (by rw [hSp]; simp)]
    have : h.server1.pending.erase (Handler.HandlePhase2Sent (htobe32 h.nowB)) = [] := by
      rw [hSp]; simp
    rw [this]
    rfl
  have hdecr : CBC.Decrypt h.senv { key := K, iv := slice h.client0.m_Phase1.HXxorHI 16 16 }
      (slice (CBC.Encrypt h.cenv
        { key := K, iv := slice h.client0.m_Phase1.HXxorHI 16 16 } plain3).1 0
        (phase3Size h.senv)) =
      (plain3, (CBC.Encrypt h.senv
        { key := K, iv := slice h.client0.m_Phase1.HXxorHI 16 16 } plain3).2) := by
    rw [slice_full _ _ hel, Encrypt_congr _ _ hencB,
      Decrypt_Encrypt h.senv haes _ _ (slice_length _ _ _)]
  have p2 : phase3Ident h.senv plain3 = slice h.cenv.routerIdentity 0 h.cenv.identitySize := by
    rw [← q2]; simp [phase3Ident, hsize]
  have p3 : phase3Timestamp h.senv plain3 = htobe32 h.nowA := by
    rw [← q3]; simp [phase3Timestamp, hsize]
  have p4 : phase3Signature h.senv plain3 =
      slice (h.cenv.Sign (SignedData (publicKey h.cenv h.cenv.routerIdentity)
          (publicKey h.senv h.senv.routerIdentity) h.senv.identHash (htobe32 h.nowA)
          (htobe32 h.nowB))) 0 40 := by
    rw [← hident, ← q4]; simp [phase3Signature, hsize]
  have hss : ∀ w : Bytes, slice (slice w 0 (phase3Size h.senv)) 0 (phase3Size h.senv) =
      slice w 0 (phase3Size h.senv) := fun w => slice_full _ _ (slice_length _ _ _)
  have hvalid : ∀ s0 : NTCPSession,
      s0.m_Decryption = { key := K, iv := slice h.client0.m_Phase1.HXxorHI 16 16 } →
      s0.m_Phase1 = h.client0.m_Phase1 →
      s0.m_Phase2.pubKey = publicKey h.senv h.senv.routerIdentity →
      phase3SignatureValid h.senv
        (received h.senv s0 (Handler.HandlePhase3Received (htobe32 h.nowB))
          (h.client2.written.getD 1 [])) (htobe32 h.nowB) = true := by
    intro s0 hd h1 h2
    unfold phase3SignatureValid
    simp only [received]
    rw [hss, hwire, hd, hdecr, h1, h2, hx]
    simp only []
    rw [p2, p3, p4]
    exact hdsaS _
  refine ⟨hvalid _ (by rw [hs2]; exact hSd) (by rw [hs2]; exact hS1) (by rw [hs2]; exact hS2), ?_⟩
  have e3 : h.server3 = HandlePhase3Received h.senv
      (received h.senv { h.server2 with pending := [] }
        (Handler.HandlePhase3Received (htobe32 h.nowB)) (h.client2.written.getD 1 []))
      false (htobe32 h.nowB) := by
    unfold Handshake.server3
    rw [step_complete _ _ _ _ _ _ (by rw [hs2]; exact hSx) (by rw [hs2]; simp [asyncRead])]
    have : h.server2.pending.erase (Handler.HandlePhase3Received (htobe32 h.nowB)) = [] := by
      rw [hs2]; simp [asyncRead]
    rw [this]
    rfl
  have hv := hvalid { h.server2 with pending := [] } (by rw [hs2]; exact hSd)
    (by rw [hs2]; exact hS1) (by rw [hs2]; exact hS2)
  have f1 : (received h.senv { h.server2 with pending := [] }
        (Handler.HandlePhase3Received (htobe32 h.nowB)) (h.client2.written.getD 1 [])).m_Phase1
      = h.client0.m_Phase1 := by rw [hs2]; exact hS1
  have f2 : (received h.senv { h.server2 with pending := [] }
        (Handler.HandlePhase3Received (htobe32 h.nowB))
        (h.client2.written.getD 1 [])).m_Phase2 = h.server1.m_Phase2 := by rw [hs2]; rfl
  have f3 : (received h.senv { h.server2 with pending := [] }
        (Handler.HandlePhase3Received (htobe32 h.nowB))
        (h.client2.written.getD 1 [])).m_Decryption =
      { key := K, iv := slice h.client0.m_Phase1.HXxorHI 16 16 } := by rw [hs2]; exact hSd
  have f4 : (received h.senv { h.server2 with pending := [] }
        (Handler.HandlePhase3Received (htobe32 h.nowB))
        (h.client2.written.getD 1 [])).m_Encryption = encS := by rw [hs2]; exact hSe
  have f5 : (received h.senv { h.server2 with pending := [] }
        (Handler.HandlePhase3Received (htobe32 h.nowB))
        (h.client2.written.getD 1 [])).written =
      [publicKey h.senv h.senv.routerIdentity ++ h.server1.m_Phase2.encrypted] := by
    rw [hs2]; exact hSw
  have f6 : (received h.senv { h.server2 with pending := [] }
        (Handler.HandlePhase3Received (htobe32 h.nowB))
        (h.client2.written.getD 1 [])).pending = [] := rfl
  have f7 : (received h.senv { h.server2 with pending := [] }
        (Handler.HandlePhase3Received (htobe32 h.nowB))
        (h.client2.written.getD 1 [])).destroyed = false := by rw [hs2]; exact hSx
  have f8 : (received h.senv { h.server2 with pending := [] }
        (Handler.HandlePhase3Received (htobe32 h.nowB))
        (h.client2.written.getD 1 [])).socketOpen = true := by rw [hs2]; exact hSo
  have f9 : (received h.senv { h.server2 with pending := [] }
        (Handler.HandlePhase3Received (htobe32 h.nowB))
        (h.client2.written.getD 1 [])).m_IsEstablished = false := by rw [hs2]; exact hSi
  have f10 : (received h.senv { h.server2 with pending := [] }
        (Handler.HandlePhase3Received (htobe32 h.nowB))
        (h.client2.written.getD 1 [])).m_Phase3 =
      slice (CBC.Encrypt h.cenv
        { key := K, iv := slice h.client0.m_Phase1.HXxorHI 16 16 } plain3).1 0
        (phase3Size h.senv) := by rw [← hwire]; rfl
  generalize received h.senv { h.server2 with pending := [] }
        (Handler.HandlePhase3Received (htobe32 h.nowB)) (h.client2.written.getD 1 []) = s2r
    at e3 hv f1 f2 f3 f4 f5 f6 f7 f8 f9 f10
  -- the session `SendPhase4` is called on
  have hdec2 : s2r.m_Decryption.Decrypt h.senv (slice s2r.m_Phase3 0 (phase3Size h.senv)) =
      (plain3, (CBC.Encrypt h.senv
        { key := K, iv := slice h.client0.m_Phase1.HXxorHI 16 16 } plain3).2) := by
    rw [f10, hss, f3, hdecr]
  have e4 : ∃ s3d : NTCPSession, h.server3 = SendPhase4 h.senv s3d (htobe32 h.nowB) ∧
      s3d.m_Phase1 = h.client0.m_Phase1 ∧ s3d.m_Phase2 = h.server1.m_Phase2 ∧
      s3d.m_Phase3 = plain3 ∧ s3d.m_Encryption = encS ∧
      s3d.m_RemoteRouterInfo.identHash =
        sha256 h.senv (slice h.cenv.routerIdentity 0 h.cenv.identitySize) ∧
      s3d.written = [publicKey h.senv h.senv.routerIdentity ++ h.server1.m_Phase2.encrypted] ∧
      s3d.pending = [] ∧ s3d.destroyed = false ∧ s3d.socketOpen = true ∧
      s3d.m_IsEstablished = false := by
    refine ⟨{ s2r with
        m_Decryption := (s2r.m_Decryption.Decrypt h.senv
          (slice s2r.m_Phase3 0 (phase3Size h.senv))).2,
        m_Phase3 := (s2r.m_Decryption.Decrypt h.senv
          (slice s2r.m_Phase3 0 (phase3Size h.senv))).1,
        m_RemoteRouterInfo := s2r.m_RemoteRouterInfo.SetRouterIdentity h.senv
          (phase3Ident h.senv (s2r.m_Decryption.Decrypt h.senv
            (slice s2r.m_Phase3 0 (phase3Size h.senv))).1) }, ?_, f1, f2, ?_, f4, ?_, f5, f6, f7,
        f8, f9⟩
    · rw [e3]
      unfold phase3SignatureValid at hv
      unfold HandlePhase3Received
      simp only [Bool.false_eq_true, if_false, RouterInfo.SetRouterIdentity, hv, Bool.not_true]
    · show (s2r.m_Decryption.Decrypt h.senv (slice s2r.m_Phase3 0 (phase3Size h.senv))).1 = _
      rw [hdec2]
    · show sha256 h.senv (phase3Ident h.senv (s2r.m_Decryption.Decrypt h.senv
        (slice s2r.m_Phase3 0 (phase3Size h.senv))).1) = _
      rw [hdec2]
      simp only []
      rw [p2]
  obtain ⟨s3d, e5, g1, g2, g3, g4, g5, g6, g7, g8, g9, g10⟩ := e4
  obtain ⟨a1, a2, a3, a4, a5⟩ := SendPhase4_fields h.senv s3d (htobe32 h.nowB) g9
  rw [← e5] at a1 a2 a3 a4 a5
  refine ⟨writeAt (slice s3d.m_Phase4 0 phase4Size) 0
    (slice (h.senv.Sign (SignedData (publicKey h.cenv h.cenv.routerIdentity)
          (publicKey h.senv h.senv.routerIdentity)
          (sha256 h.senv (slice h.cenv.routerIdentity 0 h.cenv.identitySize)) (htobe32 h.nowA)
          (htobe32 h.nowB))) 0 40), ?_, ?_, ?_, ?_, ?_, a3.trans g8, a4, a5.trans g10⟩
  · rw [writeAt_length _ _ _ (by simp [slice_length, phase4Size]), slice_length]
    rfl
  · unfold phase4Signature
    have := slice_writeAt_self (slice s3d.m_Phase4 0 phase4Size) 0
      (slice (h.senv.Sign (SignedData (publicKey h.cenv h.cenv.routerIdentity)
          (publicKey h.senv h.senv.routerIdentity)
          (sha256 h.senv (slice h.cenv.routerIdentity 0 h.cenv.identitySize)) (htobe32 h.nowA)
          (htobe32 h.nowB))) 0 40) (by simp [slice_length, phase4Size])
    rw [slice_length] at this
    exact this
  · rw [e5]
    show (CBC.Encrypt h.senv s3d.m_Encryption (writeAt (slice s3d.m_Phase4 0 phase4Size) 0
      (slice (h.senv.Sign (SignedData s3d.m_Phase1.pubKey s3d.m_Phase2.pubKey
        s3d.m_RemoteRouterInfo.identHash (phase3Timestamp h.senv s3d.m_Phase3)
        (htobe32 h.nowB))) 0 40))).1 = _
    rw [g4, g1, g2, g3, g5, p3, hS2, hx]
  · rw [a1, g6]; rfl
  · rw [a2, g7]; rfl

theorem Send_registered (env : Env) (now : Nat) (s : NTCPSession) (msg : Option I2NPMessage) :
    (Send env now s msg).registered = s.registered := by
  cases msg with
  | none => simp [Send, asyncWrite]
  | some m => by_cases h : m.offset < 2 <;> simp [Send, asyncWrite, h]

theorem SendI2NPMessage_life (env : Env) (now : Nat) (s : NTCPSession)
    (msg : Option I2NPMessage) :
    (SendI2NPMessage env now s msg).destroyed = s.destroyed ∧
    (SendI2NPMessage env now s msg).registered = s.registered := by
  cases msg with
  | none => exact ⟨rfl, rfl⟩
  | some m =>
    unfold SendI2NPMessage
    simp only []
    split
    · exact ⟨Send_destroyed env now s (some m), Send_registered env now s (some m)⟩
    · exact ⟨rfl, rfl⟩

/-- `Connected` registers the session and does not end it. -/
theorem Connected_life (env : Env) (now : Nat) (s : NTCPSession) :
    (Connected env now s).destroyed = s.destroyed ∧
    (Connected env now s).registered = true := by
  unfold Connected
  simp only [SendTimeSyncMessage]
  have h1d := Send_destroyed env now { s with m_IsEstablished := true, registered := true } none
  have h1r := Send_registered env now { s with m_IsEstablished := true, registered := true } none
  have h2 := SendI2NPMessage_life env now
    (Send env now { s with m_IsEstablished := true, registered := true } none)
    (some env.CreateDatabaseStoreMsg)
  split
  · rename_i d hd
    have h3 := SendI2NPMessage_life env now
      { SendI2NPMessage env now
          (Send env now { s with m_IsEstablished := true, registered := true } none)
          (some env.CreateDatabaseStoreMsg) with m_DelayedMessage := none } (some d)
    exact ⟨h3.1.trans (h2.1.trans h1d), h3.2.trans (h2.2.trans h1r)⟩
  · exact ⟨h2.1.trans h1d, h2.2.trans h1r⟩

theorem HandlePhase4Sent_connected (env : Env) (now : Nat) (s : NTCPSession) :
    (HandlePhase4Sent env now s false).m_IsEstablished = true ∧
    (HandlePhase4Sent env now s false).destroyed = s.destroyed ∧
    (HandlePhase4Sent env now s false).registered = true := by
  unfold HandlePhase4Sent
  rw [if_neg (by simp)]
  exact ⟨Connected_established env now s, (Connected_life env now s).1,
    (Connected_life env now s).2⟩

theorem HandlePhase4Received_connected (env : Env) (now : Nat) (s : NTCPSession) (tsA : Bytes)
    (h : phase4SignatureValid env s tsA = true) :
    (HandlePhase4Received env now s false tsA).m_IsEstablished = true ∧
    (HandlePhase4Received env now s false tsA).destroyed = s.destroyed ∧
    (HandlePhase4Received env now s false tsA).registered = true := by
  unfold phase4SignatureValid at h
  unfold HandlePhase4Received
  simp only [Bool.false_eq_true, if_false, h, Bool.not_true]
  exact ⟨Connected_established env now _, (Connected_life env now _).1,
    (Connected_life env now _).2⟩

/-- The initiator reads the Phase4 record of the responder and accepts its
signature; both sides are connected. -/
theorem hs_stage5 (h : Handshake) (plain plain4 : Bytes) (encS : CBC)
    (hsha : h.cenv.SHA256 = h.senv.SHA256)
    (hdecB : h.cenv.aesDecryptBlock = h.senv.aesDecryptBlock)
    (haes : h.senv.aesInverts)
    (hlocal : h.cenv.identHash =
      sha256 h.cenv (slice h.cenv.routerIdentity 0 h.cenv.identitySize))
    (hdsaC : ∀ msg, h.cenv.dsaVerify (signingKey h.cenv h.remote.identity) msg
      (slice (h.senv.Sign msg) 0 40) = true)
    (hiv : encS.iv.length = 16)
    (hCd : h.client2.m_Decryption = encS)
    (hC1 : h.client2.m_Phase1 = h.client0.m_Phase1)
    (hC2 : h.client2.m_Phase2 =
      { pubKey := publicKey h.senv h.senv.routerIdentity, encrypted := plain })
    (hp2 : slice plain 32 4 = htobe32 h.nowB)
    (hCr : h.client2.m_RemoteRouterInfo = h.remote)
    (hCp : h.client2.pending = [Handler.HandlePhase3Sent (htobe32 h.nowA)])
    (hCx : h.client2.destroyed = false)
    (r2 : phase4Signature plain4 =
        slice (h.senv.Sign (SignedData (publicKey h.cenv h.cenv.routerIdentity)
          (publicKey h.senv h.senv.routerIdentity)
          (sha256 h.senv (slice h.cenv.routerIdentity 0 h.cenv.identitySize)) (htobe32 h.nowA)
          (htobe32 h.nowB))) 0 40)
    (r1 : plain4.length = 48)
    (hS4 : h.server3.m_Phase4 = (CBC.Encrypt h.senv encS plain4).1)
    (hSw : h.server3.written =
        [publicKey h.senv h.senv.routerIdentity ++ h.server1.m_Phase2.encrypted,
          h.server3.m_Phase4])
    (hSp : h.server3.pending = [Handler.HandlePhase4Sent])
    (hSx : h.server3.destroyed = false) :
    phase4SignatureValid h.cenv
      (received h.cenv h.client3 (Handler.HandlePhase4Received (htobe32 h.nowA))
        (h.server3.written.getD 1 [])) (htobe32 h.nowA) = true ∧
    (h.client4.m_IsEstablished = true ∧ h.client4.destroyed = false ∧
      h.client4.registered = true) ∧
    (h.server4.m_IsEstablished = true ∧ h.server4.destroyed = false ∧
      h.server4.registered = true) := by
  have hx : h.client0.m_Phase1.pubKey = publicKey h.cenv h.cenv.routerIdentity := rfl
  have hwire : h.server3.written.getD 1 [] = (CBC.Encrypt h.senv encS plain4).1 := by
    rw [hSw, hS4]; rfl
  have hel : ((CBC.Encrypt h.senv encS plain4).1).length = phase4Size := by
    rw [Encrypt_length, r1]; rfl
  have hc3 : h.client3 = asyncRead { h.client2 with pending := [] }
      (Handler.HandlePhase4Received (htobe32 h.nowA)) := by
    unfold Handshake.client3
    rw [step_complete _ _ _ _ _ _ hCx (by rw [hCp]; simp)]
    have : h.client2.pending.erase (Handler.HandlePhase3Sent (htobe32 h.nowA)) = [] := by
      rw [hCp]; simp
    rw [this]
    rfl
  have hdecr : CBC.Decrypt h.cenv encS
      (slice (slice (CBC.Encrypt h.senv encS plain4).1 0 phase4Size) 0 phase4Size) =
      (plain4, (CBC.Encrypt h.senv encS plain4).2) := by
    rw [slice_full _ _ (slice_length _ _ _), slice_full _ _ hel, Decrypt_congr _ _ hdecB,
      Decrypt_Encrypt h.senv haes _ _ hiv]
  have hvalid : ∀ s0 : NTCPSession,
      s0.m_Decryption = encS → s0.m_Phase1 = h.client0.m_Phase1 →
      s0.m_Phase2 = { pubKey := publicKey h.senv h.senv.routerIdentity, encrypted := plain } →
      s0.m_RemoteRouterInfo = h.remote →
      phase4SignatureValid h.cenv
        (received h.cenv s0 (Handler.HandlePhase4Received (htobe32 h.nowA))
          (h.server3.written.getD 1 [])) (htobe32 h.nowA) = true := by
    intro s0 hd h1 h2 h3
    unfold phase4SignatureValid
    simp only [received]
    rw [hwire, hd, hdecr, h1, h2, h3, hx]
    simp only [NTCPPhase2.timestamp]
    rw [hp2, r2, hlocal, sha256_congr _ _ hsha]
    exact hdsaC _
  refine ⟨hvalid _ (by rw [hc3]; exact hCd) (by rw [hc3]; exact hC1) (by rw [hc3]; exact hC2)
    (by rw [hc3]; exact hCr), ?_, ?_⟩
  · have e4 : h.client4 = HandlePhase4Received h.cenv h.nowC
        (received h.cenv { h.client3 with pending := [] }
          (Handler.HandlePhase4Received (htobe32 h.nowA)) (h.server3.written.getD 1 []))
        false (htobe32 h.nowA) := by
      unfold Handshake.client4
      rw [step_complete _ _ _ _ _ _ (by rw [hc3]; exact hCx) (by rw [hc3]; simp [asyncRead])]
      have : h.client3.pending.erase (Handler.HandlePhase4Received (htobe32 h.nowA)) = [] := by
        rw [hc3]; simp [asyncRead]
      rw [this]
      rfl
    have hv := hvalid { h.client3 with pending := [] } (by rw [hc3]; exact hCd)
      (by rw [hc3]; exact hC1) (by rw [hc3]; exact hC2) (by rw [hc3]; exact hCr)
    obtain ⟨k1, k2, k3⟩ := HandlePhase4Received_connected h.cenv h.nowC _ _ hv
    rw [← e4] at k1 k2 k3
    refine ⟨k1, k2.trans ?_, k3⟩
    rw [hc3]
    exact hCx
  · have e4 : h.server4 = HandlePhase4Sent h.senv h.nowS { h.server3 with pending := [] }
        false := by
      unfold Handshake.server4
      rw [step_complete _ _ _ _ _ _ hSx (by rw [hSp]; simp)]
      have : h.server3.pending.erase Handler.HandlePhase4Sent = [] := by
        rw [hSp]; simp
      rw [this]
      rfl
    obtain ⟨k1, k2, k3⟩ := HandlePhase4Sent_connected h.senv h.nowS { h.server3 with pending := [] }
    rw [← e4] at k1 k2 k3
    exact ⟨k1, k2.trans hSx, k3⟩

/-! ## Completeness of the handshake -/

/-- C11: an initiator and a responder run the handshake without I/O error,
each read returning what the other side wrote.  Both sides use the same
SHA-256 and AES, and AES decryption undoes AES encryption; the identity hash
the initiator has of the responder is the responder's own; the agreement gives
both sides the same secret; the initiator's own identity hash is the digest of
its identity; each side accepts the signatures the other side makes.  Then the
identity check of Phase1, the hash check of Phase2 and the signature checks of
Phase3 and Phase4 pass, and both sessions end established, registered by
`Connected` and alive. -/
theorem honest_handshake_completes (h : Handshake) (sec : Bytes)
    (hsha : h.cenv.SHA256 = h.senv.SHA256)
    (hencB : h.cenv.aesEncryptBlock = h.senv.aesEncryptBlock)
    (hdecB : h.cenv.aesDecryptBlock = h.senv.aesDecryptBlock)
    (haes : h.senv.aesInverts)
    (hsize : h.cenv.identitySize = h.senv.identitySize)
    (hident : h.remote.identHash = h.senv.identHash)
    (hlocal : h.cenv.identHash =
      sha256 h.cenv (slice h.cenv.routerIdentity 0 h.cenv.identitySize))
    (hdhC : h.cenv.dhAgree h.cenv.privateKey (publicKey h.senv h.senv.routerIdentity) = some sec)
    (hdhS : h.senv.dhAgree h.senv.privateKey (publicKey h.cenv h.cenv.routerIdentity) = some sec)
    (hdsaS : ∀ msg, h.senv.dsaVerify
      (signingKey h.senv (slice h.cenv.routerIdentity 0 h.cenv.identitySize)) msg
      (slice (h.cenv.Sign msg) 0 40) = true)
    (hdsaC : ∀ msg, h.cenv.dsaVerify (signingKey h.cenv h.remote.identity) msg
      (slice (h.senv.Sign msg) 0 40) = true) :
    identMatches
      (received h.senv h.server0 Handler.HandlePhase1Received
        (h.client0.written.getD 0 [])).m_Phase1.HXxorHI h.senv.identHash
      (sha256 h.senv (slice (received h.senv h.server0 Handler.HandlePhase1Received
        (h.client0.written.getD 0 [])).m_Phase1.pubKey 0 256)) = true ∧
    sha256 h.cenv (publicKey h.cenv h.cenv.routerIdentity ++
        slice (decryptPhase2 h.cenv (received h.cenv h.client1 Handler.HandlePhase2Received
          (h.server1.written.getD 0 []))).m_Phase2.pubKey 0 256) =
      (decryptPhase2 h.cenv (received h.cenv h.client1 Handler.HandlePhase2Received
          (h.server1.written.getD 0 []))).m_Phase2.hxy ∧
    phase3SignatureValid h.senv
      (received h.senv h.server2 (Handler.HandlePhase3Received (htobe32 h.nowB))
        (h.client2.written.getD 1 [])) (htobe32 h.nowB) = true ∧
    phase4SignatureValid h.cenv
      (received h.cenv h.client3 (Handler.HandlePhase4Received (htobe32 h.nowA))
        (h.server3.written.getD 1 [])) (htobe32 h.nowA) = true ∧
    (h.client4.m_IsEstablished = true ∧ h.client4.destroyed = false ∧
      h.client4.registered = true) ∧
    (h.server4.m_IsEstablished = true ∧ h.server4.destroyed = false ∧
      h.server4.registered = true) := by
  obtain ⟨_, t2, t3, _⟩ := hs_stage1 h hsha hident
  obtain ⟨K, plain, hK, hpl, hp1, hp2, s2, s3, s4, s5, s6, s7, s8, s9, s10⟩ :=
    hs_stage2 h sec hsha hident hdhS
  obtain ⟨c1, plain3, q1, q2, q3, q4, c2, c3, c4, c5, c6, c7, c8, c9, _, _⟩ :=
    hs_stage3 h sec K plain hsha hdecB haes hdhC hK hpl hp1 hp2 s2 s6
  obtain ⟨v3, plain4, r1, r2, u1, u2, u3, u4, _, _⟩ :=
    hs_stage4 h K plain3 _ hencB haes hsize hident hdsaS s5 (by rw [s2]) s4 s3 s6 s7 s8 s9 s10
      q1 q2 q3 q4 c2 c3
  obtain ⟨v4, k1, k2⟩ :=
    hs_stage5 h plain plain4 _ hsha hdecB haes hlocal hdsaC
      (Encrypt_iv_length _ _ _ (slice_length _ _ _)) c4 c5 c6 hp2 c7 c8 c9 r2 r1 u1 u2 u3 u4
  refine ⟨?_, c1, v3, v4, k1, k2⟩
  rw [t2]
  exact t3

set_option maxRecDepth 100000 in
/-- The handshake of C11 between two example sessions. -/
theorem honest_handshake_completes_witness :
    exampleHandshake.senv.aesInverts ∧
    exampleHandshake.remote.identHash = exampleHandshake.senv.identHash ∧
    exampleHandshake.client4.m_IsEstablished = true ∧
    exampleHandshake.server4.m_IsEstablished = true := by
  have hkey : (signingKey exampleHonestEnv (slice exampleHonestEnv.routerIdentity 0
      exampleHonestEnv.identitySize)).getD 0 0 = 7 := by decide
  have hkey2 : (signingKey exampleHonestEnv exampleHandshake.remote.identity).getD 0 0 = 7 := by
    decide
  have hsl : ∀ n : Nat, slice (List.replicate 40 n) 0 40 = List.replicate 40 n :=
    fun n => slice_full _ _ (by simp)
  have hdsa : ∀ key : Bytes, key.getD 0 0 = 7 → ∀ msg : Bytes,
      exampleHonestEnv.dsaVerify key msg (slice (exampleHonestEnv.Sign msg) 0 40) = true := by
    intro key hk msg
    show (slice (List.replicate 40 ((7 + msg.length) % 256)) 0 40 ==
      List.replicate 40 ((key.getD 0 0 + msg.length) % 256)) = true
    rw [hsl, hk]
    exact beq_self_eq_true _
  obtain ⟨_, _, _, _, k1, k2⟩ :=
    honest_handshake_completes exampleHandshake (List.replicate 256 10) rfl rfl rfl
      exampleEnv_aesInverts rfl rfl rfl (by decide) (by decide) (hdsa _ hkey) (hdsa _ hkey2)
  exact ⟨exampleEnv_aesInverts, rfl, k1.1, k2.1⟩

/-! ## The derived key and the argument pub -/

theorem sha256Digest_length (env : NTCP2Env) (data : Bytes) :
    (sha256Digest env data).length = 32 := slice_length _ _ _

/-- The local array `h` of `KeyDerivationFunction` after each of its two rounds:
a digest in the first half, the bytes hashed last in the second half. -/
theorem hashChain_round (d0 r d1 : Bytes) (tail : Bytes) (h0 : d0.length = 32)
    (hr : r.length = 32) (h1 : d1.length = 32) (ht : tail.length = 32) :
    slice (writeAt (d0 ++ tail) 32 r) 0 64 = d0 ++ r ∧
    writeAt (writeAt (d0 ++ tail) 32 r) 0 d1 = d1 ++ r := by
  have hw : writeAt (d0 ++ tail) 32 r = d0 ++ r := by
    rw [writeAt_within d0 tail r 32 h0, hr, ← ht, List.drop_length, List.append_nil]
  rw [hw]
  refine ⟨slice_full _ _ (by simp [h0, hr]), ?_⟩
  rw [writeAt_zero, h1, List.drop_left' h0]

set_option maxRecDepth 100000 in
/-- C21: `KeyDerivationFunction` returns the same key and the same result for
every two values of `pub`.  Its local array `h` does hold the hash chain over
the protocol name, `rs` and `pub` (a digest followed by the 32 bytes of `pub`),
and differs between two values of `pub` on the example session, but nothing of
it reaches `derived`.  So the buffer `SendSessionRequest` writes is the one
built with the key derived for any other `pub`, the unencrypted public key
included, in place of the encrypted `X` that the code passes. -/
theorem derived_key_ignores_pub (env : NTCP2Env) (s : NTCP2Session) (rs pub1 pub2 : Bytes)
    (key : Bytes) (rand now : Nat) (padding : Bytes) :
    (KeyDerivationFunction env s rs pub1).derived =
      (KeyDerivationFunction env s rs pub2).derived ∧
    (KeyDerivationFunction env s rs pub1).result =
      (KeyDerivationFunction env s rs pub2).result ∧
    (KeyDerivationFunction env s rs pub1).h =
      sha256Digest env
        (sha256Digest env (sha256Digest env protocolName ++ slice rs 0 32) ++ slice pub1 0 32)
        ++ slice pub1 0 32 ∧
    (KeyDerivationFunction exampleNTCP2Env exampleNTCP2Session (List.replicate 32 11)
        (List.replicate 32 1)).h ≠
      (KeyDerivationFunction exampleNTCP2Env exampleNTCP2Session (List.replicate 32 11)
        (List.replicate 32 2)).h ∧
    (SendSessionRequest env s key rand now padding).written = s.written ++
      [cbcEncryption env s.remoteIdentHash s.m_RemoteIV 2 (CreateEphemeralKey env s key).2
        ++ slice (env.chacha20
            (KeyDerivationFunction env (CreateEphemeralKey env s key).1 s.m_RemoteStaticKey
              pub1).derived 0
            (htobe16 2 ++ htobe16 (rand % 223) ++ htobe16 0 ++ [0, 0] ++ htobe32 now
              ++ [0, 0, 0, 0])) 0 16
        ++ slice (env.Poly1305HMAC
            (KeyDerivationFunction env (CreateEphemeralKey env s key).1 s.m_RemoteStaticKey
              pub1).derived
            (htobe16 2 ++ htobe16 (rand % 223) ++ htobe16 0 ++ [0, 0] ++ htobe32 now
              ++ [0, 0, 0, 0])) 0 16
        ++ slice padding 0 (rand % 223)] := by
  refine ⟨rfl, rfl, ?_, by decide, ?_⟩
  · have hz : writeAt (List.replicate 64 0) 0 (sha256Digest env (slice protocolName 0 32)) =
        sha256Digest env protocolName ++ List.replicate 32 0 := by
      rw [writeAt_zero, protocolName_slice, sha256Digest_length]
      rfl
    obtain ⟨a1, a2⟩ := hashChain_round (sha256Digest env protocolName) (slice rs 0 32)
      (sha256Digest env (sha256Digest env protocolName ++ slice rs 0 32)) (List.replicate 32 0)
      (sha256Digest_length _ _) (slice_length _ _ _) (sha256Digest_length _ _) (by simp)
    show writeAt (writeAt (writeAt (writeAt (writeAt (List.replicate 64 0) 0
        (sha256Digest env (slice protocolName 0 32))) 32 (slice rs 0 32)) 0
        (sha256Digest env (slice (writeAt (writeAt (List.replicate 64 0) 0
          (sha256Digest env (slice protocolName 0 32))) 32 (slice rs 0 32)) 0 64))) 32
        (slice pub1 0 32)) 0
        (sha256Digest env (slice (writeAt (writeAt (writeAt (writeAt (List.replicate 64 0) 0
        (sha256Digest env (slice protocolName 0 32))) 32 (slice rs 0 32)) 0
        (sha256Digest env (slice (writeAt (writeAt (List.replicate 64 0) 0
          (sha256Digest env (slice protocolName 0 32))) 32 (slice rs 0 32)) 0 64))) 32
        (slice pub1 0 32)) 0 64)) = _
    rw [hz, a1, a2]
    obtain ⟨b1, b2⟩ := hashChain_round
      (sha256Digest env (sha256Digest env protocolName ++ slice rs 0 32)) (slice pub1 0 32)
      (sha256Digest env
        (sha256Digest env (sha256Digest env protocolName ++ slice rs 0 32) ++ slice pub1 0 32))
      (slice rs 0 32)
      (sha256Digest_length _ _) (slice_length _ _ _) (sha256Digest_length _ _)
      (slice_length _ _ _)
    rw [b1, b2]
  · have hpub : (CreateEphemeralKey env s key).2.length = 32 := slice_length _ _ _
    have hx := cbcEncryption_length env s.remoteIdentHash s.m_RemoteIV _ hpub
    have hkey : (CreateEphemeralKey env s key).1.m_RemoteStaticKey = s.m_RemoteStaticKey := rfl
    have hw : (CreateEphemeralKey env s key).1.written = s.written := rfl
    have hk : (KeyDerivationFunction env (CreateEphemeralKey env s key).1 s.m_RemoteStaticKey
        (cbcEncryption env s.remoteIdentHash s.m_RemoteIV 2
          (CreateEphemeralKey env s key).2)).derived =
        (KeyDerivationFunction env (CreateEphemeralKey env s key).1 s.m_RemoteStaticKey
          pub1).derived := rfl
    unfold SendSessionRequest
    simp only [hkey, hw]
    rw [hk]
    generalize (KeyDerivationFunction env (CreateEphemeralKey env s key).1 s.m_RemoteStaticKey
      pub1).derived = k
    have h := sessionRequestOptions_signed rand now
      (slice (env.Poly1305HMAC k (slice (sessionRequestOptions rand now) 0 16)) 0 16)
      (slice (env.chacha20 k 0 (slice (writeAt (sessionRequestOptions rand now) 16
        (slice (env.Poly1305HMAC k (slice (sessionRequestOptions rand now) 0 16)) 0 16)) 0 16))
        0 16)
      (slice_length _ _ _) (slice_length _ _ _)
    rw [h.2.2, h.2.1, h.1, slice_full _ 32 hx]
    have hp : sessionRequestPaddingLength rand = rand % 223 := rfl
    rw [hp, sessionRequestBuffer_eq _ _ _ _ hx (by simp [slice_length]) (slice_length _ _ _)]
    simp

end NTCP
